import Mathlib

/-!
The matchers and handlers of `micropyconvert.cpp` (micropy-convert).

The program registers 44 Clang AST matchers, each with a `MatchCallback`
whose `run` method calls `Rewriter::InsertText`, `Rewriter::ReplaceText` or
`Rewriter::RemoveText`.  The development below embeds

* the part of the Clang AST the matchers inspect (`Decl`, `Stmt`),
* every registered matcher (`Rule.matcher`) and every handler (`Rule.run`),
* the traversal `matchAST`, which visits the tree parent first and offers
  every node to the matchers in registration order,
* the calls the handlers make on the rewriter (`RewriteCall`).
-/

namespace MicropyConvert

/-! ## Source locations -/

/-- The file a location lies in (`clang::FileID`). -/
abbrev FileID := Nat

/-- The main file of the translation unit (`SourceManager::getMainFileID`). -/
def mainFileID : FileID := 1

/-- A file location (`clang::SourceLocation`): a file and a byte offset into
the original buffer of that file.  Macro locations are not modelled. -/
structure SourceLocation where
  file : FileID
  offset : Nat
deriving DecidableEq, Repr

/-- A token range (`clang::SourceRange`): the range runs from the first
character of the token at `B` to the last character of the token at `E`. -/
structure SourceRange where
  B : SourceLocation
  E : SourceLocation
deriving DecidableEq, Repr

/-- The converting constructor `SourceRange(SourceLocation loc) : B(loc), E(loc)`.
It is what turns the `SourceLocation` argument of `ReplaceText(loc, str)` and
`RemoveText(loc)` into the range of the single token at `loc`. -/
def SourceRange.ofLoc (loc : SourceLocation) : SourceRange := ⟨loc, loc⟩

/-! ## The AST -/

/-- The part of a `clang::QualType` the matchers look at. -/
structure QualType where
  spelling : String
  isIntegerType : Bool
deriving DecidableEq, Repr

/-- The class of a declaration: `Var` stands for `VarDecl` and its subclasses,
`Function` for `FunctionDecl` and its subclasses, `UsingShadow` for
`UsingShadowDecl`. -/
inductive DeclKind where
  | Var
  | Function
  | UsingShadow
  | Other
deriving DecidableEq, Repr

/-- What a pointer to a declaration gives access to.  `declID` is the identity
of the declaration (the pointer value): two references resolve to the same
declaration exactly when their `declID`s agree. -/
structure NamedDecl where
  declID : Nat
  kind : DeclKind
  name : String
  type : QualType
  beginLoc : SourceLocation
  location : SourceLocation
  endLoc : SourceLocation
deriving DecidableEq, Repr

mutual
/-- A declaration node of the tree.  `decls` are the declarations nested
directly in it (the parameters of a function, the members of a namespace);
`stmt` is the statement it owns (the body of a function, the initializer of
a variable). -/
inductive Decl where
  | mk (info : NamedDecl) (decls : List Decl) (stmt : Option Stmt)
/-- A statement or expression node of the tree. -/
inductive Stmt where
  | IfStmt (ifLoc : SourceLocation) (cond thenStmt : Stmt) (elseStmt : Option Stmt)
  | ForStmt (forLoc : SourceLocation) (init cond inc : Option Stmt) (body : Stmt)
  | CompoundStmt (lBraceLoc rBraceLoc : SourceLocation) (body : List Stmt)
  | DeclStmt (beginLoc endLoc : SourceLocation) (decls : List Decl)
  | IntegerLiteral (loc : SourceLocation) (value : Nat) (type : QualType)
  | DeclRefExpr (qualifierLoc : Option SourceLocation) (nameLoc : SourceLocation)
      (decl foundDecl : NamedDecl) (type : QualType)
  | UnaryOperator (opLoc : SourceLocation) (opcode : String) (isPostfixOp : Bool)
      (subExpr : Stmt) (type : QualType)
  | BinaryOperator (opcode : String) (lhs rhs : Stmt) (type : QualType)
  | CallExpr (callee : Stmt) (args : List Stmt) (rParenLoc : SourceLocation) (type : QualType)
  | ImplicitCastExpr (subExpr : Stmt) (type : QualType)
  | ParenExpr (lParenLoc rParenLoc : SourceLocation) (subExpr : Stmt) (type : QualType)
  | OtherStmt (beginLoc endLoc : SourceLocation) (children : List Stmt) (type : Option QualType)
end

/-- The `NamedDecl` header of a declaration node. -/
def Decl.info : Decl → NamedDecl
  | .mk info _ _ => info

/-- The number of parameters, `FunctionDecl::getNumParams`. -/
def Decl.getNumParams : Decl → Nat
  | .mk _ decls _ => decls.length

/-- The location of the first token, `Stmt::getBeginLoc`. -/
def Stmt.getBeginLoc : Stmt → SourceLocation
  | .IfStmt ifLoc _ _ _ => ifLoc
  | .ForStmt forLoc _ _ _ _ => forLoc
  | .CompoundStmt lBraceLoc _ _ => lBraceLoc
  | .DeclStmt beginLoc _ _ => beginLoc
  | .IntegerLiteral loc _ _ => loc
  | .DeclRefExpr (some q) _ _ _ _ => q
  | .DeclRefExpr none nameLoc _ _ _ => nameLoc
  | .UnaryOperator opLoc _ false _ _ => opLoc
  | .UnaryOperator _ _ true subExpr _ => subExpr.getBeginLoc
  | .BinaryOperator _ lhs _ _ => lhs.getBeginLoc
  | .CallExpr callee _ _ _ => callee.getBeginLoc
  | .ImplicitCastExpr subExpr _ => subExpr.getBeginLoc
  | .ParenExpr lParenLoc _ _ _ => lParenLoc
  | .OtherStmt beginLoc _ _ _ => beginLoc

/-- The location of the last token, `Stmt::getEndLoc`. -/
def Stmt.getEndLoc : Stmt → SourceLocation
  | .IfStmt _ _ thenStmt none => thenStmt.getEndLoc
  | .IfStmt _ _ _ (some elseStmt) => elseStmt.getEndLoc
  | .ForStmt _ _ _ _ body => body.getEndLoc
  | .CompoundStmt _ rBraceLoc _ => rBraceLoc
  | .DeclStmt _ endLoc _ => endLoc
  | .IntegerLiteral loc _ _ => loc
  | .DeclRefExpr _ nameLoc _ _ _ => nameLoc
  | .UnaryOperator _ _ false subExpr _ => subExpr.getEndLoc
  | .UnaryOperator opLoc _ true _ _ => opLoc
  | .BinaryOperator _ _ rhs _ => rhs.getEndLoc
  | .CallExpr _ _ rParenLoc _ => rParenLoc
  | .ImplicitCastExpr subExpr _ => subExpr.getEndLoc
  | .ParenExpr _ rParenLoc _ _ => rParenLoc
  | .OtherStmt _ endLoc _ _ => endLoc

/-- The type of an expression, `Expr::getType`; `none` for a statement that
is not an expression. -/
def Stmt.getType : Stmt → Option QualType
  | .IfStmt _ _ _ _ => none
  | .ForStmt _ _ _ _ _ => none
  | .CompoundStmt _ _ _ => none
  | .DeclStmt _ _ _ => none
  | .IntegerLiteral _ _ type => some type
  | .DeclRefExpr _ _ _ _ type => some type
  | .UnaryOperator _ _ _ _ type => some type
  | .BinaryOperator _ _ _ type => some type
  | .CallExpr _ _ _ type => some type
  | .ImplicitCastExpr _ type => some type
  | .ParenExpr _ _ _ type => some type
  | .OtherStmt _ _ _ type => type

/-- The statement children of a statement, in source order.  The children of
a `DeclStmt` are declarations, so it has no statement child. -/
def Stmt.children : Stmt → List Stmt
  | .IfStmt _ cond thenStmt none => [cond, thenStmt]
  | .IfStmt _ cond thenStmt (some elseStmt) => [cond, thenStmt, elseStmt]
  | .ForStmt _ init cond inc body => init.toList ++ cond.toList ++ inc.toList ++ [body]
  | .CompoundStmt _ _ body => body
  | .DeclStmt _ _ _ => []
  | .IntegerLiteral _ _ _ => []
  | .DeclRefExpr _ _ _ _ _ => []
  | .UnaryOperator _ _ _ subExpr _ => [subExpr]
  | .BinaryOperator _ lhs rhs _ => [lhs, rhs]
  | .CallExpr callee args _ _ => callee :: args
  | .ImplicitCastExpr subExpr _ => [subExpr]
  | .ParenExpr _ _ subExpr _ => [subExpr]
  | .OtherStmt _ _ children _ => children

/-- Strips parentheses and implicit casts, `Expr::IgnoreParenImpCasts`. -/
def Stmt.IgnoreParenImpCasts : Stmt → Stmt
  | .ImplicitCastExpr subExpr _ => subExpr.IgnoreParenImpCasts
  | .ParenExpr _ _ subExpr _ => subExpr.IgnoreParenImpCasts
  | s => s

/-- The declaration a callee expression refers to,
`Expr::getReferencedDeclOfCallee`: parentheses and implicit casts are
stripped, a dereference, address-of or unary plus is looked through, and a
`DeclRefExpr` yields its declaration.  Every other callee (a call through
the value of an expression) has no declaration. -/
def Stmt.getReferencedDeclOfCallee : Stmt → Option NamedDecl
  | .ImplicitCastExpr subExpr _ => subExpr.getReferencedDeclOfCallee
  | .ParenExpr _ _ subExpr _ => subExpr.getReferencedDeclOfCallee
  | .UnaryOperator _ opcode _ subExpr _ =>
      if opcode = "*" ∨ opcode = "&" ∨ opcode = "+" then subExpr.getReferencedDeclOfCallee
      else none
  | .DeclRefExpr _ _ decl _ _ => some decl
  | _ => none

/-- The declaration a call resolves to, `CallExpr::getCalleeDecl`. -/
def Stmt.getCalleeDecl : Stmt → Option NamedDecl
  | .CallExpr callee _ _ _ => callee.getReferencedDeclOfCallee
  | _ => none

/-! ## Bound nodes and the calls on the rewriter -/

/-- A node bound by `.bind(ID)`: a declaration (reached in the tree or through
a reference) or a statement. -/
inductive DynTypedNode where
  | decl (d : NamedDecl)
  | stmt (s : Stmt)

/-- The nodes bound by one match, `MatchFinder::MatchResult::Nodes`. -/
abbrev BoundNodes := List (String × DynTypedNode)

/-- The classes the handlers ask for in `getNodeAs<T>`. -/
inductive NodeClass where
  | IfStmt
  | VarDecl
  | CallExpr
  | FunctionDecl
  | Stmt
  | DeclRefExpr
deriving DecidableEq, Repr

/-- Whether a bound node is an instance of the class `T`. -/
def DynTypedNode.isa : NodeClass → DynTypedNode → Bool
  | .Stmt, .stmt _ => true
  | .IfStmt, .stmt (.IfStmt _ _ _ _) => true
  | .CallExpr, .stmt (.CallExpr _ _ _ _) => true
  | .DeclRefExpr, .stmt (.DeclRefExpr _ _ _ _ _) => true
  | .VarDecl, .decl d => d.kind = .Var
  | .FunctionDecl, .decl d => d.kind = .Function
  | _, _ => false

/-- The lookup `Result.Nodes.getNodeAs<T>(ID)`: the node bound to `ID` when
there is one and it is a `T`, the null pointer (`none`) otherwise. -/
def getNodeAs (Nodes : BoundNodes) (T : NodeClass) (ID : String) : Option DynTypedNode :=
  match Nodes.lookup ID with
  | some n => if n.isa T then some n else none
  | none => none

/-- The first token of a bound node, `getBeginLoc()`. -/
def DynTypedNode.getBeginLoc : DynTypedNode → SourceLocation
  | .decl d => d.beginLoc
  | .stmt s => s.getBeginLoc

/-- The last token of a bound node, `getEndLoc()`. -/
def DynTypedNode.getEndLoc : DynTypedNode → SourceLocation
  | .decl d => d.endLoc
  | .stmt s => s.getEndLoc

/-- One call a handler makes on the `Rewriter`, with its arguments as the
handler passes them (default arguments filled in). -/
inductive RewriteCall where
  | InsertText (Loc : SourceLocation) (Str : String) (InsertAfter indentNewLines : Bool)
  | ReplaceText (range : SourceRange) (NewStr : String)
  | RemoveText (range : SourceRange)
deriving DecidableEq, Repr

/-! ## The handlers

A handler returns the calls it makes, in order; `none` stands for the
dereference of a null pointer returned by `getNodeAs`. -/

/-- The handler `IfStmtHandler::run`. -/
def IfStmtHandler.run (Result : BoundNodes) : Option (List RewriteCall) :=
  match getNodeAs Result .IfStmt "ifStmt" with
  | some (.stmt (.IfStmt _ _ Then none)) =>
      some [.InsertText Then.getBeginLoc "#if part\n" true true]
  | some (.stmt (.IfStmt _ _ Then (some Else))) =>
      some [.InsertText Then.getBeginLoc "#if part\n" true true,
            .InsertText Else.getBeginLoc "#else part\n" true true]
  | _ => some []

/-- The handler `IncrementForLoopHandler::run`. -/
def IncrementForLoopHandler.run (Result : BoundNodes) : Option (List RewriteCall) :=
  match getNodeAs Result .VarDecl "incVarName" with
  | some IncVar => some [.InsertText IncVar.getBeginLoc "#incvar/n" true true]
  | none => none

/-- The handler body shared by the rules that rename a call and leave a
comment: `p = getNodeAs<T>(ID); Rewrite.ReplaceText(p->getBeginLoc(), NewStr);
Rewrite.InsertText(p->getBeginLoc(), Comment, true, true);`. -/
def replaceAndComment (T : NodeClass) (ID NewStr Comment : String) (Results : BoundNodes) :
    Option (List RewriteCall) :=
  match getNodeAs Results T ID with
  | some p => some [.ReplaceText (.ofLoc p.getBeginLoc) NewStr,
                    .InsertText p.getBeginLoc Comment true true]
  | none => none

/-- The handler body `p = getNodeAs<T>(ID); Rewrite.ReplaceText(p->getBeginLoc(), NewStr);`. -/
def replaceAtBeginLoc (T : NodeClass) (ID NewStr : String) (Results : BoundNodes) :
    Option (List RewriteCall) :=
  match getNodeAs Results T ID with
  | some p => some [.ReplaceText (.ofLoc p.getBeginLoc) NewStr]
  | none => none

/-- The handler body `p = getNodeAs<T>(ID); Rewrite.InsertText(p->getBeginLoc(), Str, InsertAfter,
indentNewLines);`. -/
def insertAtBeginLoc (T : NodeClass) (ID Str : String) (InsertAfter indentNewLines : Bool)
    (Results : BoundNodes) : Option (List RewriteCall) :=
  match getNodeAs Results T ID with
  | some p => some [.InsertText p.getBeginLoc Str InsertAfter indentNewLines]
  | none => none

/-- The handler `pinModeVariableHandler::run`. -/
def pinModeVariableHandler.run : BoundNodes → Option (List RewriteCall) :=
  replaceAndComment .CallExpr "pinMode" "Pin.mode" "#from machine import pin at start of code\n"

/-- The handler `loopExprHandler::run`. -/
def loopExprHandler.run (Results : BoundNodes) : Option (List RewriteCall) :=
  match getNodeAs Results .FunctionDecl "loopexpr" with
  | some (.decl loop) =>
      some [.RemoveText (.ofLoc loop.location),
            .ReplaceText (.ofLoc loop.beginLoc) "While True:",
            .ReplaceText (.ofLoc loop.location) " "]
  | _ => none

/-- The handler `delayHandler::run`. -/
def delayHandler.run : BoundNodes → Option (List RewriteCall) :=
  replaceAtBeginLoc .CallExpr "delay" "utime.sleep_ms"

/-- The handler `setupHandler::run`. -/
def setupHandler.run (Results : BoundNodes) : Option (List RewriteCall) :=
  match getNodeAs Results .FunctionDecl "setupfunc" with
  | some (.decl setupfinder) =>
      some [.RemoveText (.ofLoc setupfinder.location),
            .RemoveText (.ofLoc setupfinder.beginLoc),
            .ReplaceText (.ofLoc setupfinder.beginLoc) " "]
  | _ => none

/-- The handler `compoundStmtHandler::run`. -/
def compoundStmtHandler.run (Results : BoundNodes) : Option (List RewriteCall) :=
  match getNodeAs Results .Stmt "compoundstmt" with
  | some compoundstmtfinder =>
      some [.InsertText compoundstmtfinder.getBeginLoc "#" true true,
            .InsertText compoundstmtfinder.getEndLoc "#" true true]
  | none => none

/-- The handler `powerHandler::run`. -/
def powerHandler.run : BoundNodes → Option (List RewriteCall) :=
  insertAtBeginLoc .Stmt "pow" "math." true true

/-- The handler `sqrtHandler::run`. -/
def sqrtHandler.run : BoundNodes → Option (List RewriteCall) :=
  insertAtBeginLoc .Stmt "sqrt" "math." true true

/-- The handler `sinHandler::run`. -/
def sinHandler.run : BoundNodes → Option (List RewriteCall) :=
  insertAtBeginLoc .Stmt "sin" "math." true true

/-- The handler `cosHandler::run`. -/
def cosHandler.run : BoundNodes → Option (List RewriteCall) :=
  insertAtBeginLoc .Stmt "cos" "math." true true

/-- The handler `tanHandler::run`. -/
def tanHandler.run : BoundNodes → Option (List RewriteCall) :=
  insertAtBeginLoc .Stmt "tan" "math." true true

/-- The handler `delayMicrosecondsHandler::run`. -/
def delayMicrosecondsHandler.run : BoundNodes → Option (List RewriteCall) :=
  replaceAtBeginLoc .CallExpr "delayMicroseconds" "utime.sleep_us"

/-- The handler `millisHandler::run`. -/
def millisHandler.run : BoundNodes → Option (List RewriteCall) :=
  replaceAtBeginLoc .CallExpr "millis" "utime.ticks_ms"

/-- The handler `microsHandler::run`. -/
def microsHandler.run : BoundNodes → Option (List RewriteCall) :=
  replaceAtBeginLoc .CallExpr "micros" "utime.ticks_us"

/-- The handler `pulseInHandler::run`. -/
def pulseInHandler.run : BoundNodes → Option (List RewriteCall) :=
  replaceAtBeginLoc .CallExpr "pulseIn" "machine.time_pulse_us"

/-- The handler `pinModePinHandler::run`. -/
def pinModePinHandler.run : BoundNodes → Option (List RewriteCall) :=
  insertAtBeginLoc .Stmt "pinModePin" "p" true true

/-- The handler `inputHandler::run`. -/
def inputHandler.run : BoundNodes → Option (List RewriteCall) :=
  replaceAtBeginLoc .Stmt "INPUT" "IN"

/-- The handler `outputHandler::run`. -/
def outputHandler.run : BoundNodes → Option (List RewriteCall) :=
  replaceAtBeginLoc .Stmt "OUTPUT" "OUT"

/-- The handler `inputpullupHandler::run`. -/
def inputpullupHandler.run : BoundNodes → Option (List RewriteCall) :=
  replaceAtBeginLoc .Stmt "INPUT_PULLUP" "PULL_UP"

/-- The comment the character-test handlers insert. -/
def ureComment : String := "#import ure at start of code\n"

/-- The handler `isAlphaHandler::run`. -/
def isAlphaHandler.run : BoundNodes → Option (List RewriteCall) :=
  replaceAndComment .CallExpr "isAlpha" "ure.match" ureComment

/-- The handler `isAlphaVarHandler::run`. -/
def isAlphaVarHandler.run : BoundNodes → Option (List RewriteCall) :=
  insertAtBeginLoc .DeclRefExpr "isAlphaVar" "'[A-Za-z]', " true false

/-- The handler `isAlphaNumericHandler::run`. -/
def isAlphaNumericHandler.run : BoundNodes → Option (List RewriteCall) :=
  replaceAndComment .CallExpr "isAlphaNumeric" "ure.match" ureComment

/-- The handler `isAlphaNumericVarHandler::run`. -/
def isAlphaNumericVarHandler.run : BoundNodes → Option (List RewriteCall) :=
  insertAtBeginLoc .DeclRefExpr "isAlphaNumericVar" "'[A-Za-z0-9]', " true false

/-- The handler `isAsciiHandler::run`. -/
def isAsciiHandler.run : BoundNodes → Option (List RewriteCall) :=
  replaceAndComment .CallExpr "isAscii" "ure.match" ureComment

/-- The handler `isAsciiVarHandler::run`. -/
def isAsciiVarHandler.run : BoundNodes → Option (List RewriteCall) :=
  insertAtBeginLoc .DeclRefExpr "isAsciiVar" "'\\w\\W' " true false

/-- The handler `isDigitHandler::run`. -/
def isDigitHandler.run : BoundNodes → Option (List RewriteCall) :=
  replaceAndComment .CallExpr "isDigit" "ure.match" ureComment

/-- The handler `isDigitVarHandler::run`. -/
def isDigitVarHandler.run : BoundNodes → Option (List RewriteCall) :=
  insertAtBeginLoc .DeclRefExpr "isDigitVar" "'\\d' " true false

/-- The handler `isLowerCaseHandler::run`. -/
def isLowerCaseHandler.run : BoundNodes → Option (List RewriteCall) :=
  replaceAndComment .CallExpr "isLowerCase" "ure.match" ureComment

/-- The handler `isLowerCaseVarHandler::run`. -/
def isLowerCaseVarHandler.run : BoundNodes → Option (List RewriteCall) :=
  insertAtBeginLoc .DeclRefExpr "isLowerCaseVar" "'[a-z]', " true false

/-- The handler `isPunctHandler::run`. -/
def isPunctHandler.run : BoundNodes → Option (List RewriteCall) :=
  replaceAndComment .CallExpr "isPunct" "ure.match" ureComment

/-- The handler `isPunctVarHandler::run`. -/
def isPunctVarHandler.run : BoundNodes → Option (List RewriteCall) :=
  insertAtBeginLoc .DeclRefExpr "isPunctVar" "'\\W' " true false

/-- The handler `isSpaceHandler::run`. -/
def isSpaceHandler.run : BoundNodes → Option (List RewriteCall) :=
  replaceAndComment .CallExpr "isSpace" "ure.match" ureComment

/-- The handler `isSpaceVarHandler::run`. -/
def isSpaceVarHandler.run : BoundNodes → Option (List RewriteCall) :=
  insertAtBeginLoc .DeclRefExpr "isSpaceVar" "'\\f\\n\\r\\t\\v\\s', " true false

/-- The handler `isUpperCaseHandler::run`. -/
def isUpperCaseHandler.run : BoundNodes → Option (List RewriteCall) :=
  replaceAndComment .CallExpr "isUpperCase" "ure.match" ureComment

/-- The handler `isUpperCaseVarHandler::run`. -/
def isUpperCaseVarHandler.run : BoundNodes → Option (List RewriteCall) :=
  insertAtBeginLoc .DeclRefExpr "isUpperCaseVar" "'[A-Z]', " true false

/-- The handler `isWhitespaceHandler::run`. -/
def isWhitespaceHandler.run : BoundNodes → Option (List RewriteCall) :=
  replaceAndComment .CallExpr "isWhitespace" "ure.match" ureComment

/-- The handler `isWhitespaceVarHandler::run`. -/
def isWhitespaceVarHandler.run : BoundNodes → Option (List RewriteCall) :=
  insertAtBeginLoc .DeclRefExpr "isWhitespaceVar" "'\\s\\t', " true false

/-- The handler `analogReadHandler::run`. -/
def analogReadHandler.run : BoundNodes → Option (List RewriteCall) :=
  replaceAndComment .CallExpr "analogRead" "ADC.read_u16" "#import machine at start of code\n"

/-- The handler `analogWriteHandler::run`. -/
def analogWriteHandler.run : BoundNodes → Option (List RewriteCall) :=
  replaceAndComment .CallExpr "analogWrite" "machine.PWM" "#import machine at start of code\n"

/-- The handler `digitalReadHandler::run`. -/
def digitalReadHandler.run : BoundNodes → Option (List RewriteCall) :=
  replaceAtBeginLoc .CallExpr "digitalRead" "Pin.value"

/-- The handler `digitalWriteHandler::run`. -/
def digitalWriteHandler.run : BoundNodes → Option (List RewriteCall) :=
  replaceAtBeginLoc .CallExpr "digitalWrite" "Pin.value"

/-- The handler `piHandler::run`. -/
def piHandler.run : BoundNodes → Option (List RewriteCall) :=
  replaceAtBeginLoc .DeclRefExpr "PI" "math.pi"

/-- The handler `eulerHandler::run`. -/
def eulerHandler.run : BoundNodes → Option (List RewriteCall) :=
  replaceAtBeginLoc .DeclRefExpr "EULER" "math.e"

/-! ## The matchers -/

/-- A node offered to the matchers: a declaration or a statement of the tree. -/
inductive Node where
  | decl (d : Decl)
  | stmt (s : Stmt)

/-- The narrowing matcher `isExpansionInMainFile()`, on the begin location of
the node. -/
def isExpansionInMainFile (loc : SourceLocation) : Bool :=
  loc.file == mainFileID

/-- The narrowing matcher `hasName(Name)` for a `Name` without `::`: the
unqualified name of the declaration is `Name`. -/
def hasName (Name : String) (d : NamedDecl) : Bool :=
  d.name == Name

/-- The matcher `callee(functionDecl(hasName(Name)))` on a call: the call
resolves to a declaration, that declaration is a function, and it is named
`Name`.  A call without a callee declaration does not match. -/
def calleeFunctionDecl (Name : String) (call : Stmt) : Bool :=
  match call.getCalleeDecl with
  | some d => d.kind == .Function && hasName Name d
  | none => false

/-- The matcher `hasAncestor(callExpr(callee(functionDecl(hasName(Name)))))`. -/
def hasAncestorCall (Name : String) (ancestors : List Stmt) : Bool :=
  ancestors.any fun a =>
    match a with
    | .CallExpr _ _ _ _ => calleeFunctionDecl Name a
    | _ => false

/-- The matcher `ifStmt().bind("ifStmt")`. -/
def ifStmtMatcher : Node → Option BoundNodes
  | .stmt (.IfStmt ifLoc cond thenStmt elseStmt) =>
      some [("ifStmt", .stmt (.IfStmt ifLoc cond thenStmt elseStmt))]
  | _ => none

/-- The sub-matcher `hasLoopInit(declStmt(hasSingleDecl(varDecl(hasInitializer(
integerLiteral(equals(0)))).bind("initVarName"))))`: the bound variable. -/
def hasLoopInit : Option Stmt → Option NamedDecl
  | some (.DeclStmt _ _ [.mk info _ (some (.IntegerLiteral _ 0 _))]) =>
      if info.kind == .Var then some info else none
  | _ => none

/-- The sub-matcher `hasIncrement(unaryOperator(hasOperatorName("++"),
hasUnaryOperand(declRefExpr(to(varDecl(hasType(isInteger())).bind("incVarName"))))))`:
the bound variable. -/
def hasIncrement : Option Stmt → Option NamedDecl
  | some (.UnaryOperator _ opcode _ (.DeclRefExpr _ _ decl _ _) _) =>
      if opcode == "++" && decl.kind == .Var && decl.type.isIntegerType then some decl else none
  | _ => none

/-- The matcher `expr(hasType(isInteger()))`. -/
def exprHasIntegerType (e : Stmt) : Bool :=
  match e.getType with
  | some t => t.isIntegerType
  | none => false

/-- The sub-matcher `hasCondition(binaryOperator(hasOperatorName("<"),
hasLHS(ignoringParenImpCasts(declRefExpr(to(varDecl(hasType(isInteger()))
.bind("condVarName"))))), hasRHS(expr(hasType(isInteger())))))`: the bound
variable. -/
def hasCondition : Option Stmt → Option NamedDecl
  | some (.BinaryOperator opcode lhs rhs _) =>
      match lhs.IgnoreParenImpCasts with
      | .DeclRefExpr _ _ decl _ _ =>
          if opcode == "<" && decl.kind == .Var && decl.type.isIntegerType
              && exprHasIntegerType rhs then some decl else none
      | _ => none
  | _ => none

/-- The matcher `forStmt(hasLoopInit(..), hasIncrement(..), hasCondition(..)).bind("forLoop")`. -/
def forStmtMatcher : Node → Option BoundNodes
  | .stmt (.ForStmt forLoc init cond inc body) =>
      match hasLoopInit init, hasIncrement inc, hasCondition cond with
      | some initVar, some incVar, some condVar =>
          some [("initVarName", .decl initVar), ("incVarName", .decl incVar),
                ("condVarName", .decl condVar),
                ("forLoop", .stmt (.ForStmt forLoc init cond inc body))]
      | _, _, _ => none
  | _ => none

/-- The matcher `callExpr(isExpansionInMainFile(), callee(functionDecl(hasName(Name)))).bind(ID)`. -/
def callExprMatcher (Name ID : String) : Node → Option BoundNodes
  | .stmt (.CallExpr callee args rParenLoc type) =>
      let call := Stmt.CallExpr callee args rParenLoc type
      if isExpansionInMainFile call.getBeginLoc && calleeFunctionDecl Name call
      then some [(ID, .stmt call)] else none
  | _ => none

/-- The matcher `functionDecl(isExpansionInMainFile(), hasName("loop"),
parameterCountIs(0)).bind("loopexpr")`. -/
def loopexprMatcher : Node → Option BoundNodes
  | .decl d =>
      if d.info.kind == .Function && isExpansionInMainFile d.info.beginLoc
          && hasName "loop" d.info && d.getNumParams == 0
      then some [("loopexpr", .decl d.info)] else none
  | _ => none

/-- The matcher `functionDecl(isExpansionInMainFile(), hasName("setup")).bind("setupfunc")`. -/
def setupfuncMatcher : Node → Option BoundNodes
  | .decl d =>
      if d.info.kind == .Function && isExpansionInMainFile d.info.beginLoc
          && hasName "setup" d.info
      then some [("setupfunc", .decl d.info)] else none
  | _ => none

/-- The matcher `stmt(isExpansionInMainFile(), compoundStmt()).bind("compoundstmt")`. -/
def compoundStmtMatcher : Node → Option BoundNodes
  | .stmt (.CompoundStmt lBraceLoc rBraceLoc body) =>
      if isExpansionInMainFile lBraceLoc
      then some [("compoundstmt", .stmt (.CompoundStmt lBraceLoc rBraceLoc body))] else none
  | _ => none

/-- The matcher `declRefExpr(throughUsingDecl(hasName(Name)))`: the reference
found its declaration through a using-shadow declaration named `Name`. -/
def throughUsingDecl (Name : String) : Stmt → Bool
  | .DeclRefExpr _ _ _ foundDecl _ => foundDecl.kind == .UsingShadow && hasName Name foundDecl
  | _ => false

/-- The matcher `stmt(isExpansionInMainFile(),
has(declRefExpr(throughUsingDecl(hasName(Name))))).bind(ID)`. -/
def usingDeclRefMatcher (Name ID : String) : Node → Option BoundNodes
  | .stmt s =>
      if isExpansionInMainFile s.getBeginLoc && s.children.any (throughUsingDecl Name)
      then some [(ID, .stmt s)] else none
  | _ => none

/-- The matcher `integerLiteral()`. -/
def integerLiteral : Stmt → Bool
  | .IntegerLiteral _ _ _ => true
  | _ => false

/-- The matcher `stmt(isExpansionInMainFile(),
hasAncestor(callExpr(callee(functionDecl(hasName("pinMode"))))),
has(integerLiteral())).bind("pinModePin")`. -/
def pinModePinMatcher (ancestors : List Stmt) : Node → Option BoundNodes
  | .stmt s =>
      if isExpansionInMainFile s.getBeginLoc && hasAncestorCall "pinMode" ancestors
          && s.children.any integerLiteral
      then some [("pinModePin", .stmt s)] else none
  | _ => none

/-- The matchers `stmt(isExpansionInMainFile(), declRefExpr(to(varDecl(hasName(Name))))).bind(ID)`
and `declRefExpr(isExpansionInMainFile(), to(varDecl(hasName(Name)))).bind(ID)`. -/
def varRefMatcher (Name ID : String) : Node → Option BoundNodes
  | .stmt (.DeclRefExpr qualifierLoc nameLoc decl foundDecl type) =>
      let ref := Stmt.DeclRefExpr qualifierLoc nameLoc decl foundDecl type
      if isExpansionInMainFile ref.getBeginLoc && decl.kind == .Var && hasName Name decl
      then some [(ID, .stmt ref)] else none
  | _ => none

/-- The matcher `declRefExpr(isExpansionInMainFile(), to(varDecl()),
hasAncestor(callExpr(callee(functionDecl(hasName(Name)))))).bind(ID)`. -/
def argVarMatcher (Name ID : String) (ancestors : List Stmt) : Node → Option BoundNodes
  | .stmt (.DeclRefExpr qualifierLoc nameLoc decl foundDecl type) =>
      let ref := Stmt.DeclRefExpr qualifierLoc nameLoc decl foundDecl type
      if isExpansionInMainFile ref.getBeginLoc && decl.kind == .Var
          && hasAncestorCall Name ancestors
      then some [(ID, .stmt ref)] else none
  | _ => none

/-! ## The rule table of `MyASTConsumer` -/

/-- The 44 handler members of `MyASTConsumer`, one per registered matcher. -/
inductive Rule where
  | HandlerForIf
  | HandlerForFor
  | HandlerForpinMode
  | HandlerForLoopExpr
  | HandlerForDelay
  | HandlerForSetup
  | HandlerForCompoundStmt
  | HandlerForPower
  | HandlerForSqrt
  | HandlerForSin
  | HandlerForCos
  | HandlerForTan
  | HandlerForDelayMicroseconds
  | HandlerForMillis
  | HandlerForMicros
  | HandlerForPulseIn
  | HandlerForPinModePin
  | HandlerForINPUT
  | HandlerForOUTPUT
  | HandlerForINPUTPULLUP
  | HandlerForIsAlpha
  | HandlerForIsAlphaVar
  | HandlerForIsAlphaNumeric
  | HandlerForIsAlphaNumericVar
  | HandlerForIsAscii
  | HandlerForIsAsciiVar
  | HandlerForIsDigit
  | HandlerForIsDigitVar
  | HandlerForIsLowerCase
  | HandlerForIsLowerCaseVar
  | HandlerForIsPunct
  | HandlerForIsPunctVar
  | HandlerForIsSpace
  | HandlerForIsSpaceVar
  | HandlerForIsUpperCase
  | HandlerForIsUpperCaseVar
  | HandlerForIsWhitespace
  | HandlerForIsWhitespaceVar
  | HandlerForAnalogRead
  | HandlerForAnalogWrite
  | HandlerForDigitalRead
  | HandlerForDigitalWrite
  | HandlerForPi
  | HandlerForEuler
deriving DecidableEq, Repr

/-- The matcher each handler is registered with in the constructor of
`MyASTConsumer`.  `ancestors` are the statements above the node, nearest
first. -/
def Rule.matcher (r : Rule) (ancestors : List Stmt) (n : Node) : Option BoundNodes :=
  match r with
  | .HandlerForIf => ifStmtMatcher n
  | .HandlerForFor => forStmtMatcher n
  | .HandlerForpinMode => callExprMatcher "pinMode" "pinMode" n
  | .HandlerForLoopExpr => loopexprMatcher n
  | .HandlerForDelay => callExprMatcher "delay" "delay" n
  | .HandlerForSetup => setupfuncMatcher n
  | .HandlerForCompoundStmt => compoundStmtMatcher n
  | .HandlerForPower => usingDeclRefMatcher "pow" "pow" n
  | .HandlerForSqrt => usingDeclRefMatcher "sqrt" "sqrt" n
  | .HandlerForSin => usingDeclRefMatcher "sin" "sin" n
  | .HandlerForCos => usingDeclRefMatcher "cos" "cos" n
  | .HandlerForTan => usingDeclRefMatcher "tan" "tan" n
  | .HandlerForDelayMicroseconds => callExprMatcher "delayMicroseconds" "delayMicroseconds" n
  | .HandlerForMillis => callExprMatcher "millis" "millis" n
  | .HandlerForMicros => callExprMatcher "micros" "micros" n
  | .HandlerForPulseIn => callExprMatcher "pulseIn" "pulseIn" n
  | .HandlerForPinModePin => pinModePinMatcher ancestors n
  | .HandlerForINPUT => varRefMatcher "INPUT" "INPUT" n
  | .HandlerForOUTPUT => varRefMatcher "OUTPUT" "OUTPUT" n
  | .HandlerForINPUTPULLUP => varRefMatcher "INPUT_PULLUP" "INPUT_PULLUP" n
  | .HandlerForIsAlpha => callExprMatcher "isAlpha" "isAlpha" n
  | .HandlerForIsAlphaVar => argVarMatcher "isAlpha" "isAlphaVar" ancestors n
  | .HandlerForIsAlphaNumeric => callExprMatcher "isAlphaNumeric" "isAlphaNumeric" n
  | .HandlerForIsAlphaNumericVar => argVarMatcher "isAlphaNumeric" "isAlphaNumericVar" ancestors n
  | .HandlerForIsAscii => callExprMatcher "isAscii" "isAscii" n
  | .HandlerForIsAsciiVar => argVarMatcher "isAscii" "isAsciiVar" ancestors n
  | .HandlerForIsDigit => callExprMatcher "isDigit" "isDigit" n
  | .HandlerForIsDigitVar => argVarMatcher "isDigit" "isDigitVar" ancestors n
  | .HandlerForIsLowerCase => callExprMatcher "isLowerCase" "isLowerCase" n
  | .HandlerForIsLowerCaseVar => argVarMatcher "isLowerCase" "isLowerCaseVar" ancestors n
  | .HandlerForIsPunct => callExprMatcher "isPunct" "isPunct" n
  | .HandlerForIsPunctVar => argVarMatcher "isPunct" "isPunctVar" ancestors n
  | .HandlerForIsSpace => callExprMatcher "isSpace" "isSpace" n
  | .HandlerForIsSpaceVar => argVarMatcher "isSpace" "isSpaceVar" ancestors n
  | .HandlerForIsUpperCase => callExprMatcher "isUpperCase" "isUpperCase" n
  | .HandlerForIsUpperCaseVar => argVarMatcher "isUpperCase" "isUpperCaseVar" ancestors n
  | .HandlerForIsWhitespace => callExprMatcher "isWhitespace" "isWhitespace" n
  | .HandlerForIsWhitespaceVar => argVarMatcher "isWhitespace" "isWhitespaceVar" ancestors n
  | .HandlerForAnalogRead => callExprMatcher "analogRead" "analogRead" n
  | .HandlerForAnalogWrite => callExprMatcher "analogWrite" "analogWrite" n
  | .HandlerForDigitalRead => callExprMatcher "digitalRead" "digitalRead" n
  | .HandlerForDigitalWrite => callExprMatcher "digitalWrite" "digitalWrite" n
  | .HandlerForPi => varRefMatcher "PI" "PI" n
  | .HandlerForEuler => varRefMatcher "EULER" "EULER" n

/-- The `run` method of each handler. -/
def Rule.run : Rule → BoundNodes → Option (List RewriteCall)
  | .HandlerForIf => IfStmtHandler.run
  | .HandlerForFor => IncrementForLoopHandler.run
  | .HandlerForpinMode => pinModeVariableHandler.run
  | .HandlerForLoopExpr => loopExprHandler.run
  | .HandlerForDelay => delayHandler.run
  | .HandlerForSetup => setupHandler.run
  | .HandlerForCompoundStmt => compoundStmtHandler.run
  | .HandlerForPower => powerHandler.run
  | .HandlerForSqrt => sqrtHandler.run
  | .HandlerForSin => sinHandler.run
  | .HandlerForCos => cosHandler.run
  | .HandlerForTan => tanHandler.run
  | .HandlerForDelayMicroseconds => delayMicrosecondsHandler.run
  | .HandlerForMillis => millisHandler.run
  | .HandlerForMicros => microsHandler.run
  | .HandlerForPulseIn => pulseInHandler.run
  | .HandlerForPinModePin => pinModePinHandler.run
  | .HandlerForINPUT => inputHandler.run
  | .HandlerForOUTPUT => outputHandler.run
  | .HandlerForINPUTPULLUP => inputpullupHandler.run
  | .HandlerForIsAlpha => isAlphaHandler.run
  | .HandlerForIsAlphaVar => isAlphaVarHandler.run
  | .HandlerForIsAlphaNumeric => isAlphaNumericHandler.run
  | .HandlerForIsAlphaNumericVar => isAlphaNumericVarHandler.run
  | .HandlerForIsAscii => isAsciiHandler.run
  | .HandlerForIsAsciiVar => isAsciiVarHandler.run
  | .HandlerForIsDigit => isDigitHandler.run
  | .HandlerForIsDigitVar => isDigitVarHandler.run
  | .HandlerForIsLowerCase => isLowerCaseHandler.run
  | .HandlerForIsLowerCaseVar => isLowerCaseVarHandler.run
  | .HandlerForIsPunct => isPunctHandler.run
  | .HandlerForIsPunctVar => isPunctVarHandler.run
  | .HandlerForIsSpace => isSpaceHandler.run
  | .HandlerForIsSpaceVar => isSpaceVarHandler.run
  | .HandlerForIsUpperCase => isUpperCaseHandler.run
  | .HandlerForIsUpperCaseVar => isUpperCaseVarHandler.run
  | .HandlerForIsWhitespace => isWhitespaceHandler.run
  | .HandlerForIsWhitespaceVar => isWhitespaceVarHandler.run
  | .HandlerForAnalogRead => analogReadHandler.run
  | .HandlerForAnalogWrite => analogWriteHandler.run
  | .HandlerForDigitalRead => digitalReadHandler.run
  | .HandlerForDigitalWrite => digitalWriteHandler.run
  | .HandlerForPi => piHandler.run
  | .HandlerForEuler => eulerHandler.run

/-- The handlers in the order of the `addMatcher` calls. -/
def registered : List Rule :=
  [.HandlerForIf,
   .HandlerForFor,
   .HandlerForpinMode,
   .HandlerForLoopExpr,
   .HandlerForDelay,
   .HandlerForSetup,
   .HandlerForCompoundStmt,
   .HandlerForPower,
   .HandlerForSqrt,
   .HandlerForSin,
   .HandlerForCos,
   .HandlerForTan,
   .HandlerForDelayMicroseconds,
   .HandlerForMillis,
   .HandlerForMicros,
   .HandlerForPulseIn,
   .HandlerForPinModePin,
   .HandlerForINPUT,
   .HandlerForOUTPUT,
   .HandlerForINPUTPULLUP,
   .HandlerForIsAlpha,
   .HandlerForIsAlphaVar,
   .HandlerForIsAlphaNumeric,
   .HandlerForIsAlphaNumericVar,
   .HandlerForIsAscii,
   .HandlerForIsAsciiVar,
   .HandlerForIsDigit,
   .HandlerForIsDigitVar,
   .HandlerForIsLowerCase,
   .HandlerForIsLowerCaseVar,
   .HandlerForIsPunct,
   .HandlerForIsPunctVar,
   .HandlerForIsSpace,
   .HandlerForIsSpaceVar,
   .HandlerForIsUpperCase,
   .HandlerForIsUpperCaseVar,
   .HandlerForIsWhitespace,
   .HandlerForIsWhitespaceVar,
   .HandlerForAnalogRead,
   .HandlerForAnalogWrite,
   .HandlerForDigitalRead,
   .HandlerForDigitalWrite,
   .HandlerForPi,
   .HandlerForEuler]

/-! ## The matching pass -/

/-- One match: the rule whose matcher matched and the nodes it bound. -/
structure MatchResult where
  rule : Rule
  Nodes : BoundNodes

/-- Every registered matcher is tried on the node, in registration order. -/
def matchNode (ancestors : List Stmt) (n : Node) : List MatchResult :=
  registered.filterMap fun r => (r.matcher ancestors n).map (MatchResult.mk r)

mutual
/-- The traversal of a declaration: the node itself, then its nested
declarations, then the statement it owns. -/
def TraverseDecl (ancestors : List Stmt) (D : Decl) : List MatchResult :=
  match D with
  | .mk info decls stmt =>
      matchNode ancestors (.decl (.mk info decls stmt))
        ++ TraverseDecls ancestors decls ++ TraverseOptStmt ancestors stmt
termination_by structural D
/-- The traversal of a list of declarations, in order. -/
def TraverseDecls (ancestors : List Stmt) (Ds : List Decl) : List MatchResult :=
  match Ds with
  | [] => []
  | d :: ds => TraverseDecl ancestors d ++ TraverseDecls ancestors ds
termination_by structural Ds
/-- The traversal of an optional statement. -/
def TraverseOptStmt (ancestors : List Stmt) (S : Option Stmt) : List MatchResult :=
  match S with
  | none => []
  | some s => TraverseStmt ancestors s
termination_by structural S
/-- The traversal of a list of statements, in order. -/
def TraverseStmts (ancestors : List Stmt) (Ss : List Stmt) : List MatchResult :=
  match Ss with
  | [] => []
  | s :: ss => TraverseStmt ancestors s ++ TraverseStmts ancestors ss
termination_by structural Ss
/-- The traversal of a statement: the node itself, then its children in
source order, each with the node added to its ancestors. -/
def TraverseStmt (ancestors : List Stmt) (S : Stmt) : List MatchResult :=
  match S with
  | .IfStmt ifLoc cond thenStmt elseStmt =>
      let s := Stmt.IfStmt ifLoc cond thenStmt elseStmt
      matchNode ancestors (.stmt s) ++ TraverseStmt (s :: ancestors) cond
        ++ TraverseStmt (s :: ancestors) thenStmt ++ TraverseOptStmt (s :: ancestors) elseStmt
  | .ForStmt forLoc init cond inc body =>
      let s := Stmt.ForStmt forLoc init cond inc body
      matchNode ancestors (.stmt s) ++ TraverseOptStmt (s :: ancestors) init
        ++ TraverseOptStmt (s :: ancestors) cond ++ TraverseOptStmt (s :: ancestors) inc
        ++ TraverseStmt (s :: ancestors) body
  | .CompoundStmt lBraceLoc rBraceLoc body =>
      let s := Stmt.CompoundStmt lBraceLoc rBraceLoc body
      matchNode ancestors (.stmt s) ++ TraverseStmts (s :: ancestors) body
  | .DeclStmt beginLoc endLoc decls =>
      let s := Stmt.DeclStmt beginLoc endLoc decls
      matchNode ancestors (.stmt s) ++ TraverseDecls (s :: ancestors) decls
  | .IntegerLiteral loc value type =>
      matchNode ancestors (.stmt (.IntegerLiteral loc value type))
  | .DeclRefExpr qualifierLoc nameLoc decl foundDecl type =>
      matchNode ancestors (.stmt (.DeclRefExpr qualifierLoc nameLoc decl foundDecl type))
  | .UnaryOperator opLoc opcode isPostfixOp subExpr type =>
      let s := Stmt.UnaryOperator opLoc opcode isPostfixOp subExpr type
      matchNode ancestors (.stmt s) ++ TraverseStmt (s :: ancestors) subExpr
  | .BinaryOperator opcode lhs rhs type =>
      let s := Stmt.BinaryOperator opcode lhs rhs type
      matchNode ancestors (.stmt s) ++ TraverseStmt (s :: ancestors) lhs
        ++ TraverseStmt (s :: ancestors) rhs
  | .CallExpr callee args rParenLoc type =>
      let s := Stmt.CallExpr callee args rParenLoc type
      matchNode ancestors (.stmt s) ++ TraverseStmt (s :: ancestors) callee
        ++ TraverseStmts (s :: ancestors) args
  | .ImplicitCastExpr subExpr type =>
      let s := Stmt.ImplicitCastExpr subExpr type
      matchNode ancestors (.stmt s) ++ TraverseStmt (s :: ancestors) subExpr
  | .ParenExpr lParenLoc rParenLoc subExpr type =>
      let s := Stmt.ParenExpr lParenLoc rParenLoc subExpr type
      matchNode ancestors (.stmt s) ++ TraverseStmt (s :: ancestors) subExpr
  | .OtherStmt beginLoc endLoc children type =>
      let s := Stmt.OtherStmt beginLoc endLoc children type
      matchNode ancestors (.stmt s) ++ TraverseStmts (s :: ancestors) children
termination_by structural S
end

/-- The matches of `Matcher.matchAST(Context)` over the top-level
declarations of the translation unit, in the order the callbacks run. -/
def matchAST (tu : List Decl) : List MatchResult :=
  TraverseDecls [] tu

/-- The handlers are run on the matches in order; the calls they make are
collected in order. -/
def runHandlers : List MatchResult → Option (List RewriteCall)
  | [] => some []
  | m :: ms =>
      match m.rule.run m.Nodes, runHandlers ms with
      | some calls, some rest => some (calls ++ rest)
      | _, _ => none

/-- The method `MyASTConsumer::HandleTranslationUnit`: the rewriter calls of
one run over the translation unit. -/
def HandleTranslationUnit (tu : List Decl) : Option (List RewriteCall) :=
  runHandlers (matchAST tu)

/-- The calls one rule makes at one node: `none` when its matcher does not
match the node, `some (run Nodes)` when it binds `Nodes`. -/
def Rule.fire (r : Rule) (ancestors : List Stmt) (n : Node) : Option (Option (List RewriteCall)) :=
  (r.matcher ancestors n).map r.run

/-- The rules registered with a matcher of the form
`callExpr(isExpansionInMainFile(), callee(functionDecl(hasName(..)))).bind(..)`. -/
def callByNameRules : List Rule :=
  [.HandlerForpinMode, .HandlerForDelay, .HandlerForDelayMicroseconds, .HandlerForMillis,
   .HandlerForMicros, .HandlerForPulseIn, .HandlerForIsAlpha, .HandlerForIsAlphaNumeric,
   .HandlerForIsAscii, .HandlerForIsDigit, .HandlerForIsLowerCase, .HandlerForIsPunct,
   .HandlerForIsSpace, .HandlerForIsUpperCase, .HandlerForIsWhitespace, .HandlerForAnalogRead,
   .HandlerForAnalogWrite, .HandlerForDigitalRead, .HandlerForDigitalWrite]

/-- The rules for references to named constants, each with the name of the
variable its matcher asks for and the text its handler writes. -/
def symbolRules : List (Rule × String × String) :=
  [(.HandlerForPi, "PI", "math.pi"), (.HandlerForEuler, "EULER", "math.e"),
   (.HandlerForINPUT, "INPUT", "IN"), (.HandlerForOUTPUT, "OUTPUT", "OUT"),
   (.HandlerForINPUTPULLUP, "INPUT_PULLUP", "PULL_UP")]

/-- An expression that is a name without qualifier, possibly under implicit
casts: its text is one token. -/
def Stmt.isUnqualifiedName : Stmt → Bool
  | .DeclRefExpr none _ _ _ _ => true
  | .ImplicitCastExpr subExpr _ => subExpr.isUnqualifiedName
  | _ => false

/-! ## Character spans of the submitted edits -/

/-- A half-open range `[start, stop)` of byte offsets into the original
buffer of `file`. -/
structure Span where
  file : FileID
  start : Nat
  stop : Nat
deriving DecidableEq, Repr

/-- The characters a token range covers in the original buffer, as
`Rewriter::getRangeSize` measures it: from the first character of the token
at `B` to the end of the token at `E`, whose length is `tokLen E`
(`Lexer::MeasureTokenLength`). -/
def SourceRange.span (tokLen : SourceLocation → Nat) (r : SourceRange) : Span :=
  ⟨r.B.file, r.B.offset, r.E.offset + tokLen r.E⟩

/-- The characters of the original buffer a call on the rewriter is about:
the replaced or removed token range, or the empty span at the insertion
point. -/
def RewriteCall.span (tokLen : SourceLocation → Nat) : RewriteCall → Span
  | .InsertText Loc _ _ _ => ⟨Loc.file, Loc.offset, Loc.offset⟩
  | .ReplaceText range _ => range.span tokLen
  | .RemoveText range => range.span tokLen

/-- Whether the range of a call is the range of one token, as the
constructor `SourceRange(loc)` builds it; an insertion has no range. -/
def RewriteCall.isSingleToken : RewriteCall → Bool
  | .InsertText _ _ _ _ => true
  | .ReplaceText range _ => range.B == range.E
  | .RemoveText range => range.B == range.E

/-- Whether a call replaces or removes text (and is not an insertion). -/
def RewriteCall.isReplaceOrRemove : RewriteCall → Bool
  | .InsertText _ _ _ _ => false
  | .ReplaceText _ _ => true
  | .RemoveText _ => true

/-- The characters of a bound node: from its first token to the end of its
last token. -/
def DynTypedNode.span (tokLen : SourceLocation → Nat) (n : DynTypedNode) : Span :=
  SourceRange.span tokLen ⟨n.getBeginLoc, n.getEndLoc⟩

/-- The characters of a statement. -/
def Stmt.span (tokLen : SourceLocation → Nat) (s : Stmt) : Span :=
  SourceRange.span tokLen ⟨s.getBeginLoc, s.getEndLoc⟩

/-- The span `inner` lies inside the span `outer`. -/
def Span.within (inner outer : Span) : Prop :=
  inner.file = outer.file ∧ outer.start ≤ inner.start ∧ inner.start ≤ inner.stop
    ∧ inner.stop ≤ outer.stop

instance (inner outer : Span) : Decidable (inner.within outer) := by
  unfold Span.within; infer_instance

/-- Two spans share at least one character. -/
def Span.overlaps (a b : Span) : Prop :=
  a.file = b.file ∧ a.start < b.stop ∧ b.start < a.stop

instance (a b : Span) : Decidable (a.overlaps b) := by
  unfold Span.overlaps; infer_instance

/-- The span `outer` contains `inner` and is larger. -/
def Span.strictlyContains (outer inner : Span) : Prop :=
  outer.file = inner.file ∧ outer.start ≤ inner.start ∧ inner.stop ≤ outer.stop
    ∧ (outer.start < inner.start ∨ inner.stop < outer.stop)

instance (outer inner : Span) : Decidable (outer.strictlyContains inner) := by
  unfold Span.strictlyContains; infer_instance

/-- What the front end guarantees about the locations of a bound node: its
tokens lie in one file, its first token ends inside the node, the name of a
declaration lies inside the declaration, and every child of a statement lies
inside the statement. -/
def DynTypedNode.wellFormed (tokLen : SourceLocation → Nat) : DynTypedNode → Prop
  | .decl d =>
      d.beginLoc.file = d.endLoc.file ∧ d.location.file = d.beginLoc.file
        ∧ d.beginLoc.offset ≤ d.endLoc.offset
        ∧ d.beginLoc.offset + tokLen d.beginLoc ≤ d.endLoc.offset + tokLen d.endLoc
        ∧ d.beginLoc.offset ≤ d.location.offset
        ∧ d.location.offset + tokLen d.location ≤ d.endLoc.offset + tokLen d.endLoc
  | .stmt s =>
      s.getBeginLoc.file = s.getEndLoc.file
        ∧ s.getBeginLoc.offset ≤ s.getEndLoc.offset
        ∧ s.getBeginLoc.offset + tokLen s.getBeginLoc ≤ s.getEndLoc.offset + tokLen s.getEndLoc
        ∧ ∀ c ∈ s.children, (c.span tokLen).within (s.span tokLen)

/-- Every call lies inside the characters of one of the bound nodes: an
insertion is anchored there, a replacement or removal has its whole span
there. -/
def EditsWithin (tokLen : SourceLocation → Nat) (Nodes : BoundNodes)
    (calls : List RewriteCall) : Prop :=
  ∀ c ∈ calls, ∃ p ∈ Nodes, (c.span tokLen).within (p.2.span tokLen)

/-! ## Token lengths of a concrete buffer -/

/-- The characters of an identifier, keyword or number. -/
def isIdentifierBody (c : Char) : Bool :=
  c.isAlphanum || c == '_'

/-- The length of the token that starts the given text, for the tokens the
handlers measure: an identifier, keyword or number is a maximal run of
identifier characters, `::` and `++` are two characters, and any other
punctuator is one character. -/
def lexTokenLength : List Char → Nat
  | [] => 0
  | c :: rest =>
      if isIdentifierBody c then 1 + (rest.takeWhile isIdentifierBody).length
      else
        match c, rest with
        | ':', ':' :: _ => 2
        | '+', '+' :: _ => 2
        | _, _ => 1

/-- The length of the token at a location of the main file whose buffer is
`mainBuffer`, `Lexer::MeasureTokenLength`. -/
def MeasureTokenLength (mainBuffer : String) (Loc : SourceLocation) : Nat :=
  if Loc.file = mainFileID then lexTokenLength (mainBuffer.toList.drop Loc.offset) else 0

/-! ## The rewriter

The handlers call `clang::Rewriter`, which keeps one `RewriteBuffer` per
file.  A call on a file other than the main file does not touch the text that
`EndSourceFileAction` writes, so only the buffer of the main file is kept.
The rope under a buffer asserts that every insertion point and every erased
region lies inside the buffer; a call that fails the assertion ends the run
before anything is written, and the operations below return `none` for it. -/

/-- The edit buffer of one file, `clang::RewriteBuffer`: the current text and
the recorded deltas.  A delta is keyed by `2 * OrigOffset` for an insertion
and by `2 * OrigOffset + 1` for a replacement or removal. -/
structure RewriteBuffer where
  Buffer : List Char
  Deltas : List (Nat × Int)

/-- The accumulated delta before a key, `DeltaTree::getDeltaAt`. -/
def RewriteBuffer.getDeltaAt (RB : RewriteBuffer) (FileIndex : Nat) : Int :=
  ((RB.Deltas.filter fun d => d.1 < FileIndex).map Prod.snd).sum

/-- The position in the current text of an original offset,
`RewriteBuffer::getMappedOffset`.  The method computes in `unsigned`; a
negative value here stands for the wrapped value, which lies beyond the end
of every buffer. -/
def RewriteBuffer.getMappedOffset (RB : RewriteBuffer) (OrigOffset : Nat) (AfterInserts : Bool) :
    Int :=
  RB.getDeltaAt (2 * OrigOffset + (if AfterInserts then 1 else 0)) + OrigOffset

/-- What `RewriteRope::insert` (`Offset <= size()`) and `RewriteRope::erase`
(`Offset+NumBytes <= size()`) assert: the region of `Size` characters at
`RealOffset` lies inside the buffer. -/
def RewriteBuffer.inBounds (RB : RewriteBuffer) (RealOffset : Int) (Size : Nat) : Bool :=
  decide (0 ≤ RealOffset ∧ RealOffset + (Size : Int) ≤ (RB.Buffer.length : Int))

/-- The method `RewriteBuffer::InsertText`; `none` stands for the failed
assertion of `RewriteRope::insert`. -/
def RewriteBuffer.InsertText (RB : RewriteBuffer) (OrigOffset : Nat) (Str : List Char)
    (InsertAfter : Bool) : Option RewriteBuffer :=
  if Str.isEmpty then some RB
  else
    let RealOffset := RB.getMappedOffset OrigOffset InsertAfter
    if RB.inBounds RealOffset 0 then
      some { Buffer := RB.Buffer.take RealOffset.toNat ++ Str ++ RB.Buffer.drop RealOffset.toNat,
             Deltas := (2 * OrigOffset, (Str.length : Int)) :: RB.Deltas }
    else none

/-- The method `RewriteBuffer::RemoveText` (without `removeLineIfEmpty`, which
the handlers leave at its default `false`); `none` stands for the failed
assertion `RealOffset+Size <= Buffer.size()`. -/
def RewriteBuffer.RemoveText (RB : RewriteBuffer) (OrigOffset Size : Nat) :
    Option RewriteBuffer :=
  if Size = 0 then some RB
  else
    let RealOffset := RB.getMappedOffset OrigOffset true
    if RB.inBounds RealOffset Size then
      some { Buffer := RB.Buffer.take RealOffset.toNat
                        ++ RB.Buffer.drop (RealOffset.toNat + Size),
             Deltas := (2 * OrigOffset + 1, -(Size : Int)) :: RB.Deltas }
    else none

/-- The method `RewriteBuffer::ReplaceText`; `none` stands for the failed
assertion of `RewriteRope::erase`. -/
def RewriteBuffer.ReplaceText (RB : RewriteBuffer) (OrigOffset OrigLength : Nat)
    (NewStr : List Char) : Option RewriteBuffer :=
  let RealOffset := RB.getMappedOffset OrigOffset true
  if RB.inBounds RealOffset OrigLength then
    some { Buffer := RB.Buffer.take RealOffset.toNat ++ NewStr
                      ++ RB.Buffer.drop (RealOffset.toNat + OrigLength),
           Deltas := if OrigLength ≠ NewStr.length
             then (2 * OrigOffset + 1, (NewStr.length : Int) - (OrigLength : Int)) :: RB.Deltas
             else RB.Deltas }
  else none

/-- The characters `isWhitespaceExceptNL` accepts. -/
def isWhitespaceExceptNL (c : Char) : Bool :=
  c == ' ' || c == '\t' || c == '\x0c' || c == '\x0b' || c == '\r'

/-- The offset at which the line containing `offset` starts. -/
def lineStart (src : List Char) (offset : Nat) : Nat :=
  offset - ((src.take offset).reverse.takeWhile (· != '\n')).length

/-- The text `Rewriter::InsertText` inserts when `indentNewLines` is set and
`Str` has a newline: after every newline of `Str` the leading whitespace of
the line of the insertion point is added. -/
def indentedStr (src : List Char) (offset : Nat) (Str : List Char) : List Char :=
  Str.flatMap fun c =>
    if c == '\n' then '\n' :: (src.drop (lineStart src offset)).takeWhile isWhitespaceExceptNL
    else [c]

/-- The text an `InsertText` call puts into the buffer. -/
def insertedStr (src : String) (Loc : SourceLocation) (Str : String) (indentNewLines : Bool) :
    List Char :=
  if indentNewLines && Str.toList.contains '\n'
  then indentedStr src.toList Loc.offset Str.toList else Str.toList

/-- The size of a token range as `Rewriter::getRangeSize` returns it: the
distance of the mapped ends plus the length of the last token, measured on
the original source; `-1` when the ends lie in different files. -/
def getRangeSize (src : String) (RB : RewriteBuffer) (range : SourceRange) : Int :=
  if range.B.file = range.E.file then
    RB.getMappedOffset range.E.offset true - RB.getMappedOffset range.B.offset true
      + (MeasureTokenLength src range.E : Int)
  else -1

/-- One call on the `Rewriter`, applied to the edit buffer of the main file;
a call on another file leaves that buffer alone.  `Rewriter::ReplaceText` and
`Rewriter::RemoveText` pass the range size on as an `unsigned`: a negative
size is a length beyond every buffer.  `none` stands for a failed assertion
of the rope. -/
def applyCall (src : String) (RB : RewriteBuffer) : RewriteCall → Option RewriteBuffer
  | .InsertText Loc Str InsertAfter indentNewLines =>
      if Loc.file = mainFileID then
        RB.InsertText Loc.offset (insertedStr src Loc Str indentNewLines) InsertAfter
      else some RB
  | .ReplaceText range NewStr =>
      if range.B.file = mainFileID then
        if 0 ≤ getRangeSize src RB range then
          RB.ReplaceText range.B.offset (getRangeSize src RB range).toNat NewStr.toList
        else none
      else some RB
  | .RemoveText range =>
      if range.B.file = mainFileID then
        if 0 ≤ getRangeSize src RB range then
          RB.RemoveText range.B.offset (getRangeSize src RB range).toNat
        else none
      else some RB

/-- The edit buffer of the main file as `getEditBuffer` creates it: the
original text and no delta. -/
def RewriteBuffer.Initialize (src : String) : RewriteBuffer :=
  ⟨src.toList, []⟩

/-- The calls applied to a buffer one after the other, in submission order;
the first failed assertion ends the run. -/
def applyCallsFrom (src : String) : RewriteBuffer → List RewriteCall → Option RewriteBuffer
  | RB, [] => some RB
  | RB, c :: cs => (applyCall src RB c).bind fun RB1 => applyCallsFrom src RB1 cs

/-- The edit buffer of the main file after the calls, in submission order. -/
def applyCalls (src : String) (calls : List RewriteCall) : Option RewriteBuffer :=
  applyCallsFrom src (RewriteBuffer.Initialize src) calls

/-- The text of the edit buffer of the main file after the calls. -/
def rewrittenText (src : String) (calls : List RewriteCall) : Option String :=
  (applyCalls src calls).map fun RB => String.mk RB.Buffer

/-- What `EndSourceFileAction` writes: the same buffer to `llvm::outs()` and to
the file `output.txt`. -/
structure Sinks where
  outs : String
  outputTxt : String
deriving DecidableEq, Repr

/-- The method `MyFrontendAction::EndSourceFileAction`: the edit buffer of the
main file is written to both sinks; nothing is tested before writing.  It is
reached only when no call on the rewriter failed an assertion. -/
def EndSourceFileAction (src : String) (calls : List RewriteCall) : Option Sinks :=
  (rewrittenText src calls).map fun text => ⟨text, text⟩

/-- One run of the tool on a main file with text `src` and tree `tu`: the
matching pass with the calls of the handlers, then the write of the buffer;
`none` when a handler dereferences a null pointer or a call on the rewriter
fails an assertion. -/
def runTool (src : String) (tu : List Decl) : Option Sinks :=
  (HandleTranslationUnit tu).bind (EndSourceFileAction src)

/-- The rules whose handlers call nothing but `InsertText`: if statements,
counted loops, blocks, the five math functions, the pin number and the nine
arguments of the character tests. -/
def insertOnlyRules : List Rule :=
  [.HandlerForIf, .HandlerForFor, .HandlerForCompoundStmt, .HandlerForPower, .HandlerForSqrt,
   .HandlerForSin, .HandlerForCos, .HandlerForTan, .HandlerForPinModePin,
   .HandlerForIsAlphaVar, .HandlerForIsAlphaNumericVar, .HandlerForIsAsciiVar,
   .HandlerForIsDigitVar, .HandlerForIsLowerCaseVar, .HandlerForIsPunctVar,
   .HandlerForIsSpaceVar, .HandlerForIsUpperCaseVar, .HandlerForIsWhitespaceVar]

/-- The number of characters a call adds to the buffer of the main file when
it is an insertion. -/
def insertedLength (src : String) : RewriteCall → Nat
  | .InsertText Loc Str _ indentNewLines =>
      if Loc.file = mainFileID then (insertedStr src Loc Str indentNewLines).length else 0
  | _ => 0

/-- The lookup each handler makes first: the class `T` and the identifier
`ID` of its `Result.Nodes.getNodeAs<T>(ID)`. -/
def Rule.lookup : Rule → NodeClass × String
  | .HandlerForIf => (.IfStmt, "ifStmt")
  | .HandlerForFor => (.VarDecl, "incVarName")
  | .HandlerForpinMode => (.CallExpr, "pinMode")
  | .HandlerForLoopExpr => (.FunctionDecl, "loopexpr")
  | .HandlerForDelay => (.CallExpr, "delay")
  | .HandlerForSetup => (.FunctionDecl, "setupfunc")
  | .HandlerForCompoundStmt => (.Stmt, "compoundstmt")
  | .HandlerForPower => (.Stmt, "pow")
  | .HandlerForSqrt => (.Stmt, "sqrt")
  | .HandlerForSin => (.Stmt, "sin")
  | .HandlerForCos => (.Stmt, "cos")
  | .HandlerForTan => (.Stmt, "tan")
  | .HandlerForDelayMicroseconds => (.CallExpr, "delayMicroseconds")
  | .HandlerForMillis => (.CallExpr, "millis")
  | .HandlerForMicros => (.CallExpr, "micros")
  | .HandlerForPulseIn => (.CallExpr, "pulseIn")
  | .HandlerForPinModePin => (.Stmt, "pinModePin")
  | .HandlerForINPUT => (.Stmt, "INPUT")
  | .HandlerForOUTPUT => (.Stmt, "OUTPUT")
  | .HandlerForINPUTPULLUP => (.Stmt, "INPUT_PULLUP")
  | .HandlerForIsAlpha => (.CallExpr, "isAlpha")
  | .HandlerForIsAlphaVar => (.DeclRefExpr, "isAlphaVar")
  | .HandlerForIsAlphaNumeric => (.CallExpr, "isAlphaNumeric")
  | .HandlerForIsAlphaNumericVar => (.DeclRefExpr, "isAlphaNumericVar")
  | .HandlerForIsAscii => (.CallExpr, "isAscii")
  | .HandlerForIsAsciiVar => (.DeclRefExpr, "isAsciiVar")
  | .HandlerForIsDigit => (.CallExpr, "isDigit")
  | .HandlerForIsDigitVar => (.DeclRefExpr, "isDigitVar")
  | .HandlerForIsLowerCase => (.CallExpr, "isLowerCase")
  | .HandlerForIsLowerCaseVar => (.DeclRefExpr, "isLowerCaseVar")
  | .HandlerForIsPunct => (.CallExpr, "isPunct")
  | .HandlerForIsPunctVar => (.DeclRefExpr, "isPunctVar")
  | .HandlerForIsSpace => (.CallExpr, "isSpace")
  | .HandlerForIsSpaceVar => (.DeclRefExpr, "isSpaceVar")
  | .HandlerForIsUpperCase => (.CallExpr, "isUpperCase")
  | .HandlerForIsUpperCaseVar => (.DeclRefExpr, "isUpperCaseVar")
  | .HandlerForIsWhitespace => (.CallExpr, "isWhitespace")
  | .HandlerForIsWhitespaceVar => (.DeclRefExpr, "isWhitespaceVar")
  | .HandlerForAnalogRead => (.CallExpr, "analogRead")
  | .HandlerForAnalogWrite => (.CallExpr, "analogWrite")
  | .HandlerForDigitalRead => (.CallExpr, "digitalRead")
  | .HandlerForDigitalWrite => (.CallExpr, "digitalWrite")
  | .HandlerForPi => (.DeclRefExpr, "PI")
  | .HandlerForEuler => (.DeclRefExpr, "EULER")

/-! ## Example programs -/

namespace Examples

/-- A location in the main file. -/
def L (offset : Nat) : SourceLocation := ⟨mainFileID, offset⟩

/-- A location in the header that declares the Arduino API. -/
def H (offset : Nat) : SourceLocation := ⟨2, offset⟩

/-- The type `int`. -/
def intTy : QualType := ⟨"int", true⟩

/-- The type `double`. -/
def doubleTy : QualType := ⟨"double", false⟩

/-- The type `void`. -/
def voidTy : QualType := ⟨"void", false⟩

/-- A function type; it is not an integer type. -/
def fnTy : QualType := ⟨"void ()", false⟩

/-- A pointer to function type; it is not an integer type. -/
def fnPtrTy : QualType := ⟨"void (*)(int)", false⟩

/-- An unqualified reference to `d` whose name token is at `offset`. -/
def ref (d : NamedDecl) (offset : Nat) : Stmt :=
  .DeclRefExpr none (L offset) d d d.type

/-- The rvalue read of the variable `d` at `offset`. -/
def rvalue (d : NamedDecl) (offset : Nat) : Stmt :=
  .ImplicitCastExpr (ref d offset) d.type

/-- The main file
`void f(int n, int j) { for (int i = 0; j < n; i++) {} }`. -/
def forSource : String := "void f(int n, int j) \x7b for (int i = 0; j < n; i++) \x7b\x7d \x7d"

/-- The parameter `int n` of `f`. -/
def nDecl : NamedDecl := ⟨1, .Var, "n", intTy, L 7, L 11, L 11⟩

/-- The parameter `int j` of `f`. -/
def jDecl : NamedDecl := ⟨2, .Var, "j", intTy, L 14, L 18, L 18⟩

/-- The loop variable `int i = 0`. -/
def iDecl : NamedDecl := ⟨3, .Var, "i", intTy, L 28, L 32, L 36⟩

/-- The loop `for (int i = 0; j < n; i++) {}` at offset 23: the condition
reads `j`, the increment writes `i`. -/
def forLoopJ : Stmt :=
  .ForStmt (L 23)
    (some (.DeclStmt (L 28) (L 37) [.mk iDecl [] (some (.IntegerLiteral (L 36) 0 intTy))]))
    (some (.BinaryOperator "<" (rvalue jDecl 39) (rvalue nDecl 43) intTy))
    (some (.UnaryOperator (L 47) "++" true (ref iDecl 46) intTy))
    (.CompoundStmt (L 51) (L 52) [])

/-- The loop `for (int i = 0; i < n; i++) {}` at the same place. -/
def forLoopI : Stmt :=
  .ForStmt (L 23)
    (some (.DeclStmt (L 28) (L 37) [.mk iDecl [] (some (.IntegerLiteral (L 36) 0 intTy))]))
    (some (.BinaryOperator "<" (rvalue iDecl 39) (rvalue nDecl 43) intTy))
    (some (.UnaryOperator (L 47) "++" true (ref iDecl 46) intTy))
    (.CompoundStmt (L 51) (L 52) [])

/-- The function `f` around the loop `forLoopJ`. -/
def fDecl : Decl :=
  .mk ⟨4, .Function, "f", fnTy, L 0, L 5, L 54⟩ [.mk nDecl [] none, .mk jDecl [] none]
    (some (.CompoundStmt (L 21) (L 54) [forLoopJ]))

/-- The main file `void loop() {` newline `}`. -/
def loopSource : String := "void loop() \x7b\n\x7d"

/-- The declaration `void loop() {}`: first token `void` at 0, name at 5,
closing brace at 14. -/
def loopDecl : Decl :=
  .mk ⟨10, .Function, "loop", fnTy, L 0, L 5, L 14⟩ [] (some (.CompoundStmt (L 12) (L 14) []))

/-- The main file `void setup() {` newline `}`. -/
def setupSource : String := "void setup() \x7b\n\x7d"

/-- The declaration `void setup() {}`: first token `void` at 0, name at 5,
closing brace at 15. -/
def setupDecl : Decl :=
  .mk ⟨11, .Function, "setup", fnTy, L 0, L 5, L 15⟩ [] (some (.CompoundStmt (L 13) (L 15) []))

/-- The main file `void setup(int x) {` newline `}`. -/
def setupParamSource : String := "void setup(int x) \x7b\n\x7d"

/-- The parameter `int x`. -/
def xDecl : NamedDecl := ⟨12, .Var, "x", intTy, L 11, L 15, L 15⟩

/-- The declaration `void setup(int x) {}`, with one parameter. -/
def setupParamDecl : Decl :=
  .mk ⟨13, .Function, "setup", fnTy, L 0, L 5, L 20⟩ [.mk xDecl [] none]
    (some (.CompoundStmt (L 18) (L 20) []))

/-- The declaration `void loop(int x) {}`, with one parameter, at the same
offsets but for the shorter name. -/
def loopParamDecl : Decl :=
  .mk ⟨14, .Function, "loop", fnTy, L 0, L 5, L 19⟩ [.mk ⟨15, .Var, "x", intTy, L 10, L 14, L 14⟩ [] none]
    (some (.CompoundStmt (L 17) (L 19) []))

/-- The header declaration `void pinMode(uint8_t, uint8_t);`. -/
def pinModeDecl : NamedDecl := ⟨20, .Function, "pinMode", fnTy, H 100, H 105, H 130⟩

/-- The header declaration `const int OUTPUT = 1;`. -/
def OUTPUTDecl : NamedDecl := ⟨21, .Var, "OUTPUT", intTy, H 10, H 20, H 29⟩

/-- The main file `void setup() {` newline `  pinMode(13, OUTPUT);` newline `}`. -/
def pinModeSource : String := "void setup() \x7b\n  pinMode(13, OUTPUT);\n\x7d"

/-- The call `pinMode(13, OUTPUT)` at offset 17 of `pinModeSource`. -/
def pinModeCall : Stmt :=
  .CallExpr (.ImplicitCastExpr (ref pinModeDecl 17) fnPtrTy)
    [.ImplicitCastExpr (.IntegerLiteral (L 25) 13 intTy) intTy, rvalue OUTPUTDecl 29]
    (L 35) voidTy

/-- The main file
`void loop() {` newline `  ns::delay(5);` newline `  x = Math::PI;` newline `  fp(5);` newline `}`. -/
def qualifiedSource : String :=
  "void loop() \x7b\n  ns::delay(5);\n  x = Math::PI;\n  fp(5);\n\x7d"

/-- The header declaration `namespace ns { void delay(unsigned long); }`. -/
def delayDecl : NamedDecl := ⟨30, .Function, "delay", fnTy, H 200, H 205, H 225⟩

/-- The callee `ns::delay`: qualifier at 16, name at 20. -/
def qualifiedDelayCallee : Stmt :=
  .ImplicitCastExpr (.DeclRefExpr (some (L 16)) (L 20) delayDecl delayDecl fnTy) fnPtrTy

/-- The call `ns::delay(5)` at offset 16 of `qualifiedSource`. -/
def qualifiedDelayCall : Stmt :=
  .CallExpr qualifiedDelayCallee [.IntegerLiteral (L 26) 5 intTy] (L 27) voidTy

/-- The header declaration `namespace Math { const double PI = 3.14; }`. -/
def PIDecl : NamedDecl := ⟨31, .Var, "PI", doubleTy, H 300, H 313, H 318⟩

/-- The reference `Math::PI`: qualifier at 36, name at 42. -/
def qualifiedPIRef : Stmt :=
  .DeclRefExpr (some (L 36)) (L 42) PIDecl PIDecl doubleTy

/-- The header declaration `void (*fp)(int);`, a variable. -/
def fpDecl : NamedDecl := ⟨32, .Var, "fp", fnPtrTy, H 400, H 407, H 414⟩

/-- The call `fp(5)` through the function pointer `fp`, at offset 48 of
`qualifiedSource`. -/
def fpCall : Stmt :=
  .CallExpr (rvalue fpDecl 48) [.IntegerLiteral (L 51) 5 intTy] (L 52) voidTy

/-- The type `bool`; it is an integer type for `isInteger()`. -/
def boolTy : QualType := ⟨"bool", true⟩

/-- The main file `int x = 5;` newline `void f();`: no statement or declaration
of it is matched by a rule. -/
def plainSource : String := "int x = 5;\nvoid f();"

/-- The tree of `plainSource`. -/
def plainTU : List Decl :=
  [.mk ⟨40, .Var, "x", intTy, L 0, L 4, L 8⟩ [] (some (.IntegerLiteral (L 8) 5 intTy)),
   .mk ⟨41, .Function, "f", fnTy, L 11, L 16, L 18⟩ [] none]

/-- The main file `void f(int x) {` newline `  if (x) {` newline `  }` newline
`}`: the if statement is indented by two spaces. -/
def indentedIfSource : String := "void f(int x) \x7b\n  if (x) \x7b\n  \x7d\n\x7d"

/-- The parameter `int x` of `f`. -/
def ifParamDecl : NamedDecl := ⟨44, .Var, "x", intTy, L 7, L 11, L 11⟩

/-- The statement `if (x) {}` of `indentedIfSource`: `if` at 18, braces at 25
and 29. -/
def indentedIf : Stmt :=
  .IfStmt (L 18) (.ImplicitCastExpr (rvalue ifParamDecl 22) boolTy)
    (.CompoundStmt (L 25) (L 29) []) none

/-- The tree of `indentedIfSource`. -/
def indentedIfTU : List Decl :=
  [.mk ⟨45, .Function, "f", fnTy, L 0, L 5, L 31⟩ [.mk ifParamDecl [] none]
    (some (.CompoundStmt (L 14) (L 31) [indentedIf]))]

/-- The main file `void f(int x) {` newline `if (x) {` newline `}` newline `}`:
the if statement starts its line. -/
def flushIfSource : String := "void f(int x) \x7b\nif (x) \x7b\n\x7d\n\x7d"

/-- The tree of `flushIfSource`: `if` at 16, braces at 23 and 25. -/
def flushIfTU : List Decl :=
  [.mk ⟨45, .Function, "f", fnTy, L 0, L 5, L 27⟩ [.mk ifParamDecl [] none]
    (some (.CompoundStmt (L 14) (L 27)
      [.IfStmt (L 16) (.ImplicitCastExpr (rvalue ifParamDecl 20) boolTy)
        (.CompoundStmt (L 23) (L 25) []) none]))]

/-- The header declaration `double pow(double, double);`. -/
def powDecl : NamedDecl := ⟨46, .Function, "pow", fnTy, H 600, H 607, H 625⟩

/-- The using-shadow declaration that `using std::pow;` in a header introduces. -/
def usingPowDecl : NamedDecl := ⟨47, .UsingShadow, "pow", fnTy, H 700, H 711, H 711⟩

/-- The main file `double y = pow(2, 3);`. -/
def powSource : String := "double y = pow(2, 3);"

/-- The arguments `2, 3` of the call, converted to `double`. -/
def powArgs : List Stmt :=
  [.ImplicitCastExpr (.IntegerLiteral (L 15) 2 intTy) doubleTy,
   .ImplicitCastExpr (.IntegerLiteral (L 18) 3 intTy) doubleTy]

/-- The call `pow(2, 3)` at offset 11 of `powSource` when `pow` is the
function declared by the header, found without a using-declaration. -/
def plainPowCall : Stmt :=
  .CallExpr (.ImplicitCastExpr (.DeclRefExpr none (L 11) powDecl powDecl fnTy) fnPtrTy)
    powArgs (L 19) doubleTy

/-- The same call when the name `pow` was found through `using std::pow;`. -/
def usingPowCall : Stmt :=
  .CallExpr (.ImplicitCastExpr (.DeclRefExpr none (L 11) powDecl usingPowDecl fnTy) fnPtrTy)
    powArgs (L 19) doubleTy

/-- The tree of `powSource` around a call. -/
def powTU (call : Stmt) : List Decl :=
  [.mk ⟨48, .Var, "y", doubleTy, L 0, L 7, L 19⟩ [] (some call)]

/-- The header declaration `bool isDigit(int);`. -/
def isDigitDecl : NamedDecl := ⟨49, .Function, "isDigit", fnTy, H 800, H 805, H 816⟩

/-- The header declaration `char c;`. -/
def cDecl : NamedDecl := ⟨50, .Var, "c", intTy, H 900, H 905, H 905⟩

/-- The main file `bool b = isDigit(c);`. -/
def isDigitSource : String := "bool b = isDigit(c);"

/-- The reference `c` at offset 17, the argument of the call. -/
def isDigitArg : Stmt := ref cDecl 17

/-- The call `isDigit(c)` at offset 9 of `isDigitSource`. -/
def isDigitCall : Stmt :=
  .CallExpr (.ImplicitCastExpr (ref isDigitDecl 9) fnPtrTy)
    [.ImplicitCastExpr isDigitArg intTy] (L 18) boolTy

/-- The tree of `isDigitSource`. -/
def isDigitTU : List Decl :=
  [.mk ⟨51, .Var, "b", boolTy, L 0, L 5, L 18⟩ [] (some isDigitCall)]

/-- The header declaration `int a;`. -/
def aDecl : NamedDecl := ⟨52, .Var, "a", intTy, H 950, H 954, H 954⟩

/-- The main file `void setup() {` newline `  pinMode(a + 1, OUTPUT);` newline
`}`. -/
def pinExprSource : String := "void setup() \x7b\n  pinMode(a + 1, OUTPUT);\n\x7d"

/-- The argument `a + 1`: `a` at 25, the literal `1` at 29. -/
def pinExprArg : Stmt :=
  .BinaryOperator "+" (rvalue aDecl 25) (.IntegerLiteral (L 29) 1 intTy) intTy

/-- The call `pinMode(a + 1, OUTPUT)` at offset 17 of `pinExprSource`. -/
def pinExprCall : Stmt :=
  .CallExpr (.ImplicitCastExpr (ref pinModeDecl 17) fnPtrTy)
    [.ImplicitCastExpr pinExprArg intTy, rvalue OUTPUTDecl 32] (L 38) voidTy

/-- The tree of `pinExprSource`. -/
def pinExprTU : List Decl :=
  [.mk ⟨53, .Function, "setup", fnTy, L 0, L 5, L 41⟩ []
    (some (.CompoundStmt (L 13) (L 41) [pinExprCall]))]

/-- The tree of `pinModeSource`: the function `setup` around `pinModeCall`. -/
def pinModeTU : List Decl :=
  [.mk ⟨54, .Function, "setup", fnTy, L 0, L 5, L 38⟩ []
    (some (.CompoundStmt (L 13) (L 38) [pinModeCall]))]

/-- The body of `f` in `indentedIfSource`, the parent of `indentedIf`. -/
def indentedIfParent : Stmt := .CompoundStmt (L 14) (L 31) [indentedIf]

/-- The header declaration `double x;`. -/
def qxDecl : NamedDecl := ⟨60, .Var, "x", doubleTy, H 450, H 457, H 457⟩

/-- The statement `x = Math::PI` of `qualifiedSource`: `x` at 32. -/
def qualifiedAssign : Stmt :=
  .BinaryOperator "=" (ref qxDecl 32) (.ImplicitCastExpr qualifiedPIRef doubleTy) doubleTy

/-- The tree of `qualifiedSource`: the function `loop` (braces at 12 and 55)
with the three statements of its body. -/
def qualifiedTU : List Decl :=
  [.mk ⟨61, .Function, "loop", fnTy, L 0, L 5, L 55⟩ []
    (some (.CompoundStmt (L 12) (L 55) [qualifiedDelayCall, qualifiedAssign, fpCall]))]

/-- The main file `void loop();`, without a newline at its end. -/
def loopProtoSource : String := "void loop();"

/-- The tree of `loopProtoSource`: the declaration of `loop`, which ends at
the `)` at offset 10. -/
def loopProtoTU : List Decl := [.mk ⟨62, .Function, "loop", fnTy, L 0, L 5, L 10⟩ [] none]

end Examples

/-! ## Lemmas shared by the theorems -/

theorem hasName_iff (Name : String) (d : NamedDecl) : hasName Name d = true ↔ d.name = Name := by
  simp [hasName]

theorem isExpansionInMainFile_iff (loc : SourceLocation) :
    isExpansionInMainFile loc = true ↔ loc.file = mainFileID := by
  simp [isExpansionInMainFile]

/-! ## C1: the counted-loop rule -/

/-- C1, counterexample: the loop `for (int i = 0; j < n; i++)`, whose condition
reads a variable `j` that is a different declaration from the incremented `i`,
is matched by the counted-loop rule, `j` is bound to `condVarName`, and the
handler inserts `#incvar/n` at the declaration of `i`; the run over the whole
function submits that edit. -/
theorem forStmt_matches_other_condition_variable :
    Examples.jDecl.declID ≠ Examples.iDecl.declID
    ∧ (∃ Nodes, Rule.matcher .HandlerForFor [] (.stmt Examples.forLoopJ) = some Nodes
        ∧ (getNodeAs Nodes .VarDecl "condVarName").map DynTypedNode.getBeginLoc
            = some Examples.jDecl.beginLoc
        ∧ (getNodeAs Nodes .VarDecl "incVarName").map DynTypedNode.getBeginLoc
            = some Examples.iDecl.beginLoc
        ∧ Rule.run .HandlerForFor Nodes
            = some [.InsertText (Examples.L 28) "#incvar/n" true true])
    ∧ (∃ calls, HandleTranslationUnit [Examples.fDecl] = some calls
        ∧ RewriteCall.InsertText (Examples.L 28) "#incvar/n" true true ∈ calls) := by
  refine ⟨by decide, ⟨_, rfl, by decide, by decide, by decide⟩, ⟨_, rfl, by decide⟩⟩

/-- C1, amended: the counted-loop rule matches every for-loop whose init
declares a single variable initialised with the integer literal 0, whose
increment is a unary `++` on a reference to a variable of integer type and
whose condition is a `<` comparison with, on the left (parentheses and
implicit casts ignored), a reference to a variable of integer type and, on the
right, an expression of integer type.  The three variables `initVar`,
`incVar` and `condVar` are arbitrary: they need not be the same declaration.
For such a loop the handler submits one insertion of `#incvar/n` at the start
of the declaration of the incremented variable. -/
theorem forStmt_matches_any_three_variables
    (ancestors : List Stmt) (forLoc beginLoc endLoc litLoc opLoc incNameLoc : SourceLocation)
    (initVar incVar condVar incFound : NamedDecl) (initDecls : List Decl)
    (litType incType opType cmpType : QualType) (incQualifier : Option SourceLocation)
    (isPostfixOp : Bool) (lhs rhs body : Stmt)
    (condQualifier : Option SourceLocation) (condNameLoc : SourceLocation)
    (condFound : NamedDecl) (condType : QualType)
    (hInit : initVar.kind = .Var)
    (hInc : incVar.kind = .Var) (hIncType : incVar.type.isIntegerType = true)
    (hLhs : lhs.IgnoreParenImpCasts
        = .DeclRefExpr condQualifier condNameLoc condVar condFound condType)
    (hCond : condVar.kind = .Var) (hCondType : condVar.type.isIntegerType = true)
    (hRhs : exprHasIntegerType rhs = true) :
    Rule.fire .HandlerForFor ancestors (.stmt (.ForStmt forLoc
        (some (.DeclStmt beginLoc endLoc
          [.mk initVar initDecls (some (.IntegerLiteral litLoc 0 litType))]))
        (some (.BinaryOperator "<" lhs rhs cmpType))
        (some (.UnaryOperator opLoc "++" isPostfixOp
          (.DeclRefExpr incQualifier incNameLoc incVar incFound incType) opType))
        body))
      = some (some [.InsertText incVar.beginLoc "#incvar/n" true true]) := by
  simp [Rule.fire, Rule.matcher, forStmtMatcher, hasLoopInit, hasIncrement, hasCondition, hLhs,
    hInit, hInc, hIncType, hCond, hCondType, hRhs, Rule.run, IncrementForLoopHandler.run,
    getNodeAs, List.lookup, DynTypedNode.isa, DynTypedNode.getBeginLoc]

/-- C1, amended, at `for (int i = 0; i < n; i++)`: the loop is matched and the
handler inserts `#incvar/n` at the declaration of `i`. -/
theorem forStmt_matches_any_three_variables_witness :
    Rule.fire .HandlerForFor [] (.stmt Examples.forLoopI)
      = some (some [.InsertText Examples.iDecl.beginLoc "#incvar/n" true true]) :=
  forStmt_matches_any_three_variables [] (Examples.L 23) (Examples.L 28) (Examples.L 37)
    (Examples.L 36) (Examples.L 47) (Examples.L 46) Examples.iDecl Examples.iDecl Examples.iDecl
    Examples.iDecl [] Examples.intTy Examples.intTy Examples.intTy Examples.intTy none true
    (Examples.rvalue Examples.iDecl 39) (Examples.rvalue Examples.nDecl 43)
    (.CompoundStmt (Examples.L 51) (Examples.L 52) []) none (Examples.L 39) Examples.iDecl
    Examples.intTy (by decide) (by decide) (by decide) (by rfl) (by decide) (by decide)
    (by decide)

/-! ## C2: the loop rule -/

/-- C2, counterexample: for `void loop() {}` the loop rule submits three calls,
none of which replaces the declaration (offsets 0 to 15): the name token
`loop` (offsets 5 to 9) is removed, the first token `void` (offsets 0 to 4) is
replaced by `While True:` with a capital `W`, and the name token is replaced
by a space.  The calls differ from the single replacement of the declaration
by `while True:`. -/
theorem loop_rule_submits_token_edits_with_capital_W :
    Rule.fire .HandlerForLoopExpr [] (.decl Examples.loopDecl)
      = some (some [.RemoveText ⟨Examples.L 5, Examples.L 5⟩,
                    .ReplaceText ⟨Examples.L 0, Examples.L 0⟩ "While True:",
                    .ReplaceText ⟨Examples.L 5, Examples.L 5⟩ " "])
    ∧ Rule.fire .HandlerForLoopExpr [] (.decl Examples.loopDecl)
      ≠ some (some [.ReplaceText ⟨Examples.loopDecl.info.beginLoc, Examples.loopDecl.info.endLoc⟩
                      "while True:"])
    ∧ ([RewriteCall.RemoveText ⟨Examples.L 5, Examples.L 5⟩,
        RewriteCall.ReplaceText ⟨Examples.L 0, Examples.L 0⟩ "While True:",
        RewriteCall.ReplaceText ⟨Examples.L 5, Examples.L 5⟩ " "].map
          (RewriteCall.span (MeasureTokenLength Examples.loopSource))
        = [⟨mainFileID, 5, 9⟩, ⟨mainFileID, 0, 4⟩, ⟨mainFileID, 5, 9⟩])
    ∧ DynTypedNode.span (MeasureTokenLength Examples.loopSource) (.decl Examples.loopDecl.info)
        = ⟨mainFileID, 0, 15⟩ := by
  refine ⟨by decide, by decide, by decide, by decide⟩

/-- C2, amended: the loop rule matches a declaration node exactly when it is a
function declared in the main file, named `loop`, with zero parameters, and it
matches no statement.  For a match the handler submits three calls, each on a
single token: the removal of the name token, the replacement of the first
token of the declaration by `While True:`, and the replacement of the name
token by one space. -/
theorem loop_rule_edits (ancestors : List Stmt) (d : Decl) :
    Rule.fire .HandlerForLoopExpr ancestors (.decl d)
      = (if d.info.kind = .Function ∧ d.info.beginLoc.file = mainFileID
            ∧ d.info.name = "loop" ∧ d.getNumParams = 0
         then some (some [.RemoveText (.ofLoc d.info.location),
                          .ReplaceText (.ofLoc d.info.beginLoc) "While True:",
                          .ReplaceText (.ofLoc d.info.location) " "])
         else none)
    ∧ ∀ s, Rule.fire .HandlerForLoopExpr ancestors (.stmt s) = none := by
  constructor
  · by_cases h : d.info.kind = .Function ∧ d.info.beginLoc.file = mainFileID
        ∧ d.info.name = "loop" ∧ d.getNumParams = 0
    · obtain ⟨h1, h2, h3, h4⟩ := h
      simp [Rule.fire, Rule.matcher, loopexprMatcher, hasName, isExpansionInMainFile, h1, h2, h3,
        h4, Rule.run, loopExprHandler.run, getNodeAs, List.lookup, DynTypedNode.isa]
    · rw [if_neg h]
      simp only [Rule.fire, Rule.matcher, loopexprMatcher, Option.map_eq_none']
      simp only [hasName, isExpansionInMainFile, Bool.and_eq_true, beq_iff_eq, ite_eq_right_iff]
      intro h'
      exact absurd ⟨h'.1.1.1, h'.1.1.2, h'.1.2, h'.2⟩ h
  · intro s
    simp [Rule.fire, Rule.matcher, loopexprMatcher]

/-! ## C3: the effect of the setup rule -/

/-- C3, counterexample: for `void setup() {}` (offsets 0 to 16) the setup rule
does not submit a removal of the declaration.  It submits the removal of the
name token (offsets 5 to 10), the removal of the first token `void` (offsets
0 to 4) and the replacement of that token by a space: a replacement text is
emitted, and each call is addressed to one token. -/
theorem setup_rule_submits_token_edits :
    Rule.fire .HandlerForSetup [] (.decl Examples.setupDecl)
      = some (some [.RemoveText ⟨Examples.L 5, Examples.L 5⟩,
                    .RemoveText ⟨Examples.L 0, Examples.L 0⟩,
                    .ReplaceText ⟨Examples.L 0, Examples.L 0⟩ " "])
    ∧ Rule.fire .HandlerForSetup [] (.decl Examples.setupDecl)
      ≠ some (some [.RemoveText
          ⟨Examples.setupDecl.info.beginLoc, Examples.setupDecl.info.endLoc⟩])
    ∧ ([RewriteCall.RemoveText ⟨Examples.L 5, Examples.L 5⟩,
        RewriteCall.RemoveText ⟨Examples.L 0, Examples.L 0⟩,
        RewriteCall.ReplaceText ⟨Examples.L 0, Examples.L 0⟩ " "].map
          (RewriteCall.span (MeasureTokenLength Examples.setupSource))
        = [⟨mainFileID, 5, 10⟩, ⟨mainFileID, 0, 4⟩, ⟨mainFileID, 0, 4⟩])
    ∧ DynTypedNode.span (MeasureTokenLength Examples.setupSource) (.decl Examples.setupDecl.info)
        = ⟨mainFileID, 0, 16⟩ := by
  refine ⟨by decide, by decide, by decide, by decide⟩

/-- C3, amended: for every node matched by the setup rule, the node is a
declaration and the handler submits three calls, each on a single token: the
removal of the name token, the removal of the first token of the declaration,
and the replacement of that first token by one space. -/
theorem setup_rule_edits (ancestors : List Stmt) (n : Node) (Nodes : BoundNodes)
    (h : Rule.matcher .HandlerForSetup ancestors n = some Nodes) :
    ∃ d, n = .decl d
      ∧ Rule.run .HandlerForSetup Nodes
          = some [.RemoveText (.ofLoc d.info.location),
                  .RemoveText (.ofLoc d.info.beginLoc),
                  .ReplaceText (.ofLoc d.info.beginLoc) " "] := by
  cases n with
  | stmt s => simp [Rule.matcher, setupfuncMatcher] at h
  | decl d =>
    refine ⟨d, rfl, ?_⟩
    simp only [Rule.matcher, setupfuncMatcher] at h
    split at h
    · next hc =>
      simp only [Bool.and_eq_true, beq_iff_eq] at hc
      injection h with h
      subst h
      simp [Rule.run, setupHandler.run, getNodeAs, List.lookup, DynTypedNode.isa, hc.1.1]
    · simp at h

/-- C3, amended, at `void setup() {}`: the rule matches and the three calls are
on the tokens at offsets 5, 0 and 0. -/
theorem setup_rule_edits_witness :
    ∃ d, Node.decl Examples.setupDecl = .decl d
      ∧ Rule.run .HandlerForSetup [("setupfunc", .decl Examples.setupDecl.info)]
          = some [.RemoveText (.ofLoc d.info.location),
                  .RemoveText (.ofLoc d.info.beginLoc),
                  .ReplaceText (.ofLoc d.info.beginLoc) " "] :=
  setup_rule_edits [] (.decl Examples.setupDecl) [("setupfunc", .decl Examples.setupDecl.info)]
    (by rfl)

/-! ## C4: the predicate of the setup rule -/

/-- C4, the code at the failing input: `void setup(int x) {}` has one parameter
and is matched by the setup rule, whose handler submits its three calls; the
loop rule, registered with `parameterCountIs(0)`, does not match the same
declaration named `loop`. -/
theorem setup_with_parameter_is_matched :
    Examples.setupParamDecl.getNumParams = 1
    ∧ Rule.fire .HandlerForSetup [] (.decl Examples.setupParamDecl)
      = some (some [.RemoveText ⟨Examples.L 5, Examples.L 5⟩,
                    .RemoveText ⟨Examples.L 0, Examples.L 0⟩,
                    .ReplaceText ⟨Examples.L 0, Examples.L 0⟩ " "])
    ∧ Rule.fire .HandlerForLoopExpr [] (.decl Examples.loopParamDecl) = none := by
  refine ⟨by decide, by decide, by decide⟩

/-! ## C5, C6: the pin-mode and delay rules -/

/-- The text of an unqualified name is a single token: its first and last
token are the same. -/
theorem unqualifiedName_getEndLoc :
    ∀ (s : Stmt), s.isUnqualifiedName = true → s.getEndLoc = s.getBeginLoc
  | .DeclRefExpr none _ _ _ _, _ => rfl
  | .ImplicitCastExpr subExpr _, h => by
      simp only [Stmt.isUnqualifiedName] at h
      simpa [Stmt.getEndLoc, Stmt.getBeginLoc] using unqualifiedName_getEndLoc subExpr h
  | .DeclRefExpr (some _) _ _ _ _, h => by simp [Stmt.isUnqualifiedName] at h
  | .IfStmt _ _ _ _, h => by simp [Stmt.isUnqualifiedName] at h
  | .ForStmt _ _ _ _ _, h => by simp [Stmt.isUnqualifiedName] at h
  | .CompoundStmt _ _ _, h => by simp [Stmt.isUnqualifiedName] at h
  | .DeclStmt _ _ _, h => by simp [Stmt.isUnqualifiedName] at h
  | .IntegerLiteral _ _ _, h => by simp [Stmt.isUnqualifiedName] at h
  | .UnaryOperator _ _ _ _ _, h => by simp [Stmt.isUnqualifiedName] at h
  | .BinaryOperator _ _ _ _, h => by simp [Stmt.isUnqualifiedName] at h
  | .CallExpr _ _ _ _, h => by simp [Stmt.isUnqualifiedName] at h
  | .ParenExpr _ _ _ _, h => by simp [Stmt.isUnqualifiedName] at h
  | .OtherStmt _ _ _ _, h => by simp [Stmt.isUnqualifiedName] at h

/-- A call matched by `callExpr(isExpansionInMainFile(),
callee(functionDecl(hasName(Name)))).bind(ID)` binds itself to `ID`. -/
theorem callExprMatcher_eq (Name ID : String) (callee : Stmt) (args : List Stmt)
    (rParenLoc : SourceLocation) (type : QualType) (d : NamedDecl)
    (hFile : callee.getBeginLoc.file = mainFileID)
    (hDecl : callee.getReferencedDeclOfCallee = some d)
    (hKind : d.kind = .Function) (hName : d.name = Name) :
    callExprMatcher Name ID (.stmt (.CallExpr callee args rParenLoc type))
      = some [(ID, .stmt (.CallExpr callee args rParenLoc type))] := by
  simp [callExprMatcher, isExpansionInMainFile, Stmt.getBeginLoc, hFile, calleeFunctionDecl,
    Stmt.getCalleeDecl, hDecl, hKind, hasName, hName]

/-- C5, counterexample: the call `pinMode(13, OUTPUT)` stands at offset 17 of
the main file.  The rule submits the replacement of the token at offset 17 and
an insertion whose anchor is offset 17, the start of the call, not offset 0. -/
theorem pinMode_comment_is_anchored_at_the_call :
    Rule.fire .HandlerForpinMode [] (.stmt Examples.pinModeCall)
      = some (some [.ReplaceText ⟨Examples.L 17, Examples.L 17⟩ "Pin.mode",
                    .InsertText (Examples.L 17) "#from machine import pin at start of code\n"
                      true true])
    ∧ Rule.fire .HandlerForpinMode [] (.stmt Examples.pinModeCall)
      ≠ some (some [.ReplaceText ⟨Examples.L 17, Examples.L 17⟩ "Pin.mode",
                    .InsertText (Examples.L 0) "#from machine import pin at start of code\n"
                      true true]) := by
  refine ⟨by decide, by decide⟩

/-- C5, amended: for every call in the main file whose callee is an
unqualified name that resolves to a function named `pinMode`, the rule submits
exactly two calls: the replacement of the callee text by `Pin.mode`, and the
insertion of the comment `#from machine import pin at start of code` at the
start of the call, not at the start of the translation unit. -/
theorem pinMode_rule_edits (ancestors : List Stmt) (callee : Stmt) (args : List Stmt)
    (rParenLoc : SourceLocation) (type : QualType) (d : NamedDecl)
    (hFile : callee.getBeginLoc.file = mainFileID)
    (hDecl : callee.getReferencedDeclOfCallee = some d)
    (hKind : d.kind = .Function) (hName : d.name = "pinMode")
    (hUnq : callee.isUnqualifiedName = true) :
    Rule.fire .HandlerForpinMode ancestors (.stmt (.CallExpr callee args rParenLoc type))
      = some (some [.ReplaceText ⟨callee.getBeginLoc, callee.getEndLoc⟩ "Pin.mode",
                    .InsertText (Stmt.CallExpr callee args rParenLoc type).getBeginLoc
                      "#from machine import pin at start of code\n" true true])
    ∧ (∀ tokLen : SourceLocation → Nat,
        (RewriteCall.ReplaceText ⟨callee.getBeginLoc, callee.getEndLoc⟩ "Pin.mode").span tokLen
          = callee.span tokLen) := by
  constructor
  · simp [Rule.fire, Rule.matcher,
      callExprMatcher_eq "pinMode" "pinMode" callee args rParenLoc type d hFile hDecl hKind hName,
      Rule.run, pinModeVariableHandler.run, replaceAndComment, getNodeAs, List.lookup,
      DynTypedNode.isa, DynTypedNode.getBeginLoc, Stmt.getBeginLoc, SourceRange.ofLoc,
      unqualifiedName_getEndLoc callee hUnq]
  · intro tokLen
    rfl

/-- C5, amended, at `pinMode(13, OUTPUT)`: the callee is the unqualified name at
offset 17; the replacement covers it and the comment is inserted at offset
17. -/
theorem pinMode_rule_edits_witness :
    (Stmt.ImplicitCastExpr (Examples.ref Examples.pinModeDecl 17)
        Examples.fnPtrTy).isUnqualifiedName = true
    ∧ Rule.fire .HandlerForpinMode []
        (.stmt (.CallExpr (.ImplicitCastExpr (Examples.ref Examples.pinModeDecl 17) Examples.fnPtrTy)
          [.ImplicitCastExpr (.IntegerLiteral (Examples.L 25) 13 Examples.intTy) Examples.intTy,
           Examples.rvalue Examples.OUTPUTDecl 29] (Examples.L 35) Examples.voidTy))
      = some (some [.ReplaceText ⟨Examples.L 17, Examples.L 17⟩ "Pin.mode",
                    .InsertText (Examples.L 17)
                      "#from machine import pin at start of code\n" true true])
    ∧ (∀ tokLen : SourceLocation → Nat,
        (RewriteCall.ReplaceText ⟨Examples.L 17, Examples.L 17⟩ "Pin.mode").span tokLen
          = (Stmt.ImplicitCastExpr (Examples.ref Examples.pinModeDecl 17)
              Examples.fnPtrTy).span tokLen) :=
  ⟨rfl,
    pinMode_rule_edits [] (.ImplicitCastExpr (Examples.ref Examples.pinModeDecl 17) Examples.fnPtrTy)
      _ (Examples.L 35) Examples.voidTy Examples.pinModeDecl (by decide) (by rfl) (by decide)
      (by decide) rfl⟩

/-- C6, at the main file `void loop() {` newline `  ns::delay(5);` newline
`  x = Math::PI;` newline `  fp(5);` newline `}`: in the call `ns::delay(5)` the
callee `ns::delay` covers offsets 16 to 25; the delay rule matches and its one
replacement covers offsets 16 to 18, the token `ns`, not the callee, and the
output of the run reads `utime.sleep_ms::delay(5)`. -/
theorem delay_rule_replaces_first_token_only :
    Rule.fire .HandlerForDelay [] (.stmt Examples.qualifiedDelayCall)
      = some (some [.ReplaceText ⟨Examples.L 16, Examples.L 16⟩ "utime.sleep_ms"])
    ∧ RewriteCall.span (MeasureTokenLength Examples.qualifiedSource)
        (.ReplaceText ⟨Examples.L 16, Examples.L 16⟩ "utime.sleep_ms") = ⟨mainFileID, 16, 18⟩
    ∧ Examples.qualifiedDelayCallee.span (MeasureTokenLength Examples.qualifiedSource)
        = ⟨mainFileID, 16, 25⟩
    ∧ Rule.fire .HandlerForDelay [] (.stmt Examples.qualifiedDelayCall)
      ≠ some (some [.ReplaceText
          ⟨Examples.qualifiedDelayCallee.getBeginLoc, Examples.qualifiedDelayCallee.getEndLoc⟩
          "utime.sleep_ms"])
    ∧ RewriteCall.ReplaceText ⟨Examples.L 16, Examples.L 16⟩ "utime.sleep_ms"
        ∈ (HandleTranslationUnit Examples.qualifiedTU).getD []
    ∧ (((runTool Examples.qualifiedSource Examples.qualifiedTU).map Sinks.outs).getD
          "").toList.take 41
        = "While True: # \n  utime.sleep_ms::delay(5)".toList := by
  refine ⟨by decide, by decide, by decide, by decide, by decide, by decide⟩

/-- The call the delay rule submits at a call in the main file whose callee
resolves to a function named `delay`; when the callee is an unqualified name,
as in `delay(1000)`, the token replaced is the whole callee. -/
theorem delay_rule_edits (ancestors : List Stmt) (callee : Stmt) (args : List Stmt)
    (rParenLoc : SourceLocation) (type : QualType) (d : NamedDecl)
    (hFile : callee.getBeginLoc.file = mainFileID)
    (hDecl : callee.getReferencedDeclOfCallee = some d)
    (hKind : d.kind = .Function) (hName : d.name = "delay") :
    Rule.fire .HandlerForDelay ancestors (.stmt (.CallExpr callee args rParenLoc type))
      = some (some [.ReplaceText (.ofLoc callee.getBeginLoc) "utime.sleep_ms"])
    ∧ (callee.isUnqualifiedName = true →
        SourceRange.ofLoc callee.getBeginLoc = ⟨callee.getBeginLoc, callee.getEndLoc⟩) := by
  constructor
  · simp [Rule.fire, Rule.matcher,
      callExprMatcher_eq "delay" "delay" callee args rParenLoc type d hFile hDecl hKind hName,
      Rule.run, delayHandler.run, replaceAtBeginLoc, getNodeAs, List.lookup,
      DynTypedNode.isa, DynTypedNode.getBeginLoc, Stmt.getBeginLoc]
  · intro h
    simp [SourceRange.ofLoc, unqualifiedName_getEndLoc callee h]

/-! ## C7: the rules for references to named constants -/

/-- A reference matched by a symbol rule is replaced at its first token:
the matcher `declRefExpr(.., to(varDecl(hasName(Name)))).bind(ID)` followed by
the handler body `ReplaceText(p->getBeginLoc(), Text)`. -/
theorem varRefMatcher_fire (Name ID Text : String) (T : NodeClass)
    (hT : T = .Stmt ∨ T = .DeclRefExpr) (q : Option SourceLocation) (nameLoc : SourceLocation)
    (decl foundDecl : NamedDecl) (type : QualType) :
    (varRefMatcher Name ID (.stmt (.DeclRefExpr q nameLoc decl foundDecl type))).map
        (replaceAtBeginLoc T ID Text)
      = (if (Stmt.DeclRefExpr q nameLoc decl foundDecl type).getBeginLoc.file = mainFileID
            ∧ decl.kind = .Var ∧ decl.name = Name
         then some (some [.ReplaceText
            (.ofLoc (Stmt.DeclRefExpr q nameLoc decl foundDecl type).getBeginLoc) Text])
         else none) := by
  by_cases h : (Stmt.DeclRefExpr q nameLoc decl foundDecl type).getBeginLoc.file = mainFileID
      ∧ decl.kind = .Var ∧ decl.name = Name
  · obtain ⟨h1, h2, h3⟩ := h
    rcases hT with rfl | rfl <;>
      simp [varRefMatcher, isExpansionInMainFile, hasName, h1, h2, h3, replaceAtBeginLoc,
        getNodeAs, List.lookup, DynTypedNode.isa, DynTypedNode.getBeginLoc]
  · rw [if_neg h]
    simp only [varRefMatcher, Option.map_eq_none']
    simp only [hasName, isExpansionInMainFile, Bool.and_eq_true, beq_iff_eq, ite_eq_right_iff]
    intro h'
    exact absurd ⟨h'.1.1, h'.1.2, h'.2⟩ h

/-- The matcher of a symbol rule matches nothing but a `DeclRefExpr`. -/
theorem varRefMatcher_other (Name ID : String) (n : Node)
    (h : ∀ q nameLoc decl foundDecl type, n ≠ .stmt (.DeclRefExpr q nameLoc decl foundDecl type)) :
    varRefMatcher Name ID n = none := by
  cases n with
  | decl d => rfl
  | stmt s =>
    cases s with
    | DeclRefExpr q nameLoc decl foundDecl type => exact absurd rfl (h q nameLoc decl foundDecl type)
    | _ => rfl

/-- C7, at the main file `void loop() {` newline `  ns::delay(5);` newline
`  x = Math::PI;` newline `  fp(5);` newline `}`: the reference `Math::PI`
covers offsets 36 to 44; the PI rule matches it by its declaration and its one
replacement covers offsets 36 to 40, the qualifier token `Math`, not the
reference, and the output of the run reads `x = math.pi::PI`. -/
theorem pi_rule_replaces_first_token_only :
    Rule.fire .HandlerForPi [] (.stmt Examples.qualifiedPIRef)
      = some (some [.ReplaceText ⟨Examples.L 36, Examples.L 36⟩ "math.pi"])
    ∧ RewriteCall.span (MeasureTokenLength Examples.qualifiedSource)
        (.ReplaceText ⟨Examples.L 36, Examples.L 36⟩ "math.pi") = ⟨mainFileID, 36, 40⟩
    ∧ Examples.qualifiedPIRef.span (MeasureTokenLength Examples.qualifiedSource)
        = ⟨mainFileID, 36, 44⟩
    ∧ Rule.fire .HandlerForPi [] (.stmt Examples.qualifiedPIRef)
      ≠ some (some [.ReplaceText
          ⟨Examples.qualifiedPIRef.getBeginLoc, Examples.qualifiedPIRef.getEndLoc⟩ "math.pi"])
    ∧ RewriteCall.ReplaceText ⟨Examples.L 36, Examples.L 36⟩ "math.pi"
        ∈ (HandleTranslationUnit Examples.qualifiedTU).getD []
    ∧ ((((runTool Examples.qualifiedSource Examples.qualifiedTU).map Sinks.outs).getD
          "").toList.drop 45).take 15
        = "x = math.pi::PI".toList := by
  refine ⟨by decide, by decide, by decide, by decide, by decide, by decide⟩

/-- Each of the rules PI, EULER, INPUT, OUTPUT and INPUT_PULLUP matches a node
exactly when the node is a reference that begins in the main file and resolves
to a variable declaration with that name; the spelling of the referring
tokens plays no part in the match.  For a match the handler submits exactly
one call, a replacement by `math.pi`, `math.e`, `IN`, `OUT` or `PULL_UP` at the
token the reference begins with; for a reference without qualifier that token
is the whole reference. -/
theorem symbol_rules_edits (r : Rule) (Name Text : String)
    (hr : (r, Name, Text) ∈ symbolRules) (ancestors : List Stmt) :
    (∀ q nameLoc decl foundDecl type,
      Rule.fire r ancestors (.stmt (.DeclRefExpr q nameLoc decl foundDecl type))
        = (if (Stmt.DeclRefExpr q nameLoc decl foundDecl type).getBeginLoc.file = mainFileID
              ∧ decl.kind = .Var ∧ decl.name = Name
           then some (some [.ReplaceText
              (.ofLoc (Stmt.DeclRefExpr q nameLoc decl foundDecl type).getBeginLoc) Text])
           else none))
    ∧ (∀ nameLoc decl foundDecl type,
        SourceRange.ofLoc (Stmt.DeclRefExpr none nameLoc decl foundDecl type).getBeginLoc
          = ⟨(Stmt.DeclRefExpr none nameLoc decl foundDecl type).getBeginLoc,
             (Stmt.DeclRefExpr none nameLoc decl foundDecl type).getEndLoc⟩)
    ∧ (∀ n, (∀ q nameLoc decl foundDecl type,
          n ≠ .stmt (.DeclRefExpr q nameLoc decl foundDecl type)) →
        Rule.fire r ancestors n = none) := by
  refine ⟨?_, fun _ _ _ _ => rfl, ?_⟩
  · intro q nameLoc decl foundDecl type
    simp only [symbolRules, List.mem_cons, Prod.mk.injEq, List.mem_singleton, List.mem_nil_iff,
      or_false] at hr
    rcases hr with ⟨rfl, rfl, rfl⟩ | ⟨rfl, rfl, rfl⟩ | ⟨rfl, rfl, rfl⟩ | ⟨rfl, rfl, rfl⟩
      | ⟨rfl, rfl, rfl⟩
    · exact varRefMatcher_fire "PI" "PI" "math.pi" .DeclRefExpr (Or.inr rfl) q nameLoc decl
        foundDecl type
    · exact varRefMatcher_fire "EULER" "EULER" "math.e" .DeclRefExpr (Or.inr rfl) q nameLoc decl
        foundDecl type
    · exact varRefMatcher_fire "INPUT" "INPUT" "IN" .Stmt (Or.inl rfl) q nameLoc decl
        foundDecl type
    · exact varRefMatcher_fire "OUTPUT" "OUTPUT" "OUT" .Stmt (Or.inl rfl) q nameLoc decl
        foundDecl type
    · exact varRefMatcher_fire "INPUT_PULLUP" "INPUT_PULLUP" "PULL_UP" .Stmt (Or.inl rfl) q
        nameLoc decl foundDecl type
  · intro n hn
    simp only [symbolRules, List.mem_cons, Prod.mk.injEq, List.mem_singleton, List.mem_nil_iff,
      or_false] at hr
    rcases hr with ⟨rfl, rfl, rfl⟩ | ⟨rfl, rfl, rfl⟩ | ⟨rfl, rfl, rfl⟩ | ⟨rfl, rfl, rfl⟩
      | ⟨rfl, rfl, rfl⟩ <;>
      simp [Rule.fire, Rule.matcher, varRefMatcher_other _ _ n hn]

/-- The statement of `symbol_rules_edits` for the PI rule, the first entry of
the table. -/
theorem symbol_rules_edits_witness :
    (∀ q nameLoc decl foundDecl type,
      Rule.fire .HandlerForPi [] (.stmt (.DeclRefExpr q nameLoc decl foundDecl type))
        = (if (Stmt.DeclRefExpr q nameLoc decl foundDecl type).getBeginLoc.file = mainFileID
              ∧ decl.kind = .Var ∧ decl.name = "PI"
           then some (some [.ReplaceText
              (.ofLoc (Stmt.DeclRefExpr q nameLoc decl foundDecl type).getBeginLoc) "math.pi"])
           else none))
    ∧ (∀ nameLoc decl foundDecl type,
        SourceRange.ofLoc (Stmt.DeclRefExpr none nameLoc decl foundDecl type).getBeginLoc
          = ⟨(Stmt.DeclRefExpr none nameLoc decl foundDecl type).getBeginLoc,
             (Stmt.DeclRefExpr none nameLoc decl foundDecl type).getEndLoc⟩)
    ∧ (∀ n, (∀ q nameLoc decl foundDecl type,
          n ≠ .stmt (.DeclRefExpr q nameLoc decl foundDecl type)) →
        Rule.fire .HandlerForPi [] n = none) :=
  symbol_rules_edits .HandlerForPi "PI" "math.pi" (by decide) []

/-! ## C8: a call whose callee does not resolve to a function -/

/-- A call whose callee has no declaration, or a declaration that is not a
function, fails `callee(functionDecl(hasName(Name)))` for every name. -/
theorem calleeFunctionDecl_unresolved (Name : String) (callee : Stmt) (args : List Stmt)
    (rParenLoc : SourceLocation) (type : QualType)
    (h : ∀ d, callee.getReferencedDeclOfCallee = some d → d.kind ≠ .Function) :
    calleeFunctionDecl Name (.CallExpr callee args rParenLoc type) = false := by
  unfold calleeFunctionDecl
  simp only [Stmt.getCalleeDecl]
  cases hd : callee.getReferencedDeclOfCallee with
  | none => rfl
  | some d => simp [h d hd]

/-- C8: for every call node whose callee does not resolve to a function
declaration (it has no declaration, or its declaration is not a function),
every call-by-name rule fails to match and so makes no call on the rewriter;
no match reported for the node belongs to a call-by-name rule; and the
traversal goes on: it is the matches of the node followed by the traversal of
the callee and of the arguments. -/
theorem unresolved_callee_is_no_match (ancestors : List Stmt) (callee : Stmt) (args : List Stmt)
    (rParenLoc : SourceLocation) (type : QualType)
    (h : ∀ d, callee.getReferencedDeclOfCallee = some d → d.kind ≠ .Function) :
    (∀ r ∈ callByNameRules,
        Rule.matcher r ancestors (.stmt (.CallExpr callee args rParenLoc type)) = none
        ∧ Rule.fire r ancestors (.stmt (.CallExpr callee args rParenLoc type)) = none)
    ∧ (∀ m ∈ matchNode ancestors (.stmt (.CallExpr callee args rParenLoc type)),
        m.rule ∉ callByNameRules)
    ∧ TraverseStmt ancestors (.CallExpr callee args rParenLoc type)
        = matchNode ancestors (.stmt (.CallExpr callee args rParenLoc type))
          ++ TraverseStmt (.CallExpr callee args rParenLoc type :: ancestors) callee
          ++ TraverseStmts (.CallExpr callee args rParenLoc type :: ancestors) args := by
  have hno : ∀ r ∈ callByNameRules,
      Rule.matcher r ancestors (.stmt (.CallExpr callee args rParenLoc type)) = none := by
    intro r hr
    simp only [callByNameRules, List.mem_cons, List.mem_singleton, List.mem_nil_iff,
      or_false] at hr
    rcases hr with rfl | rfl | rfl | rfl | rfl | rfl | rfl | rfl | rfl | rfl | rfl | rfl | rfl
      | rfl | rfl | rfl | rfl | rfl | rfl <;>
      simp [Rule.matcher, callExprMatcher,
        calleeFunctionDecl_unresolved _ callee args rParenLoc type h]
  refine ⟨fun r hr => ⟨hno r hr, by simp [Rule.fire, hno r hr]⟩, ?_, ?_⟩
  · intro m hm hmem
    simp only [matchNode, List.mem_filterMap, Option.map_eq_some'] at hm
    obtain ⟨r, _, b, hb, rfl⟩ := hm
    rw [hno r hmem] at hb
    exact absurd hb (by simp)
  · simp [TraverseStmt]

/-- C8, at the call `fp(5)` through a function pointer: the callee resolves to
the variable `fp`, which is not a function. -/
theorem unresolved_callee_is_no_match_witness :
    (∀ r ∈ callByNameRules,
        Rule.matcher r [] (.stmt (.CallExpr (Examples.rvalue Examples.fpDecl 48)
          [.IntegerLiteral (Examples.L 51) 5 Examples.intTy] (Examples.L 52) Examples.voidTy))
          = none
        ∧ Rule.fire r [] (.stmt (.CallExpr (Examples.rvalue Examples.fpDecl 48)
          [.IntegerLiteral (Examples.L 51) 5 Examples.intTy] (Examples.L 52) Examples.voidTy))
          = none)
    ∧ (∀ m ∈ matchNode [] (.stmt (.CallExpr (Examples.rvalue Examples.fpDecl 48)
          [.IntegerLiteral (Examples.L 51) 5 Examples.intTy] (Examples.L 52) Examples.voidTy)),
        m.rule ∉ callByNameRules)
    ∧ TraverseStmt [] (.CallExpr (Examples.rvalue Examples.fpDecl 48)
          [.IntegerLiteral (Examples.L 51) 5 Examples.intTy] (Examples.L 52) Examples.voidTy)
        = matchNode [] (.stmt (.CallExpr (Examples.rvalue Examples.fpDecl 48)
            [.IntegerLiteral (Examples.L 51) 5 Examples.intTy] (Examples.L 52) Examples.voidTy))
          ++ TraverseStmt [.CallExpr (Examples.rvalue Examples.fpDecl 48)
            [.IntegerLiteral (Examples.L 51) 5 Examples.intTy] (Examples.L 52) Examples.voidTy]
              (Examples.rvalue Examples.fpDecl 48)
          ++ TraverseStmts [.CallExpr (Examples.rvalue Examples.fpDecl 48)
            [.IntegerLiteral (Examples.L 51) 5 Examples.intTy] (Examples.L 52) Examples.voidTy]
              [.IntegerLiteral (Examples.L 51) 5 Examples.intTy] :=
  unresolved_callee_is_no_match [] (Examples.rvalue Examples.fpDecl 48)
    [.IntegerLiteral (Examples.L 51) 5 Examples.intTy] (Examples.L 52) Examples.voidTy
    (by
      intro d hd
      have : d = Examples.fpDecl := by
        have h2 : (Examples.rvalue Examples.fpDecl 48).getReferencedDeclOfCallee
            = some Examples.fpDecl := rfl
        rw [h2] at hd
        exact (Option.some.inj hd).symm
      subst this
      decide)

/-! ## C9: the edits lie inside the bound nodes -/

/-- A node found by `getNodeAs` is one of the bound nodes. -/
theorem lookup_mem : ∀ (Nodes : BoundNodes) (ID : String) (p : DynTypedNode),
    Nodes.lookup ID = some p → (ID, p) ∈ Nodes
  | [], _, _, h => by simp [List.lookup] at h
  | (k, b) :: es, ID, p, h => by
      simp only [List.lookup] at h
      split at h
      · next heq =>
        have hk : ID = k := by simpa using heq
        injection h with h
        subst hk h
        exact List.mem_cons_self _ _
      · exact List.mem_cons_of_mem _ (lookup_mem es ID p h)

theorem getNodeAs_mem (Nodes : BoundNodes) (T : NodeClass) (ID : String) (p : DynTypedNode)
    (h : getNodeAs Nodes T ID = some p) : (ID, p) ∈ Nodes := by
  unfold getNodeAs at h
  cases hl : Nodes.lookup ID with
  | none => simp [hl] at h
  | some q =>
    simp only [hl] at h
    split at h
    · injection h with h
      subst h
      exact lookup_mem Nodes ID q hl
    · simp at h

/-- The first token of a well-formed node lies inside the node. -/
theorem beginToken_within (tokLen : SourceLocation → Nat) (p : DynTypedNode)
    (h : p.wellFormed tokLen) :
    ((SourceRange.ofLoc p.getBeginLoc).span tokLen).within (p.span tokLen) := by
  cases p with
  | decl d =>
    obtain ⟨_, _, _, h4, _, _⟩ := h
    exact ⟨rfl, Nat.le_refl _, Nat.le_add_right _ _, h4⟩
  | stmt s =>
    obtain ⟨_, _, h3, _⟩ := h
    exact ⟨rfl, Nat.le_refl _, Nat.le_add_right _ _, h3⟩

/-- The begin location of a well-formed node is an anchor inside the node. -/
theorem beginAnchor_within (tokLen : SourceLocation → Nat) (p : DynTypedNode)
    (h : p.wellFormed tokLen) (Str : String) (a i : Bool) :
    ((RewriteCall.InsertText p.getBeginLoc Str a i).span tokLen).within (p.span tokLen) := by
  cases p with
  | decl d =>
    obtain ⟨_, _, h3, _, _, _⟩ := h
    exact ⟨rfl, Nat.le_refl _, Nat.le_refl _, Nat.le_trans h3 (Nat.le_add_right _ _)⟩
  | stmt s =>
    obtain ⟨_, h2, _, _⟩ := h
    exact ⟨rfl, Nat.le_refl _, Nat.le_refl _, Nat.le_trans h2 (Nat.le_add_right _ _)⟩

/-- The end location of a well-formed node is an anchor inside the node. -/
theorem endAnchor_within (tokLen : SourceLocation → Nat) (p : DynTypedNode)
    (h : p.wellFormed tokLen) (Str : String) (a i : Bool) :
    ((RewriteCall.InsertText p.getEndLoc Str a i).span tokLen).within (p.span tokLen) := by
  cases p with
  | decl d =>
    obtain ⟨h1, _, h3, _, _, _⟩ := h
    exact ⟨h1.symm, h3, Nat.le_refl _, Nat.le_add_right _ _⟩
  | stmt s =>
    obtain ⟨h1, h2, _, _⟩ := h
    exact ⟨h1.symm, h2, Nat.le_refl _, Nat.le_add_right _ _⟩

/-- The name token of a well-formed declaration lies inside the declaration. -/
theorem locationToken_within (tokLen : SourceLocation → Nat) (d : NamedDecl)
    (h : DynTypedNode.wellFormed tokLen (.decl d)) :
    ((SourceRange.ofLoc d.location).span tokLen).within (DynTypedNode.span tokLen (.decl d)) := by
  obtain ⟨_, h2, _, _, h5, h6⟩ := h
  exact ⟨h2, h5, Nat.le_add_right _ _, h6⟩

/-- The begin location of a child of a well-formed statement is an anchor
inside the statement. -/
theorem childAnchor_within (tokLen : SourceLocation → Nat) (s c : Stmt)
    (h : DynTypedNode.wellFormed tokLen (.stmt s)) (hc : c ∈ s.children)
    (Str : String) (a i : Bool) :
    ((RewriteCall.InsertText c.getBeginLoc Str a i).span tokLen).within
      (DynTypedNode.span tokLen (.stmt s)) := by
  obtain ⟨_, _, _, h4⟩ := h
  obtain ⟨c1, c2, c3, c4⟩ := h4 c hc
  exact ⟨c1, c2, Nat.le_refl _, Nat.le_trans c3 c4⟩

theorem replaceAtBeginLoc_within (tokLen : SourceLocation → Nat) (T : NodeClass)
    (ID NewStr : String) (Nodes : BoundNodes) (calls : List RewriteCall)
    (hWF : ∀ p ∈ Nodes, p.2.wellFormed tokLen)
    (hRun : replaceAtBeginLoc T ID NewStr Nodes = some calls) :
    EditsWithin tokLen Nodes calls := by
  unfold replaceAtBeginLoc at hRun
  cases hg : getNodeAs Nodes T ID with
  | none => simp [hg] at hRun
  | some p =>
    simp only [hg, Option.some.injEq] at hRun
    subst hRun
    have hp := getNodeAs_mem Nodes T ID p hg
    intro c hc
    simp only [List.mem_singleton] at hc
    subst hc
    exact ⟨(ID, p), hp, beginToken_within tokLen p (hWF _ hp)⟩

theorem replaceAndComment_within (tokLen : SourceLocation → Nat) (T : NodeClass)
    (ID NewStr Comment : String) (Nodes : BoundNodes) (calls : List RewriteCall)
    (hWF : ∀ p ∈ Nodes, p.2.wellFormed tokLen)
    (hRun : replaceAndComment T ID NewStr Comment Nodes = some calls) :
    EditsWithin tokLen Nodes calls := by
  unfold replaceAndComment at hRun
  cases hg : getNodeAs Nodes T ID with
  | none => simp [hg] at hRun
  | some p =>
    simp only [hg, Option.some.injEq] at hRun
    subst hRun
    have hp := getNodeAs_mem Nodes T ID p hg
    intro c hc
    simp only [List.mem_cons, List.mem_singleton, List.mem_nil_iff, or_false] at hc
    rcases hc with rfl | rfl
    · exact ⟨(ID, p), hp, beginToken_within tokLen p (hWF _ hp)⟩
    · exact ⟨(ID, p), hp, beginAnchor_within tokLen p (hWF _ hp) _ _ _⟩

theorem insertAtBeginLoc_within (tokLen : SourceLocation → Nat) (T : NodeClass)
    (ID Str : String) (a i : Bool) (Nodes : BoundNodes) (calls : List RewriteCall)
    (hWF : ∀ p ∈ Nodes, p.2.wellFormed tokLen)
    (hRun : insertAtBeginLoc T ID Str a i Nodes = some calls) :
    EditsWithin tokLen Nodes calls := by
  unfold insertAtBeginLoc at hRun
  cases hg : getNodeAs Nodes T ID with
  | none => simp [hg] at hRun
  | some p =>
    simp only [hg, Option.some.injEq] at hRun
    subst hRun
    have hp := getNodeAs_mem Nodes T ID p hg
    intro c hc
    simp only [List.mem_singleton] at hc
    subst hc
    exact ⟨(ID, p), hp, beginAnchor_within tokLen p (hWF _ hp) _ _ _⟩

theorem IfStmtHandler_within (tokLen : SourceLocation → Nat) (Nodes : BoundNodes)
    (calls : List RewriteCall) (hWF : ∀ p ∈ Nodes, p.2.wellFormed tokLen)
    (hRun : IfStmtHandler.run Nodes = some calls) : EditsWithin tokLen Nodes calls := by
  unfold IfStmtHandler.run at hRun
  split at hRun
  · next ifLoc cond Then hg =>
    simp only [Option.some.injEq] at hRun
    subst hRun
    have hp := getNodeAs_mem _ _ _ _ hg
    intro c hc
    simp only [List.mem_singleton] at hc
    subst hc
    exact ⟨_, hp, childAnchor_within tokLen _ Then (hWF _ hp) (by simp [Stmt.children]) _ _ _⟩
  · next ifLoc cond Then Else hg =>
    simp only [Option.some.injEq] at hRun
    subst hRun
    have hp := getNodeAs_mem _ _ _ _ hg
    intro c hc
    simp only [List.mem_cons, List.mem_singleton, List.mem_nil_iff, or_false] at hc
    rcases hc with rfl | rfl
    · exact ⟨_, hp, childAnchor_within tokLen _ Then (hWF _ hp) (by simp [Stmt.children]) _ _ _⟩
    · exact ⟨_, hp, childAnchor_within tokLen _ Else (hWF _ hp) (by simp [Stmt.children]) _ _ _⟩
  · simp only [Option.some.injEq] at hRun
    subst hRun
    intro c hc
    simp at hc

theorem IncrementForLoopHandler_within (tokLen : SourceLocation → Nat) (Nodes : BoundNodes)
    (calls : List RewriteCall) (hWF : ∀ p ∈ Nodes, p.2.wellFormed tokLen)
    (hRun : IncrementForLoopHandler.run Nodes = some calls) : EditsWithin tokLen Nodes calls := by
  unfold IncrementForLoopHandler.run at hRun
  split at hRun
  · next IncVar hg =>
    simp only [Option.some.injEq] at hRun
    subst hRun
    have hp := getNodeAs_mem _ _ _ _ hg
    intro c hc
    simp only [List.mem_singleton] at hc
    subst hc
    exact ⟨_, hp, beginAnchor_within tokLen IncVar (hWF _ hp) _ _ _⟩
  · simp at hRun

theorem loopExprHandler_within (tokLen : SourceLocation → Nat) (Nodes : BoundNodes)
    (calls : List RewriteCall) (hWF : ∀ p ∈ Nodes, p.2.wellFormed tokLen)
    (hRun : loopExprHandler.run Nodes = some calls) : EditsWithin tokLen Nodes calls := by
  unfold loopExprHandler.run at hRun
  split at hRun
  · next loop hg =>
    simp only [Option.some.injEq] at hRun
    subst hRun
    have hp := getNodeAs_mem _ _ _ _ hg
    intro c hc
    simp only [List.mem_cons, List.mem_singleton, List.mem_nil_iff, or_false] at hc
    rcases hc with rfl | rfl | rfl
    · exact ⟨_, hp, locationToken_within tokLen loop (hWF _ hp)⟩
    · exact ⟨_, hp, beginToken_within tokLen (.decl loop) (hWF _ hp)⟩
    · exact ⟨_, hp, locationToken_within tokLen loop (hWF _ hp)⟩
  · simp at hRun

theorem setupHandler_within (tokLen : SourceLocation → Nat) (Nodes : BoundNodes)
    (calls : List RewriteCall) (hWF : ∀ p ∈ Nodes, p.2.wellFormed tokLen)
    (hRun : setupHandler.run Nodes = some calls) : EditsWithin tokLen Nodes calls := by
  unfold setupHandler.run at hRun
  split at hRun
  · next setupfinder hg =>
    simp only [Option.some.injEq] at hRun
    subst hRun
    have hp := getNodeAs_mem _ _ _ _ hg
    intro c hc
    simp only [List.mem_cons, List.mem_singleton, List.mem_nil_iff, or_false] at hc
    rcases hc with rfl | rfl | rfl
    · exact ⟨_, hp, locationToken_within tokLen setupfinder (hWF _ hp)⟩
    · exact ⟨_, hp, beginToken_within tokLen (.decl setupfinder) (hWF _ hp)⟩
    · exact ⟨_, hp, beginToken_within tokLen (.decl setupfinder) (hWF _ hp)⟩
  · simp at hRun

theorem compoundStmtHandler_within (tokLen : SourceLocation → Nat) (Nodes : BoundNodes)
    (calls : List RewriteCall) (hWF : ∀ p ∈ Nodes, p.2.wellFormed tokLen)
    (hRun : compoundStmtHandler.run Nodes = some calls) : EditsWithin tokLen Nodes calls := by
  unfold compoundStmtHandler.run at hRun
  split at hRun
  · next p hg =>
    simp only [Option.some.injEq] at hRun
    subst hRun
    have hp := getNodeAs_mem _ _ _ _ hg
    intro c hc
    simp only [List.mem_cons, List.mem_singleton, List.mem_nil_iff, or_false] at hc
    rcases hc with rfl | rfl
    · exact ⟨_, hp, beginAnchor_within tokLen p (hWF _ hp) _ _ _⟩
    · exact ⟨_, hp, endAnchor_within tokLen p (hWF _ hp) _ _ _⟩
  · simp at hRun

/-- C9: for every registered rule and every match of it whose bound nodes have
well-formed locations (one file, first token inside the node, name inside the
declaration, children inside their parent), each call the handler submits lies
inside the characters of a bound node of the match: an insertion is anchored
inside it, a replacement or removal has its whole span inside it. -/
theorem edits_within_bound_nodes (tokLen : SourceLocation → Nat) (r : Rule)
    (ancestors : List Stmt) (n : Node) (Nodes : BoundNodes) (calls : List RewriteCall)
    (_hMatch : r.matcher ancestors n = some Nodes)
    (hWF : ∀ p ∈ Nodes, p.2.wellFormed tokLen)
    (hRun : r.run Nodes = some calls) :
    ∀ c ∈ calls, ∃ p ∈ Nodes, (c.span tokLen).within (p.2.span tokLen) := by
  show EditsWithin tokLen Nodes calls
  cases r <;>
    first
    | exact replaceAtBeginLoc_within tokLen _ _ _ Nodes calls hWF hRun
    | exact replaceAndComment_within tokLen _ _ _ _ Nodes calls hWF hRun
    | exact insertAtBeginLoc_within tokLen _ _ _ _ _ Nodes calls hWF hRun
    | exact IfStmtHandler_within tokLen Nodes calls hWF hRun
    | exact IncrementForLoopHandler_within tokLen Nodes calls hWF hRun
    | exact loopExprHandler_within tokLen Nodes calls hWF hRun
    | exact setupHandler_within tokLen Nodes calls hWF hRun
    | exact compoundStmtHandler_within tokLen Nodes calls hWF hRun

/-- C9, at the call `pinMode(13, OUTPUT)`: the call (offsets 17 to 36) and its
children are well formed for the token lengths of the buffer, the pin-mode
rule matches it, and both calls of the handler lie inside it. -/
theorem edits_within_bound_nodes_witness :
    (∀ p ∈ [("pinMode", DynTypedNode.stmt Examples.pinModeCall)],
        p.2.wellFormed (MeasureTokenLength Examples.pinModeSource))
    ∧ Rule.matcher .HandlerForpinMode [] (.stmt Examples.pinModeCall)
        = some [("pinMode", DynTypedNode.stmt Examples.pinModeCall)]
    ∧ (∀ c ∈ [RewriteCall.ReplaceText ⟨Examples.L 17, Examples.L 17⟩ "Pin.mode",
              RewriteCall.InsertText (Examples.L 17)
                "#from machine import pin at start of code\n" true true],
        ∃ p ∈ [("pinMode", DynTypedNode.stmt Examples.pinModeCall)],
          (c.span (MeasureTokenLength Examples.pinModeSource)).within
            (p.2.span (MeasureTokenLength Examples.pinModeSource))) :=
  have hWF : ∀ p ∈ [("pinMode", DynTypedNode.stmt Examples.pinModeCall)],
      p.2.wellFormed (MeasureTokenLength Examples.pinModeSource) := by
    intro p hp
    simp only [List.mem_singleton] at hp
    subst hp
    refine ⟨by decide, by decide, by decide, ?_⟩
    intro c hc
    simp only [Examples.pinModeCall, Stmt.children, List.mem_cons, List.mem_singleton,
      List.mem_nil_iff, or_false] at hc
    rcases hc with rfl | rfl | rfl <;> decide
  ⟨hWF, rfl,
    edits_within_bound_nodes (MeasureTokenLength Examples.pinModeSource) .HandlerForpinMode []
      (.stmt Examples.pinModeCall) [("pinMode", .stmt Examples.pinModeCall)] _ (by rfl) hWF
      (by rfl)⟩

/-! ## C10: replacements and removals over the same span -/

/-- C10, counterexample: in the run over `void loop() {}` the calls number 0 and
2 are a removal and a replacement, both submitted by the loop handler for the
one match, and both over the name token (offsets 5 to 9): their spans
overlap, are equal, and neither strictly contains the other. -/
theorem loop_rule_submits_two_edits_over_one_span :
    ∃ calls, HandleTranslationUnit [Examples.loopDecl] = some calls
      ∧ ∃ (i j : Nat) (a b : RewriteCall), i ≠ j ∧ calls[i]? = some a ∧ calls[j]? = some b
        ∧ a.isReplaceOrRemove = true ∧ b.isReplaceOrRemove = true
        ∧ (a.span (MeasureTokenLength Examples.loopSource)).overlaps
            (b.span (MeasureTokenLength Examples.loopSource))
        ∧ a.span (MeasureTokenLength Examples.loopSource)
            = b.span (MeasureTokenLength Examples.loopSource)
        ∧ ¬ (a.span (MeasureTokenLength Examples.loopSource)).strictlyContains
            (b.span (MeasureTokenLength Examples.loopSource))
        ∧ ¬ (b.span (MeasureTokenLength Examples.loopSource)).strictlyContains
            (a.span (MeasureTokenLength Examples.loopSource)) := by
  refine ⟨[.RemoveText ⟨Examples.L 5, Examples.L 5⟩,
           .ReplaceText ⟨Examples.L 0, Examples.L 0⟩ "While True:",
           .ReplaceText ⟨Examples.L 5, Examples.L 5⟩ " ",
           .InsertText (Examples.L 12) "#" true true,
           .InsertText (Examples.L 14) "#" true true], by decide, 0, 2,
          .RemoveText ⟨Examples.L 5, Examples.L 5⟩,
          .ReplaceText ⟨Examples.L 5, Examples.L 5⟩ " ", by decide, by decide, by decide,
          by decide, by decide, by decide, by decide, by decide, by decide⟩

theorem replaceAtBeginLoc_count (T : NodeClass) (ID NewStr : String) (Nodes : BoundNodes)
    (calls : List RewriteCall) (hRun : replaceAtBeginLoc T ID NewStr Nodes = some calls) :
    (calls.filter RewriteCall.isReplaceOrRemove).length ≤ 1 := by
  unfold replaceAtBeginLoc at hRun
  cases hg : getNodeAs Nodes T ID with
  | none => simp [hg] at hRun
  | some p =>
    simp only [hg, Option.some.injEq] at hRun
    subst hRun
    simp [RewriteCall.isReplaceOrRemove]

theorem replaceAndComment_count (T : NodeClass) (ID NewStr Comment : String) (Nodes : BoundNodes)
    (calls : List RewriteCall) (hRun : replaceAndComment T ID NewStr Comment Nodes = some calls) :
    (calls.filter RewriteCall.isReplaceOrRemove).length ≤ 1 := by
  unfold replaceAndComment at hRun
  cases hg : getNodeAs Nodes T ID with
  | none => simp [hg] at hRun
  | some p =>
    simp only [hg, Option.some.injEq] at hRun
    subst hRun
    simp [RewriteCall.isReplaceOrRemove]

theorem insertAtBeginLoc_count (T : NodeClass) (ID Str : String) (a i : Bool)
    (Nodes : BoundNodes) (calls : List RewriteCall)
    (hRun : insertAtBeginLoc T ID Str a i Nodes = some calls) :
    (calls.filter RewriteCall.isReplaceOrRemove).length ≤ 1 := by
  unfold insertAtBeginLoc at hRun
  cases hg : getNodeAs Nodes T ID with
  | none => simp [hg] at hRun
  | some p =>
    simp only [hg, Option.some.injEq] at hRun
    subst hRun
    simp [RewriteCall.isReplaceOrRemove]

theorem IfStmtHandler_count (Nodes : BoundNodes) (calls : List RewriteCall)
    (hRun : IfStmtHandler.run Nodes = some calls) :
    (calls.filter RewriteCall.isReplaceOrRemove).length ≤ 1 := by
  unfold IfStmtHandler.run at hRun
  split at hRun <;> simp only [Option.some.injEq] at hRun <;> subst hRun <;>
    simp [RewriteCall.isReplaceOrRemove]

theorem compoundStmtHandler_count (Nodes : BoundNodes) (calls : List RewriteCall)
    (hRun : compoundStmtHandler.run Nodes = some calls) :
    (calls.filter RewriteCall.isReplaceOrRemove).length ≤ 1 := by
  unfold compoundStmtHandler.run at hRun
  split at hRun
  · simp only [Option.some.injEq] at hRun
    subst hRun
    simp [RewriteCall.isReplaceOrRemove]
  · simp at hRun

theorem loopExprHandler_calls (Nodes : BoundNodes) (calls : List RewriteCall)
    (hRun : loopExprHandler.run Nodes = some calls) :
    ∃ d : NamedDecl, calls = [.RemoveText (.ofLoc d.location),
      .ReplaceText (.ofLoc d.beginLoc) "While True:", .ReplaceText (.ofLoc d.location) " "] := by
  unfold loopExprHandler.run at hRun
  split at hRun
  · next loop _ =>
    simp only [Option.some.injEq] at hRun
    exact ⟨loop, hRun.symm⟩
  · simp at hRun

theorem setupHandler_calls (Nodes : BoundNodes) (calls : List RewriteCall)
    (hRun : setupHandler.run Nodes = some calls) :
    ∃ d : NamedDecl, calls = [.RemoveText (.ofLoc d.location),
      .RemoveText (.ofLoc d.beginLoc), .ReplaceText (.ofLoc d.beginLoc) " "] := by
  unfold setupHandler.run at hRun
  split at hRun
  · next setupfinder _ =>
    simp only [Option.some.injEq] at hRun
    exact ⟨setupfinder, hRun.symm⟩
  · simp at hRun

/-- C10, amended: for one match, every handler other than those of the loop
and setup rules submits at most one replacement or removal, hence never two
over the same span.  The loop handler submits a removal and a replacement
over the same token, the name of the function, next to the replacement of
the first token; the setup handler submits a removal and a replacement over
the same token, the first token of the declaration, next to the removal of
the name. -/
theorem replace_edits_per_match (r : Rule) (Nodes : BoundNodes) (calls : List RewriteCall)
    (hRun : r.run Nodes = some calls) :
    (r ≠ .HandlerForLoopExpr → r ≠ .HandlerForSetup →
        (calls.filter RewriteCall.isReplaceOrRemove).length ≤ 1)
    ∧ (r = .HandlerForLoopExpr →
        ∃ d : NamedDecl, calls = [.RemoveText (.ofLoc d.location),
          .ReplaceText (.ofLoc d.beginLoc) "While True:",
          .ReplaceText (.ofLoc d.location) " "])
    ∧ (r = .HandlerForSetup →
        ∃ d : NamedDecl, calls = [.RemoveText (.ofLoc d.location),
          .RemoveText (.ofLoc d.beginLoc), .ReplaceText (.ofLoc d.beginLoc) " "]) := by
  cases r <;> refine ⟨?_, ?_, ?_⟩ <;>
    first
    | (intro h; cases h; done)
    | (intro h _; exact absurd rfl h)
    | (intro _ h; exact absurd rfl h)
    | (intro _ _; exact replaceAtBeginLoc_count _ _ _ Nodes calls hRun)
    | (intro _ _; exact replaceAndComment_count _ _ _ _ Nodes calls hRun)
    | (intro _ _; exact insertAtBeginLoc_count _ _ _ _ _ Nodes calls hRun)
    | (intro _ _; exact IfStmtHandler_count Nodes calls hRun)
    | (intro _ _; exact compoundStmtHandler_count Nodes calls hRun)
    | (intro _; exact loopExprHandler_calls Nodes calls hRun)
    | (intro _; exact setupHandler_calls Nodes calls hRun)

/-- C10, amended, at the match of the delay rule on `ns::delay(5)`: its one
call is the only replacement. -/
theorem replace_edits_per_match_witness :
    (Rule.HandlerForDelay ≠ .HandlerForLoopExpr → Rule.HandlerForDelay ≠ .HandlerForSetup →
        ([RewriteCall.ReplaceText ⟨Examples.L 16, Examples.L 16⟩ "utime.sleep_ms"].filter
          RewriteCall.isReplaceOrRemove).length ≤ 1)
    ∧ (Rule.HandlerForDelay = .HandlerForLoopExpr →
        ∃ d : NamedDecl,
          [RewriteCall.ReplaceText ⟨Examples.L 16, Examples.L 16⟩ "utime.sleep_ms"]
            = [.RemoveText (.ofLoc d.location),
              .ReplaceText (.ofLoc d.beginLoc) "While True:",
              .ReplaceText (.ofLoc d.location) " "])
    ∧ (Rule.HandlerForDelay = .HandlerForSetup →
        ∃ d : NamedDecl,
          [RewriteCall.ReplaceText ⟨Examples.L 16, Examples.L 16⟩ "utime.sleep_ms"]
            = [.RemoveText (.ofLoc d.location),
              .RemoveText (.ofLoc d.beginLoc), .ReplaceText (.ofLoc d.beginLoc) " "]) :=
  replace_edits_per_match .HandlerForDelay [("delay", .stmt Examples.qualifiedDelayCall)] _
    (by rfl)

/-! ## C11: the rules that only insert -/

theorem insertAtBeginLoc_inserts (T : NodeClass) (ID Str : String) (a i : Bool)
    (Nodes : BoundNodes) (calls : List RewriteCall)
    (hRun : insertAtBeginLoc T ID Str a i Nodes = some calls) :
    ∀ c ∈ calls, c.isReplaceOrRemove = false := by
  unfold insertAtBeginLoc at hRun
  cases hg : getNodeAs Nodes T ID with
  | none => simp [hg] at hRun
  | some p =>
    simp only [hg, Option.some.injEq] at hRun
    subst hRun
    simp [RewriteCall.isReplaceOrRemove]

theorem IfStmtHandler_inserts (Nodes : BoundNodes) (calls : List RewriteCall)
    (hRun : IfStmtHandler.run Nodes = some calls) :
    ∀ c ∈ calls, c.isReplaceOrRemove = false := by
  unfold IfStmtHandler.run at hRun
  split at hRun <;> simp only [Option.some.injEq] at hRun <;> subst hRun <;>
    simp [RewriteCall.isReplaceOrRemove]

theorem compoundStmtHandler_inserts (Nodes : BoundNodes) (calls : List RewriteCall)
    (hRun : compoundStmtHandler.run Nodes = some calls) :
    ∀ c ∈ calls, c.isReplaceOrRemove = false := by
  unfold compoundStmtHandler.run at hRun
  split at hRun
  · simp only [Option.some.injEq] at hRun
    subst hRun
    simp [RewriteCall.isReplaceOrRemove]
  · simp at hRun

/-- The handlers of the insert-only rules call nothing but `InsertText`. -/
theorem insertOnlyRules_insert (r : Rule) (hr : r ∈ insertOnlyRules) (Nodes : BoundNodes)
    (calls : List RewriteCall) (hRun : r.run Nodes = some calls) :
    ∀ c ∈ calls, c.isReplaceOrRemove = false := by
  simp only [insertOnlyRules, List.mem_cons, List.mem_singleton, List.mem_nil_iff,
    or_false] at hr
  rcases hr with rfl | rfl | rfl | rfl | rfl | rfl | rfl | rfl | rfl | rfl | rfl | rfl | rfl
    | rfl | rfl | rfl | rfl | rfl <;>
    first
    | exact insertAtBeginLoc_inserts _ _ _ _ _ Nodes calls hRun
    | exact IfStmtHandler_inserts Nodes calls hRun
    | exact compoundStmtHandler_inserts Nodes calls hRun

/-- The calls of a run in which only insert-only rules match are insertions. -/
theorem runHandlers_inserts : ∀ (ms : List MatchResult) (calls : List RewriteCall),
    (∀ m ∈ ms, m.rule ∈ insertOnlyRules) → runHandlers ms = some calls →
    ∀ c ∈ calls, c.isReplaceOrRemove = false
  | [], calls, _, hRun => by
      simp only [runHandlers, Option.some.injEq] at hRun
      subst hRun
      simp
  | m :: ms, calls, hOnly, hRun => by
      simp only [runHandlers] at hRun
      cases h1 : m.rule.run m.Nodes with
      | none => simp [h1] at hRun
      | some cs =>
        cases h2 : runHandlers ms with
        | none => simp [h1, h2] at hRun
        | some rest =>
          simp only [h1, h2, Option.some.injEq] at hRun
          subst hRun
          intro c hc
          rcases List.mem_append.mp hc with hc | hc
          · exact insertOnlyRules_insert m.rule (hOnly m (List.mem_cons_self _ _)) m.Nodes cs h1
              c hc
          · exact runHandlers_inserts ms rest
              (fun m' hm' => hOnly m' (List.mem_cons_of_mem _ hm')) h2 c hc

/-- An insertion that succeeds leaves every character of the buffer in place
and adds the inserted text. -/
theorem applyCall_insert (src : String) (RB RB2 : RewriteBuffer) (c : RewriteCall)
    (hc : c.isReplaceOrRemove = false) (h : applyCall src RB c = some RB2) :
    List.Sublist RB.Buffer RB2.Buffer
    ∧ RB2.Buffer.length = RB.Buffer.length + insertedLength src c := by
  cases c with
  | ReplaceText range NewStr => simp [RewriteCall.isReplaceOrRemove] at hc
  | RemoveText range => simp [RewriteCall.isReplaceOrRemove] at hc
  | InsertText Loc Str InsertAfter indentNewLines =>
    simp only [applyCall, insertedLength] at h ⊢
    by_cases hf : Loc.file = mainFileID
    · simp only [hf, if_true, RewriteBuffer.InsertText] at h ⊢
      by_cases he : (insertedStr src Loc Str indentNewLines).isEmpty = true
      · simp only [he, if_true, Option.some.injEq] at h
        subst h
        have : (insertedStr src Loc Str indentNewLines).length = 0 := by
          simpa [List.isEmpty_iff] using he
        exact ⟨List.Sublist.refl _, by omega⟩
      · simp only [he, Bool.false_eq_true, if_false] at h
        split at h
        · simp only [Option.some.injEq] at h
          subst h
          constructor
          · have h := List.take_append_drop
              (RB.getMappedOffset Loc.offset InsertAfter).toNat RB.Buffer
            conv_lhs => rw [← h]
            rw [List.append_assoc]
            exact List.Sublist.append (List.Sublist.refl _) (List.sublist_append_right _ _)
          · have h := congrArg List.length
              (List.take_append_drop (RB.getMappedOffset Loc.offset InsertAfter).toNat RB.Buffer)
            simp only [List.length_append] at h ⊢
            omega
        · simp at h
    · simp only [hf, if_false, Option.some.injEq] at h
      subst h
      exact ⟨List.Sublist.refl _, by simp [hf]⟩

/-- A sequence of insertions that succeeds leaves every character of the
buffer in place. -/
theorem applyCallsFrom_inserts (src : String) :
    ∀ (calls : List RewriteCall) (RB RB2 : RewriteBuffer),
    (∀ c ∈ calls, c.isReplaceOrRemove = false) → applyCallsFrom src RB calls = some RB2 →
    List.Sublist RB.Buffer RB2.Buffer
    ∧ RB2.Buffer.length = RB.Buffer.length + (calls.map (insertedLength src)).sum
  | [], RB, RB2, _, h => by
      simp only [applyCallsFrom, Option.some.injEq] at h
      subst h
      simp
  | c :: cs, RB, RB2, hall, h => by
      simp only [applyCallsFrom] at h
      cases h1 : applyCall src RB c with
      | none => simp [h1] at h
      | some RB1 =>
        simp only [h1, Option.some_bind] at h
        have e1 := applyCall_insert src RB RB1 c (hall c (List.mem_cons_self _ _)) h1
        have e2 := applyCallsFrom_inserts src cs RB1 RB2
          (fun c' hc' => hall c' (List.mem_cons_of_mem _ hc')) h
        simp only [List.map_cons, List.sum_cons]
        exact ⟨e1.1.trans e2.1, by omega⟩

theorem sum_filter_nonneg (p : Nat × Int → Bool) : ∀ ds : List (Nat × Int),
    (∀ d ∈ ds, 0 ≤ d.2) →
    0 ≤ ((ds.filter p).map Prod.snd).sum ∧ ((ds.filter p).map Prod.snd).sum ≤ (ds.map Prod.snd).sum
  | [], _ => by simp
  | d :: ds, h => by
      have ih := sum_filter_nonneg p ds (fun d' hd' => h d' (List.mem_cons_of_mem _ hd'))
      have hd := h d (List.mem_cons_self _ _)
      by_cases hp : p d = true
      · simp only [List.filter_cons, hp, if_true, List.map_cons, List.sum_cons]
        omega
      · simp only [List.filter_cons, hp, Bool.false_eq_true, if_false, List.map_cons,
          List.sum_cons]
        omega

/-- An insertion at an offset of the source succeeds on a buffer that has
seen nothing but insertions. -/
theorem applyCall_insert_total (src : String) (RB : RewriteBuffer) (c : RewriteCall)
    (hc : c.isReplaceOrRemove = false)
    (hLoc : (c.span (MeasureTokenLength src)).stop ≤ src.toList.length)
    (hPos : ∀ d ∈ RB.Deltas, 0 ≤ d.2)
    (hLen : (RB.Buffer.length : Int) = src.toList.length + (RB.Deltas.map Prod.snd).sum) :
    ∃ RB2, applyCall src RB c = some RB2 ∧ (∀ d ∈ RB2.Deltas, 0 ≤ d.2)
      ∧ (RB2.Buffer.length : Int) = src.toList.length + (RB2.Deltas.map Prod.snd).sum := by
  cases c with
  | ReplaceText range NewStr => simp [RewriteCall.isReplaceOrRemove] at hc
  | RemoveText range => simp [RewriteCall.isReplaceOrRemove] at hc
  | InsertText Loc Str InsertAfter indentNewLines =>
    simp only [RewriteCall.span] at hLoc
    simp only [applyCall]
    by_cases hf : Loc.file = mainFileID
    · simp only [hf, if_true, RewriteBuffer.InsertText]
      by_cases he : (insertedStr src Loc Str indentNewLines).isEmpty = true
      · simp only [he, if_true]
        exact ⟨RB, rfl, hPos, hLen⟩
      · simp only [he, Bool.false_eq_true, if_false]
        have hs := sum_filter_nonneg
          (fun d => decide (d.1 < 2 * Loc.offset + (if InsertAfter then 1 else 0))) RB.Deltas hPos
        have hb : RB.inBounds (RB.getMappedOffset Loc.offset InsertAfter) 0 = true := by
          simp only [RewriteBuffer.inBounds, RewriteBuffer.getMappedOffset,
            RewriteBuffer.getDeltaAt, decide_eq_true_eq]
          constructor
          · omega
          · push_cast
            omega
        simp only [hb, if_true]
        refine ⟨_, rfl, ?_, ?_⟩
        · intro d hd
          simp only [List.mem_cons] at hd
          rcases hd with rfl | hd
          · simp
          · exact hPos d hd
        · have hR : (RB.getMappedOffset Loc.offset InsertAfter).toNat ≤ RB.Buffer.length := by
            simp only [RewriteBuffer.inBounds, decide_eq_true_eq] at hb
            omega
          simp only [List.length_append, List.length_take, List.length_drop, List.map_cons,
            List.sum_cons]
          push_cast
          omega
    · simp only [hf, if_false]
      exact ⟨RB, rfl, hPos, hLen⟩

/-- A sequence of insertions at offsets of the source succeeds. -/
theorem applyCallsFrom_inserts_total (src : String) :
    ∀ (calls : List RewriteCall) (RB : RewriteBuffer),
    (∀ c ∈ calls, c.isReplaceOrRemove = false) →
    (∀ c ∈ calls, (c.span (MeasureTokenLength src)).stop ≤ src.toList.length) →
    (∀ d ∈ RB.Deltas, 0 ≤ d.2) →
    (RB.Buffer.length : Int) = src.toList.length + (RB.Deltas.map Prod.snd).sum →
    ∃ RB2, applyCallsFrom src RB calls = some RB2
  | [], RB, _, _, _, _ => ⟨RB, rfl⟩
  | c :: cs, RB, hall, hLoc, hPos, hLen => by
      obtain ⟨RB1, h1, hPos1, hLen1⟩ := applyCall_insert_total src RB c
        (hall c (List.mem_cons_self _ _)) (hLoc c (List.mem_cons_self _ _)) hPos hLen
      obtain ⟨RB2, h2⟩ := applyCallsFrom_inserts_total src cs RB1
        (fun c' hc' => hall c' (List.mem_cons_of_mem _ hc'))
        (fun c' hc' => hLoc c' (List.mem_cons_of_mem _ hc')) hPos1 hLen1
      exact ⟨RB2, by simp [applyCallsFrom, h1, h2]⟩

/-- C11: the handlers of the rules for if statements, counted loops, blocks,
pow, sqrt, sin, cos, tan, the pin number and the nine arguments of the
character tests submit only insertions; hence for every input in which only
these rules match, every call of the run is an insertion, every character of
the original source is present in the output in its original relative order,
and the output is longer than the source by exactly the lengths of the
inserted strings: deleting them gives the source back.  The output is
produced whenever the insertion points are offsets of the source. -/
theorem insert_only_rules_keep_source (src : String) (tu : List Decl)
    (calls : List RewriteCall)
    (hOnly : ∀ m ∈ matchAST tu, m.rule ∈ insertOnlyRules)
    (hRun : HandleTranslationUnit tu = some calls) :
    (∀ r ∈ insertOnlyRules, ∀ Nodes cs, r.run Nodes = some cs →
        ∀ c ∈ cs, c.isReplaceOrRemove = false)
    ∧ (∀ c ∈ calls, c.isReplaceOrRemove = false)
    ∧ (∀ out, rewrittenText src calls = some out →
        List.Sublist src.toList out.toList
        ∧ out.toList.length = src.toList.length + (calls.map (insertedLength src)).sum)
    ∧ ((∀ c ∈ calls, (c.span (MeasureTokenLength src)).stop ≤ src.toList.length) →
        ∃ out, rewrittenText src calls = some out) := by
  have hIns := runHandlers_inserts (matchAST tu) calls hOnly hRun
  refine ⟨fun r hr Nodes cs h => insertOnlyRules_insert r hr Nodes cs h, hIns, ?_, ?_⟩
  · intro out hout
    simp only [rewrittenText, applyCalls, Option.map_eq_some'] at hout
    obtain ⟨RB2, hRB2, rfl⟩ := hout
    exact applyCallsFrom_inserts src calls (RewriteBuffer.Initialize src) RB2 hIns hRB2
  · intro hLoc
    obtain ⟨RB2, hRB2⟩ := applyCallsFrom_inserts_total src calls (RewriteBuffer.Initialize src)
      hIns hLoc (by simp [RewriteBuffer.Initialize]) (by simp [RewriteBuffer.Initialize])
    exact ⟨String.mk RB2.Buffer, by simp [rewrittenText, applyCalls, hRB2]⟩

/-- C11, at the indented if statement with a brace block: only the if rule and
the block rule match, the insertion points are offsets of the source, the
output `void f(int x) #{` ... `#}` is produced and the source is a subsequence
of it. -/
theorem insert_only_rules_keep_source_witness :
    (∀ m ∈ matchAST Examples.indentedIfTU, m.rule ∈ insertOnlyRules)
    ∧ HandleTranslationUnit Examples.indentedIfTU
        = some [.InsertText (Examples.L 14) "#" true true,
                .InsertText (Examples.L 31) "#" true true,
                .InsertText (Examples.L 25) "#if part\n" true true,
                .InsertText (Examples.L 25) "#" true true,
                .InsertText (Examples.L 29) "#" true true]
    ∧ rewrittenText Examples.indentedIfSource
        [.InsertText (Examples.L 14) "#" true true,
         .InsertText (Examples.L 31) "#" true true,
         .InsertText (Examples.L 25) "#if part\n" true true,
         .InsertText (Examples.L 25) "#" true true,
         .InsertText (Examples.L 29) "#" true true]
        = some "void f(int x) #\x7b\n  if (x) #if part\n  #\x7b\n  #\x7d\n#\x7d"
    ∧ ((∀ r ∈ insertOnlyRules, ∀ Nodes cs, r.run Nodes = some cs →
          ∀ c ∈ cs, c.isReplaceOrRemove = false)
      ∧ (∀ c ∈ [RewriteCall.InsertText (Examples.L 14) "#" true true,
                .InsertText (Examples.L 31) "#" true true,
                .InsertText (Examples.L 25) "#if part\n" true true,
                .InsertText (Examples.L 25) "#" true true,
                .InsertText (Examples.L 29) "#" true true], c.isReplaceOrRemove = false)
      ∧ (∀ out, rewrittenText Examples.indentedIfSource
            [.InsertText (Examples.L 14) "#" true true,
             .InsertText (Examples.L 31) "#" true true,
             .InsertText (Examples.L 25) "#if part\n" true true,
             .InsertText (Examples.L 25) "#" true true,
             .InsertText (Examples.L 29) "#" true true] = some out →
          List.Sublist Examples.indentedIfSource.toList out.toList
          ∧ out.toList.length
            = Examples.indentedIfSource.toList.length
              + ([RewriteCall.InsertText (Examples.L 14) "#" true true,
                  .InsertText (Examples.L 31) "#" true true,
                  .InsertText (Examples.L 25) "#if part\n" true true,
                  .InsertText (Examples.L 25) "#" true true,
                  .InsertText (Examples.L 29) "#" true true].map
                    (insertedLength Examples.indentedIfSource)).sum)
      ∧ ((∀ c ∈ [RewriteCall.InsertText (Examples.L 14) "#" true true,
                .InsertText (Examples.L 31) "#" true true,
                .InsertText (Examples.L 25) "#if part\n" true true,
                .InsertText (Examples.L 25) "#" true true,
                .InsertText (Examples.L 29) "#" true true],
            (c.span (MeasureTokenLength Examples.indentedIfSource)).stop
              ≤ Examples.indentedIfSource.toList.length) →
          ∃ out, rewrittenText Examples.indentedIfSource
            [.InsertText (Examples.L 14) "#" true true,
             .InsertText (Examples.L 31) "#" true true,
             .InsertText (Examples.L 25) "#if part\n" true true,
             .InsertText (Examples.L 25) "#" true true,
             .InsertText (Examples.L 29) "#" true true] = some out)) :=
  ⟨by decide, by decide, by decide,
    insert_only_rules_keep_source Examples.indentedIfSource Examples.indentedIfTU _
      (by decide) (by decide)⟩

/-! ## C12: an input that no rule matches -/

/-- C12: for every input whose traversal reports no match of a registered
rule, the run submits no call on the rewriter and both sinks receive the
original source, character for character. -/
theorem unmatched_input_is_unchanged (src : String) (tu : List Decl)
    (h : matchAST tu = []) :
    HandleTranslationUnit tu = some []
    ∧ runTool src tu = some ⟨src, src⟩ := by
  have h1 : HandleTranslationUnit tu = some [] := by
    simp [HandleTranslationUnit, h, runHandlers]
  refine ⟨h1, ?_⟩
  simp [runTool, h1, EndSourceFileAction, rewrittenText, applyCalls, applyCallsFrom,
    RewriteBuffer.Initialize]

/-- C12, at the main file `int x = 5;` newline `void f();`: the traversal reports
no match and the output is the source. -/
theorem unmatched_input_is_unchanged_witness :
    matchAST Examples.plainTU = []
    ∧ HandleTranslationUnit Examples.plainTU = some []
    ∧ runTool Examples.plainSource Examples.plainTU
        = some ⟨Examples.plainSource, Examples.plainSource⟩ :=
  ⟨by rfl, unmatched_input_is_unchanged Examples.plainSource Examples.plainTU (by rfl)⟩

/-! ## C18: the handlers find the node they look up -/

theorem getNodeAs_singleton (T : NodeClass) (ID : String) (p : DynTypedNode)
    (h : p.isa T = true) : getNodeAs [(ID, p)] T ID = some p := by
  simp [getNodeAs, List.lookup, h]

theorem ifStmtMatcher_binds (n : Node) (Nodes : BoundNodes) (h : ifStmtMatcher n = some Nodes) :
    ∃ p, getNodeAs Nodes .IfStmt "ifStmt" = some p := by
  unfold ifStmtMatcher at h
  split at h
  · injection h with h
    subst h
    exact ⟨_, getNodeAs_singleton _ _ _ rfl⟩
  · simp at h

theorem forStmtMatcher_binds (n : Node) (Nodes : BoundNodes) (h : forStmtMatcher n = some Nodes) :
    ∃ p, getNodeAs Nodes .VarDecl "incVarName" = some p := by
  unfold forStmtMatcher at h
  split at h
  · next forLoc init cond inc body =>
    split at h
    · next initVar incVar condVar hInit hInc hCond =>
      injection h with h
      subst h
      have hk : incVar.kind = .Var := by
        unfold hasIncrement at hInc
        split at hInc
        · split at hInc
          · next hc =>
            simp only [Bool.and_eq_true, beq_iff_eq] at hc
            injection hInc with hInc
            subst hInc
            exact hc.1.2
          · simp at hInc
        · simp at hInc
      exact ⟨.decl incVar, by simp [getNodeAs, List.lookup, DynTypedNode.isa, hk]⟩
    · simp at h
  · simp at h

theorem callExprMatcher_binds (Name ID : String) (n : Node) (Nodes : BoundNodes)
    (h : callExprMatcher Name ID n = some Nodes) :
    ∃ p, getNodeAs Nodes .CallExpr ID = some p := by
  unfold callExprMatcher at h
  split at h
  · simp only at h
    split at h
    · injection h with h
      subst h
      exact ⟨_, getNodeAs_singleton _ _ _ rfl⟩
    · simp at h
  · simp at h

theorem loopexprMatcher_binds (n : Node) (Nodes : BoundNodes)
    (h : loopexprMatcher n = some Nodes) :
    ∃ d, getNodeAs Nodes .FunctionDecl "loopexpr" = some (.decl d) := by
  unfold loopexprMatcher at h
  split at h
  · split at h
    · next d hc =>
      simp only [Bool.and_eq_true, beq_iff_eq] at hc
      injection h with h
      subst h
      exact ⟨d.info, getNodeAs_singleton _ _ _ (by simp [DynTypedNode.isa, hc.1.1.1])⟩
    · simp at h
  · simp at h

theorem setupfuncMatcher_binds (n : Node) (Nodes : BoundNodes)
    (h : setupfuncMatcher n = some Nodes) :
    ∃ d, getNodeAs Nodes .FunctionDecl "setupfunc" = some (.decl d) := by
  unfold setupfuncMatcher at h
  split at h
  · split at h
    · next d hc =>
      simp only [Bool.and_eq_true, beq_iff_eq] at hc
      injection h with h
      subst h
      exact ⟨d.info, getNodeAs_singleton _ _ _ (by simp [DynTypedNode.isa, hc.1.1])⟩
    · simp at h
  · simp at h

theorem compoundStmtMatcher_binds (n : Node) (Nodes : BoundNodes)
    (h : compoundStmtMatcher n = some Nodes) :
    ∃ p, getNodeAs Nodes .Stmt "compoundstmt" = some p := by
  unfold compoundStmtMatcher at h
  split at h
  · split at h
    · injection h with h
      subst h
      exact ⟨_, getNodeAs_singleton _ _ _ rfl⟩
    · simp at h
  · simp at h

theorem usingDeclRefMatcher_binds (Name ID : String) (n : Node) (Nodes : BoundNodes)
    (h : usingDeclRefMatcher Name ID n = some Nodes) :
    ∃ p, getNodeAs Nodes .Stmt ID = some p := by
  unfold usingDeclRefMatcher at h
  split at h
  · split at h
    · injection h with h
      subst h
      exact ⟨_, getNodeAs_singleton _ _ _ rfl⟩
    · simp at h
  · simp at h

theorem pinModePinMatcher_binds (ancestors : List Stmt) (n : Node) (Nodes : BoundNodes)
    (h : pinModePinMatcher ancestors n = some Nodes) :
    ∃ p, getNodeAs Nodes .Stmt "pinModePin" = some p := by
  unfold pinModePinMatcher at h
  split at h
  · split at h
    · injection h with h
      subst h
      exact ⟨_, getNodeAs_singleton _ _ _ rfl⟩
    · simp at h
  · simp at h

theorem varRefMatcher_binds (Name ID : String) (T : NodeClass)
    (hT : T = .Stmt ∨ T = .DeclRefExpr) (n : Node) (Nodes : BoundNodes)
    (h : varRefMatcher Name ID n = some Nodes) :
    ∃ p, getNodeAs Nodes T ID = some p := by
  unfold varRefMatcher at h
  split at h
  · simp only at h
    split at h
    · injection h with h
      subst h
      rcases hT with rfl | rfl <;> exact ⟨_, getNodeAs_singleton _ _ _ rfl⟩
    · simp at h
  · simp at h

theorem argVarMatcher_binds (Name ID : String) (ancestors : List Stmt) (n : Node)
    (Nodes : BoundNodes) (h : argVarMatcher Name ID ancestors n = some Nodes) :
    ∃ p, getNodeAs Nodes .DeclRefExpr ID = some p := by
  unfold argVarMatcher at h
  split at h
  · simp only at h
    split at h
    · injection h with h
      subst h
      exact ⟨_, getNodeAs_singleton _ _ _ rfl⟩
    · simp at h
  · simp at h

/-- On the nodes bound by its matcher, the lookup of each handler succeeds and
the handler runs to its end. -/
theorem matcher_binds_lookup (r : Rule) (ancestors : List Stmt) (n : Node) (Nodes : BoundNodes)
    (h : r.matcher ancestors n = some Nodes) :
    (getNodeAs Nodes r.lookup.1 r.lookup.2).isSome = true ∧ (r.run Nodes).isSome = true := by
  cases r <;> simp only [Rule.matcher] at h <;>
    first
    | (obtain ⟨p, hp⟩ := callExprMatcher_binds _ _ n Nodes h
       simp [Rule.lookup, Rule.run, pinModeVariableHandler.run, delayHandler.run,
         delayMicrosecondsHandler.run, millisHandler.run, microsHandler.run, pulseInHandler.run,
         isAlphaHandler.run, isAlphaNumericHandler.run, isAsciiHandler.run, isDigitHandler.run,
         isLowerCaseHandler.run, isPunctHandler.run, isSpaceHandler.run, isUpperCaseHandler.run,
         isWhitespaceHandler.run, analogReadHandler.run, analogWriteHandler.run,
         digitalReadHandler.run, digitalWriteHandler.run, replaceAndComment, replaceAtBeginLoc,
         hp]
       done)
    | (obtain ⟨p, hp⟩ := argVarMatcher_binds _ _ ancestors n Nodes h
       simp [Rule.lookup, Rule.run, isAlphaVarHandler.run, isAlphaNumericVarHandler.run,
         isAsciiVarHandler.run, isDigitVarHandler.run, isLowerCaseVarHandler.run,
         isPunctVarHandler.run, isSpaceVarHandler.run, isUpperCaseVarHandler.run,
         isWhitespaceVarHandler.run, insertAtBeginLoc, hp]
       done)
    | (obtain ⟨p, hp⟩ := usingDeclRefMatcher_binds _ _ n Nodes h
       simp [Rule.lookup, Rule.run, powerHandler.run, sqrtHandler.run, sinHandler.run,
         cosHandler.run, tanHandler.run, insertAtBeginLoc, hp]
       done)
    | (obtain ⟨p, hp⟩ := varRefMatcher_binds _ _ .Stmt (Or.inl rfl) n Nodes h
       simp [Rule.lookup, Rule.run, inputHandler.run, outputHandler.run, inputpullupHandler.run,
         replaceAtBeginLoc, hp]
       done)
    | (obtain ⟨p, hp⟩ := varRefMatcher_binds _ _ .DeclRefExpr (Or.inr rfl) n Nodes h
       simp [Rule.lookup, Rule.run, piHandler.run, eulerHandler.run, replaceAtBeginLoc, hp]
       done)
    | (obtain ⟨p, hp⟩ := ifStmtMatcher_binds n Nodes h
       refine ⟨by simp [Rule.lookup, hp], ?_⟩
       simp only [Rule.run, IfStmtHandler.run]
       split <;> rfl)
    | (obtain ⟨p, hp⟩ := forStmtMatcher_binds n Nodes h
       simp [Rule.lookup, Rule.run, IncrementForLoopHandler.run, hp]
       done)
    | (obtain ⟨d, hp⟩ := loopexprMatcher_binds n Nodes h
       simp [Rule.lookup, Rule.run, loopExprHandler.run, hp]
       done)
    | (obtain ⟨d, hp⟩ := setupfuncMatcher_binds n Nodes h
       simp [Rule.lookup, Rule.run, setupHandler.run, hp]
       done)
    | (obtain ⟨p, hp⟩ := compoundStmtMatcher_binds n Nodes h
       simp [Rule.lookup, Rule.run, compoundStmtHandler.run, hp]
       done)
    | (obtain ⟨p, hp⟩ := pinModePinMatcher_binds ancestors n Nodes h
       simp [Rule.lookup, Rule.run, pinModePinHandler.run, insertAtBeginLoc, hp])

theorem matchNode_matched (ancestors : List Stmt) (n : Node) (m : MatchResult)
    (hm : m ∈ matchNode ancestors n) :
    m.rule ∈ registered ∧ ∃ a k, m.rule.matcher a k = some m.Nodes := by
  simp only [matchNode, List.mem_filterMap, Option.map_eq_some'] at hm
  obtain ⟨r, hr, Nodes, hN, rfl⟩ := hm
  exact ⟨hr, ancestors, n, hN⟩

mutual
/-- Every match of the traversal of a declaration was bound by the matcher of a
registered rule. -/
theorem TraverseDecl_matched (ancestors : List Stmt) (D : Decl) (m : MatchResult)
    (hm : m ∈ TraverseDecl ancestors D) :
    m.rule ∈ registered ∧ ∃ a k, m.rule.matcher a k = some m.Nodes :=
  match D with
  | .mk info decls stmt => by
      simp only [TraverseDecl, List.mem_append] at hm
      rcases hm with (hm | hm) | hm
      · exact matchNode_matched _ _ m hm
      · exact TraverseDecls_matched ancestors decls m hm
      · exact TraverseOptStmt_matched ancestors stmt m hm
theorem TraverseDecls_matched (ancestors : List Stmt) (Ds : List Decl) (m : MatchResult)
    (hm : m ∈ TraverseDecls ancestors Ds) :
    m.rule ∈ registered ∧ ∃ a k, m.rule.matcher a k = some m.Nodes :=
  match Ds with
  | [] => by simp [TraverseDecls] at hm
  | d :: ds => by
      simp only [TraverseDecls, List.mem_append] at hm
      rcases hm with hm | hm
      · exact TraverseDecl_matched ancestors d m hm
      · exact TraverseDecls_matched ancestors ds m hm
theorem TraverseOptStmt_matched (ancestors : List Stmt) (S : Option Stmt) (m : MatchResult)
    (hm : m ∈ TraverseOptStmt ancestors S) :
    m.rule ∈ registered ∧ ∃ a k, m.rule.matcher a k = some m.Nodes :=
  match S with
  | none => by simp [TraverseOptStmt] at hm
  | some s => by
      simp only [TraverseOptStmt] at hm
      exact TraverseStmt_matched ancestors s m hm
theorem TraverseStmts_matched (ancestors : List Stmt) (Ss : List Stmt) (m : MatchResult)
    (hm : m ∈ TraverseStmts ancestors Ss) :
    m.rule ∈ registered ∧ ∃ a k, m.rule.matcher a k = some m.Nodes :=
  match Ss with
  | [] => by simp [TraverseStmts] at hm
  | s :: ss => by
      simp only [TraverseStmts, List.mem_append] at hm
      rcases hm with hm | hm
      · exact TraverseStmt_matched ancestors s m hm
      · exact TraverseStmts_matched ancestors ss m hm
theorem TraverseStmt_matched (ancestors : List Stmt) (S : Stmt) (m : MatchResult)
    (hm : m ∈ TraverseStmt ancestors S) :
    m.rule ∈ registered ∧ ∃ a k, m.rule.matcher a k = some m.Nodes :=
  match S with
  | .IfStmt ifLoc cond thenStmt elseStmt => by
      simp only [TraverseStmt, List.mem_append] at hm
      rcases hm with ((hm | hm) | hm) | hm
      · exact matchNode_matched _ _ m hm
      · exact TraverseStmt_matched _ cond m hm
      · exact TraverseStmt_matched _ thenStmt m hm
      · exact TraverseOptStmt_matched _ elseStmt m hm
  | .ForStmt forLoc init cond inc body => by
      simp only [TraverseStmt, List.mem_append] at hm
      rcases hm with (((hm | hm) | hm) | hm) | hm
      · exact matchNode_matched _ _ m hm
      · exact TraverseOptStmt_matched _ init m hm
      · exact TraverseOptStmt_matched _ cond m hm
      · exact TraverseOptStmt_matched _ inc m hm
      · exact TraverseStmt_matched _ body m hm
  | .CompoundStmt lBraceLoc rBraceLoc body => by
      simp only [TraverseStmt, List.mem_append] at hm
      rcases hm with hm | hm
      · exact matchNode_matched _ _ m hm
      · exact TraverseStmts_matched _ body m hm
  | .DeclStmt beginLoc endLoc decls => by
      simp only [TraverseStmt, List.mem_append] at hm
      rcases hm with hm | hm
      · exact matchNode_matched _ _ m hm
      · exact TraverseDecls_matched _ decls m hm
  | .IntegerLiteral loc value type => by
      simp only [TraverseStmt] at hm
      exact matchNode_matched _ _ m hm
  | .DeclRefExpr qualifierLoc nameLoc decl foundDecl type => by
      simp only [TraverseStmt] at hm
      exact matchNode_matched _ _ m hm
  | .UnaryOperator opLoc opcode isPostfixOp subExpr type => by
      simp only [TraverseStmt, List.mem_append] at hm
      rcases hm with hm | hm
      · exact matchNode_matched _ _ m hm
      · exact TraverseStmt_matched _ subExpr m hm
  | .BinaryOperator opcode lhs rhs type => by
      simp only [TraverseStmt, List.mem_append] at hm
      rcases hm with (hm | hm) | hm
      · exact matchNode_matched _ _ m hm
      · exact TraverseStmt_matched _ lhs m hm
      · exact TraverseStmt_matched _ rhs m hm
  | .CallExpr callee args rParenLoc type => by
      simp only [TraverseStmt, List.mem_append] at hm
      rcases hm with (hm | hm) | hm
      · exact matchNode_matched _ _ m hm
      · exact TraverseStmt_matched _ callee m hm
      · exact TraverseStmts_matched _ args m hm
  | .ImplicitCastExpr subExpr type => by
      simp only [TraverseStmt, List.mem_append] at hm
      rcases hm with hm | hm
      · exact matchNode_matched _ _ m hm
      · exact TraverseStmt_matched _ subExpr m hm
  | .ParenExpr lParenLoc rParenLoc subExpr type => by
      simp only [TraverseStmt, List.mem_append] at hm
      rcases hm with hm | hm
      · exact matchNode_matched _ _ m hm
      · exact TraverseStmt_matched _ subExpr m hm
  | .OtherStmt beginLoc endLoc children type => by
      simp only [TraverseStmt, List.mem_append] at hm
      rcases hm with hm | hm
      · exact matchNode_matched _ _ m hm
      · exact TraverseStmts_matched _ children m hm
end

theorem runHandlers_total : ∀ (ms : List MatchResult),
    (∀ m ∈ ms, (m.rule.run m.Nodes).isSome = true) → ∃ calls, runHandlers ms = some calls
  | [], _ => ⟨[], rfl⟩
  | m :: ms, h => by
      obtain ⟨rest, hrest⟩ := runHandlers_total ms (fun k hk => h k (List.mem_cons_of_mem _ hk))
      obtain ⟨calls, hcalls⟩ := Option.isSome_iff_exists.mp (h m (List.mem_cons_self _ _))
      exact ⟨calls ++ rest, by simp [runHandlers, hcalls, hrest]⟩

/-- The run over a translation unit never reaches a failed lookup. -/
theorem HandleTranslationUnit_total (tu : List Decl) :
    ∃ calls, HandleTranslationUnit tu = some calls := by
  apply runHandlers_total
  intro m hm
  obtain ⟨_, a, k, hk⟩ := TraverseDecls_matched [] tu m hm
  exact (matcher_binds_lookup m.rule a k m.Nodes hk).2

theorem lookup_is_unchecked (r : Rule) (hr : r ≠ .HandlerForIf) (Nodes : BoundNodes)
    (h : getNodeAs Nodes r.lookup.1 r.lookup.2 = none) : r.run Nodes = none := by
  cases r <;> first
    | exact absurd rfl hr
    | (simp only [Rule.lookup] at h
       simp [Rule.run, IncrementForLoopHandler.run, pinModeVariableHandler.run,
         loopExprHandler.run, delayHandler.run, setupHandler.run, compoundStmtHandler.run,
         powerHandler.run, sqrtHandler.run, sinHandler.run, cosHandler.run, tanHandler.run,
         delayMicrosecondsHandler.run, millisHandler.run, microsHandler.run, pulseInHandler.run,
         pinModePinHandler.run, inputHandler.run, outputHandler.run, inputpullupHandler.run,
         isAlphaHandler.run, isAlphaVarHandler.run, isAlphaNumericHandler.run,
         isAlphaNumericVarHandler.run, isAsciiHandler.run, isAsciiVarHandler.run,
         isDigitHandler.run, isDigitVarHandler.run, isLowerCaseHandler.run,
         isLowerCaseVarHandler.run, isPunctHandler.run, isPunctVarHandler.run,
         isSpaceHandler.run, isSpaceVarHandler.run, isUpperCaseHandler.run,
         isUpperCaseVarHandler.run, isWhitespaceHandler.run, isWhitespaceVarHandler.run,
         analogReadHandler.run, analogWriteHandler.run, digitalReadHandler.run,
         digitalWriteHandler.run, piHandler.run, eulerHandler.run, replaceAndComment,
         replaceAtBeginLoc, insertAtBeginLoc, h])

/-- C18: each of the 44 handlers is registered exactly once; whenever the
matcher a handler is registered with matches, it binds the identifier the
handler looks up to a node of the class the handler casts to, so that the
lookup succeeds and the handler runs to its end; the handlers other than the if
handler dereference the result unchecked, and in a run over any translation
unit no handler reaches a failed lookup. -/
theorem handlers_find_their_bound_node :
    registered.length = 44
    ∧ (∀ r : Rule, registered.count r = 1)
    ∧ (∀ (r : Rule) (ancestors : List Stmt) (n : Node) (Nodes : BoundNodes),
        r.matcher ancestors n = some Nodes →
          (getNodeAs Nodes r.lookup.1 r.lookup.2).isSome = true ∧ (r.run Nodes).isSome = true)
    ∧ (∀ (r : Rule) (Nodes : BoundNodes), r ≠ .HandlerForIf →
        getNodeAs Nodes r.lookup.1 r.lookup.2 = none → r.run Nodes = none)
    ∧ (∀ tu : List Decl, (∀ m ∈ matchAST tu, (m.rule.run m.Nodes).isSome = true)
        ∧ ∃ calls, HandleTranslationUnit tu = some calls) := by
  refine ⟨rfl, ?_, matcher_binds_lookup, fun r Nodes hr h => lookup_is_unchecked r hr Nodes h, ?_⟩
  · intro r
    cases r <;> decide
  · intro tu
    refine ⟨fun m hm => ?_, HandleTranslationUnit_total tu⟩
    obtain ⟨_, a, k, hk⟩ := TraverseDecls_matched [] tu m hm
    exact (matcher_binds_lookup m.rule a k m.Nodes hk).2

/-! ## C16: the rules for the mathematical functions -/

/-- C16, at the main file `double y = pow(2, 3);`: when the name `pow` is found
without a using-declaration the pow rule does not match the callee, the run
submits no edit and the output is the source; only when the name is found
through a using-declaration is `math.` inserted before `pow`. -/
theorem pow_without_using_declaration_is_not_rewritten :
    (∀ m ∈ matchAST (Examples.powTU Examples.plainPowCall), m.rule ≠ .HandlerForPower)
    ∧ HandleTranslationUnit (Examples.powTU Examples.plainPowCall) = some []
    ∧ runTool Examples.powSource (Examples.powTU Examples.plainPowCall)
        = some ⟨"double y = pow(2, 3);", "double y = pow(2, 3);"⟩
    ∧ HandleTranslationUnit (Examples.powTU Examples.usingPowCall)
        = some [.InsertText (Examples.L 11) "math." true true]
    ∧ runTool Examples.powSource (Examples.powTU Examples.usingPowCall)
        = some ⟨"double y = math.pow(2, 3);", "double y = math.pow(2, 3);"⟩ := by
  refine ⟨by decide, by decide, by decide, by decide, by decide⟩

/-! ## C19: the pattern inserted before the argument of a character test -/

/-- C19, at the main file `bool b = isDigit(c);`: the text the isDigitVar rule
inserts before `c` is the quoted pattern followed by a space, with no comma, and
the rewritten call reads `ure.match('\d' c)`; the isAsciiVar and isPunctVar
handlers insert a text without a comma as well, while the isAlphaVar handler
inserts the pattern followed by a comma and a space. -/
theorem isDigitVar_rule_inserts_no_comma :
    HandleTranslationUnit Examples.isDigitTU
        = some [.ReplaceText ⟨Examples.L 9, Examples.L 9⟩ "ure.match",
                .InsertText (Examples.L 9) "#import ure at start of code\n" true true,
                .InsertText (Examples.L 17) "'\\d' " true false]
    ∧ runTool Examples.isDigitSource Examples.isDigitTU
        = some ⟨"bool b = #import ure at start of code\nure.match('\\d' c);",
                "bool b = #import ure at start of code\nure.match('\\d' c);"⟩
    ∧ isAsciiVarHandler.run [("isAsciiVar", .stmt Examples.isDigitArg)]
        = some [.InsertText (Examples.L 17) "'\\w\\W' " true false]
    ∧ isPunctVarHandler.run [("isPunctVar", .stmt Examples.isDigitArg)]
        = some [.InsertText (Examples.L 17) "'\\W' " true false]
    ∧ isAlphaVarHandler.run [("isAlphaVar", .stmt Examples.isDigitArg)]
        = some [.InsertText (Examples.L 17) "'[A-Za-z]', " true false] := by
  refine ⟨by decide, by decide, by decide, by decide, by decide⟩

/-! ## C20: the anchor of the pin-number rule -/

/-- C20, at the main file `void setup() {` newline `  pinMode(a + 1, OUTPUT);`
newline `}`: the pinModePin matcher binds the expression `a + 1`, which is not
an integer literal but has one as a child, and the handler inserts `p` at the
first character of the expression, in front of `a`. -/
theorem pinModePin_rule_inserts_before_a_variable :
    integerLiteral Examples.pinExprArg = false
    ∧ Rule.fire .HandlerForPinModePin
        [.ImplicitCastExpr Examples.pinExprArg Examples.intTy, Examples.pinExprCall,
          .CompoundStmt (Examples.L 13) (Examples.L 41) [Examples.pinExprCall]]
        (.stmt Examples.pinExprArg)
        = some (some [.InsertText (Examples.L 25) "p" true true])
    ∧ RewriteCall.InsertText (Examples.L 25) "p" true true
        ∈ (HandleTranslationUnit Examples.pinExprTU).getD []
    ∧ (Examples.pinExprSource.toList.drop 25).take 5 = "a + 1".toList
    ∧ (runTool Examples.pinExprSource Examples.pinExprTU).map Sinks.outs
        = some " #\x7b\n  #from machine import pin at start of code\n  Pin.mode(pa + 1, OUT);\n#\x7d" := by
  refine ⟨by decide, by decide, by decide, by decide, by decide⟩

/-! ## C17: two insertions at the same offset -/

theorem take_drop_insert (buf A : List Char) (R : Nat) :
    (buf.take R ++ A ++ buf.drop R).take (R + A.length) = buf.take R ++ A
    ∧ (buf.take R ++ A ++ buf.drop R).drop (R + A.length) = buf.drop R := by
  rcases Nat.le_total R buf.length with h | h
  · have hT : (buf.take R).length = R := by simp [h]
    have hTA : (buf.take R ++ A).length = R + A.length := by simp [hT]
    constructor
    · rw [← hTA, List.take_left']
      rfl
    · rw [← hTA, List.drop_left']
      rfl
  · have hT : buf.take R = buf := List.take_of_length_le h
    have hD : buf.drop R = [] := List.drop_of_length_le h
    rw [hT, hD]
    constructor
    · rw [List.append_nil]
      apply List.take_of_length_le
      simp
      omega
    · rw [List.append_nil]
      apply List.drop_of_length_le
      simp
      omega

theorem getDeltaAt_cons (RB : RewriteBuffer) (k : Nat) (d : Int) (i : Nat) (B : List Char) :
    RewriteBuffer.getDeltaAt ⟨B, (k, d) :: RB.Deltas⟩ i
      = (if k < i then d else 0) + RB.getDeltaAt i := by
  unfold RewriteBuffer.getDeltaAt
  by_cases h : k < i <;> simp [List.filter_cons, h]

/-- An insertion of a text that is not empty succeeds exactly when the offset
maps into the buffer, and then splices the text in at the mapped offset. -/
theorem InsertText_cons (RB : RewriteBuffer) (o : Nat) (a : Char) (A : List Char)
    (InsertAfter : Bool) :
    RB.InsertText o (a :: A) InsertAfter
      = if 0 ≤ RB.getMappedOffset o InsertAfter
            ∧ RB.getMappedOffset o InsertAfter ≤ (RB.Buffer.length : Int)
        then some ⟨RB.Buffer.take (RB.getMappedOffset o InsertAfter).toNat ++ (a :: A)
                    ++ RB.Buffer.drop (RB.getMappedOffset o InsertAfter).toNat,
                  (2 * o, ((a :: A).length : Int)) :: RB.Deltas⟩
        else none := by
  simp [RewriteBuffer.InsertText, RewriteBuffer.inBounds]

/-- Two insertions after the earlier insertions at one offset: when both
succeed, the second text follows the first. -/
theorem two_inserts_at_one_offset (RB RB2 : RewriteBuffer) (o : Nat) (A B : List Char)
    (h : (RB.InsertText o A true).bind (fun RB1 => RB1.InsertText o B true) = some RB2) :
    RB2.Buffer = RB.Buffer.take (RB.getMappedOffset o true).toNat ++ A ++ B
          ++ RB.Buffer.drop (RB.getMappedOffset o true).toNat := by
  cases A with
  | nil =>
    cases B with
    | nil =>
      simp only [RewriteBuffer.InsertText, List.isEmpty_nil, if_true, Option.some_bind,
        Option.some.injEq] at h
      subst h
      simp
    | cons b B =>
      have h0 : RB.InsertText o [] true = some RB := by simp [RewriteBuffer.InsertText]
      rw [h0, Option.some_bind, InsertText_cons] at h
      split at h
      · simp only [Option.some.injEq] at h
        subst h
        simp
      · simp at h
  | cons a A =>
    rw [InsertText_cons] at h
    split at h
    · next hb =>
      simp only [Option.some_bind] at h
      have hR2 : RewriteBuffer.getMappedOffset
          ⟨RB.Buffer.take (RB.getMappedOffset o true).toNat ++ (a :: A)
              ++ RB.Buffer.drop (RB.getMappedOffset o true).toNat,
            (2 * o, ((a :: A).length : Int)) :: RB.Deltas⟩ o true
          = RB.getMappedOffset o true + ((a :: A).length : Int) := by
        unfold RewriteBuffer.getMappedOffset
        simp only [if_true]
        rw [getDeltaAt_cons]
        have : 2 * o < 2 * o + 1 := by omega
        simp only [this, if_true]
        omega
      obtain ⟨h1, h2⟩ := take_drop_insert RB.Buffer (a :: A) (RB.getMappedOffset o true).toNat
      have hT : (RB.getMappedOffset o true + ((a :: A).length : Int)).toNat
          = (RB.getMappedOffset o true).toNat + (a :: A).length := by
        omega
      cases B with
      | nil =>
        simp only [RewriteBuffer.InsertText, List.isEmpty_nil, if_true, Option.some.injEq] at h
        subst h
        simp
      | cons b B =>
        rw [InsertText_cons, hR2] at h
        split at h
        · simp only [Option.some.injEq] at h
          subst h
          simp only [hT, h1, h2]
        · simp at h
    · simp at h

theorem InsertText_isSome (RB : RewriteBuffer) (o : Nat) (S : List Char) (InsertAfter : Bool)
    (hpos : 0 ≤ RB.getMappedOffset o InsertAfter)
    (hle : RB.getMappedOffset o InsertAfter ≤ (RB.Buffer.length : Int)) :
    (RB.InsertText o S InsertAfter).isSome = true := by
  cases S with
  | nil => simp [RewriteBuffer.InsertText]
  | cons a A => rw [InsertText_cons, if_pos ⟨hpos, hle⟩]; rfl

/-- Two insertions at one offset succeed when the offset maps into the
buffer. -/
theorem two_inserts_at_one_offset_total (RB : RewriteBuffer) (o : Nat) (A B : List Char)
    (hpos : 0 ≤ RB.getMappedOffset o true)
    (hle : RB.getMappedOffset o true ≤ (RB.Buffer.length : Int)) :
    ∃ RB2, (RB.InsertText o A true).bind (fun RB1 => RB1.InsertText o B true) = some RB2 := by
  apply Option.isSome_iff_exists.mp
  cases A with
  | nil =>
    have h0 : RB.InsertText o [] true = some RB := by simp [RewriteBuffer.InsertText]
    rw [h0, Option.some_bind]
    exact InsertText_isSome RB o B true hpos hle
  | cons a A =>
    rw [InsertText_cons, if_pos ⟨hpos, hle⟩, Option.some_bind]
    have hR2 : RewriteBuffer.getMappedOffset
        ⟨RB.Buffer.take (RB.getMappedOffset o true).toNat ++ (a :: A)
            ++ RB.Buffer.drop (RB.getMappedOffset o true).toNat,
          (2 * o, ((a :: A).length : Int)) :: RB.Deltas⟩ o true
        = RB.getMappedOffset o true + ((a :: A).length : Int) := by
      unfold RewriteBuffer.getMappedOffset
      simp only [if_true]
      rw [getDeltaAt_cons]
      have : 2 * o < 2 * o + 1 := by omega
      simp only [this, if_true]
      omega
    have hlen : ((RB.Buffer.take (RB.getMappedOffset o true).toNat ++ (a :: A)
        ++ RB.Buffer.drop (RB.getMappedOffset o true).toNat).length : Int)
        = RB.Buffer.length + ((a :: A).length : Int) := by
      have := congrArg List.length
        (List.take_append_drop (RB.getMappedOffset o true).toNat RB.Buffer)
      simp only [List.length_append] at this ⊢
      push_cast
      omega
    apply InsertText_isSome
    · rw [hR2]; omega
    · rw [hR2]
      simp only [hlen]
      omega

theorem insertedStr_ifPart (src : String) (Loc : SourceLocation) :
    insertedStr src Loc "#if part\n" true
      = "#if part\n".toList
        ++ (src.toList.drop (lineStart src.toList Loc.offset)).takeWhile isWhitespaceExceptNL := by
  have h : "#if part\n".toList = ['#', 'i', 'f', ' ', 'p', 'a', 'r', 't', '\n'] := rfl
  rw [h]
  simp [insertedStr, indentedStr, List.flatMap_cons]

theorem insertedStr_hash (src : String) (Loc : SourceLocation) (i : Bool) :
    insertedStr src Loc "#" i = ['#'] := by
  have h : "#".toList = ['#'] := rfl
  simp [insertedStr, h]

theorem matchNode_compound (ancestors : List Stmt) (lb rb : SourceLocation) (body : List Stmt)
    (h : lb.file = mainFileID) :
    ∃ rest, matchNode ancestors (.stmt (.CompoundStmt lb rb body))
      = ⟨.HandlerForCompoundStmt, [("compoundstmt", .stmt (.CompoundStmt lb rb body))]⟩ :: rest := by
  refine ⟨(registered.drop 7).filterMap fun r =>
    (r.matcher ancestors (.stmt (.CompoundStmt lb rb body))).map (MatchResult.mk r), ?_⟩
  have hm : isExpansionInMainFile lb = true := (isExpansionInMainFile_iff lb).mpr h
  simp [matchNode, registered, List.filterMap_cons, Rule.matcher, ifStmtMatcher, forStmtMatcher,
    callExprMatcher, loopexprMatcher, setupfuncMatcher, compoundStmtMatcher, hm]

/-- The calls of the traversal of an if statement without else whose
then-branch is a block of the main file. -/
theorem if_then_block_calls (ancestors : List Stmt) (ifLoc lb rb : SourceLocation) (cond : Stmt)
    (body : List Stmt) (hBrace : lb.file = mainFileID)
    (hNode : matchNode ancestors (.stmt (.IfStmt ifLoc cond (.CompoundStmt lb rb body) none))
      = [⟨.HandlerForIf, [("ifStmt", .stmt (.IfStmt ifLoc cond (.CompoundStmt lb rb body) none))]⟩])
    (hCond : TraverseStmt (.IfStmt ifLoc cond (.CompoundStmt lb rb body) none :: ancestors) cond
      = []) :
    ∃ rest, runHandlers
        (TraverseStmt ancestors (.IfStmt ifLoc cond (.CompoundStmt lb rb body) none))
      = some (.InsertText lb "#if part\n" true true :: .InsertText lb "#" true true
          :: .InsertText rb "#" true true :: rest) := by
  obtain ⟨tail, htail⟩ := matchNode_compound
    (.IfStmt ifLoc cond (.CompoundStmt lb rb body) none :: ancestors) lb rb body hBrace
  have hT : TraverseStmt ancestors (.IfStmt ifLoc cond (.CompoundStmt lb rb body) none)
      = ⟨.HandlerForIf, [("ifStmt", .stmt (.IfStmt ifLoc cond (.CompoundStmt lb rb body) none))]⟩
        :: ⟨.HandlerForCompoundStmt, [("compoundstmt", .stmt (.CompoundStmt lb rb body))]⟩
        :: (tail ++ TraverseStmts (.CompoundStmt lb rb body
              :: .IfStmt ifLoc cond (.CompoundStmt lb rb body) none :: ancestors) body) := by
    rw [TraverseStmt, hNode, hCond]
    simp only [TraverseStmt, TraverseOptStmt, htail]
    simp
  have hAll : ∀ m ∈ TraverseStmt ancestors
      (.IfStmt ifLoc cond (.CompoundStmt lb rb body) none), (m.rule.run m.Nodes).isSome = true := by
    intro m hm
    obtain ⟨_, a, k, hk⟩ := TraverseStmt_matched _ _ m hm
    exact (matcher_binds_lookup m.rule a k m.Nodes hk).2
  rw [hT] at hAll ⊢
  obtain ⟨rest, hrest⟩ := runHandlers_total _
    (fun m hm => hAll m (List.mem_cons_of_mem _ (List.mem_cons_of_mem _ hm)))
  refine ⟨rest, ?_⟩
  simp [runHandlers, hrest, Rule.run, IfStmtHandler.run, compoundStmtHandler.run, getNodeAs,
    List.lookup, DynTypedNode.isa, Stmt.getBeginLoc, Stmt.getEndLoc, DynTypedNode.getBeginLoc,
    DynTypedNode.getEndLoc]

/-- C17, at the main file `void f(int x) {` newline `  if (x) {` newline `  }`
newline `}`, where the if statement is indented by two spaces: the if rule and
the block rule both insert at the brace at offset 25, the if rule first, and
the output reads `#if part`, newline, two spaces, `#{`: the indentation of the
line stands between the newline and the `#`. -/
theorem if_part_is_followed_by_the_line_indentation :
    HandleTranslationUnit Examples.indentedIfTU
        = some [.InsertText (Examples.L 14) "#" true true,
                .InsertText (Examples.L 31) "#" true true,
                .InsertText (Examples.L 25) "#if part\n" true true,
                .InsertText (Examples.L 25) "#" true true,
                .InsertText (Examples.L 29) "#" true true]
    ∧ runTool Examples.indentedIfSource Examples.indentedIfTU
        = some ⟨"void f(int x) #\x7b\n  if (x) #if part\n  #\x7b\n  #\x7d\n#\x7d",
                "void f(int x) #\x7b\n  if (x) #if part\n  #\x7b\n  #\x7d\n#\x7d"⟩
    ∧ (((runTool Examples.indentedIfSource Examples.indentedIfTU).map Sinks.outs).getD
          "").toList.drop 26
        ≠ "#if part\n#\x7b".toList
          ++ ((((runTool Examples.indentedIfSource Examples.indentedIfTU).map Sinks.outs).getD
            "").toList.drop 37) := by
  refine ⟨by decide, by decide, by decide⟩

/-- C17, amended: when two insertions are submitted one after the other at
the same offset of the main file, both are kept and the buffer holds the first
text, then the second, before the text that followed the offset; both
succeed when the offset maps into the buffer.  For an if statement without
else whose then-branch is a block of the main file, and whose node and
condition no other rule matches, the if rule runs first and the calls start
with the insertion of `#if part` and a newline at the opening brace, followed
by the insertion of `#` at the same brace; the text inserted by the first call
is `#if part`, a newline and the leading whitespace of the line of the brace,
so that the buffer reads `#if part`, newline, that whitespace, `#`, and then
the brace. -/
theorem if_and_block_inserts_at_the_brace (src : String) (RB : RewriteBuffer)
    (ancestors : List Stmt) (ifLoc lBraceLoc rBraceLoc : SourceLocation) (cond : Stmt)
    (body : List Stmt)
    (hBrace : lBraceLoc.file = mainFileID)
    (hNode : matchNode ancestors
        (.stmt (.IfStmt ifLoc cond (.CompoundStmt lBraceLoc rBraceLoc body) none))
      = [⟨.HandlerForIf,
          [("ifStmt", .stmt (.IfStmt ifLoc cond (.CompoundStmt lBraceLoc rBraceLoc body) none))]⟩])
    (hCond : TraverseStmt
        (.IfStmt ifLoc cond (.CompoundStmt lBraceLoc rBraceLoc body) none :: ancestors) cond = [])
    (hpos : 0 ≤ RB.getDeltaAt (2 * lBraceLoc.offset + 1) + lBraceLoc.offset) :
    (∃ rest, runHandlers (TraverseStmt ancestors
          (.IfStmt ifLoc cond (.CompoundStmt lBraceLoc rBraceLoc body) none))
        = some (.InsertText lBraceLoc "#if part\n" true true
            :: .InsertText lBraceLoc "#" true true
            :: .InsertText rBraceLoc "#" true true :: rest))
    ∧ (∀ (A B : String) (iA iB : Bool) (RB2 : RewriteBuffer),
        (applyCall src RB (.InsertText lBraceLoc A true iA)).bind
            (fun RB1 => applyCall src RB1 (.InsertText lBraceLoc B true iB)) = some RB2 →
        RB2.Buffer = RB.Buffer.take (RB.getMappedOffset lBraceLoc.offset true).toNat
              ++ insertedStr src lBraceLoc A iA ++ insertedStr src lBraceLoc B iB
              ++ RB.Buffer.drop (RB.getMappedOffset lBraceLoc.offset true).toNat)
    ∧ (∀ RB2 : RewriteBuffer,
        (applyCall src RB (.InsertText lBraceLoc "#if part\n" true true)).bind
            (fun RB1 => applyCall src RB1 (.InsertText lBraceLoc "#" true true)) = some RB2 →
        RB2.Buffer = RB.Buffer.take (RB.getMappedOffset lBraceLoc.offset true).toNat
            ++ ("#if part\n".toList
                ++ (src.toList.drop (lineStart src.toList lBraceLoc.offset)).takeWhile
                    isWhitespaceExceptNL)
            ++ ['#']
            ++ RB.Buffer.drop (RB.getMappedOffset lBraceLoc.offset true).toNat)
    ∧ (RB.getMappedOffset lBraceLoc.offset true ≤ (RB.Buffer.length : Int) →
        ∀ (A B : String) (iA iB : Bool), ∃ RB2,
          (applyCall src RB (.InsertText lBraceLoc A true iA)).bind
            (fun RB1 => applyCall src RB1 (.InsertText lBraceLoc B true iB)) = some RB2) := by
  have hTwo : ∀ (A B : String) (iA iB : Bool) (RB2 : RewriteBuffer),
      (applyCall src RB (.InsertText lBraceLoc A true iA)).bind
          (fun RB1 => applyCall src RB1 (.InsertText lBraceLoc B true iB)) = some RB2 →
      RB2.Buffer = RB.Buffer.take (RB.getMappedOffset lBraceLoc.offset true).toNat
            ++ insertedStr src lBraceLoc A iA ++ insertedStr src lBraceLoc B iB
            ++ RB.Buffer.drop (RB.getMappedOffset lBraceLoc.offset true).toNat := by
    intro A B iA iB RB2 h
    simp only [applyCall, hBrace, if_true] at h
    exact two_inserts_at_one_offset RB RB2 lBraceLoc.offset _ _ h
  refine ⟨if_then_block_calls ancestors ifLoc lBraceLoc rBraceLoc cond body hBrace hNode hCond,
    hTwo, ?_, ?_⟩
  · intro RB2 h
    rw [hTwo _ _ _ _ RB2 h, insertedStr_ifPart, insertedStr_hash]
  · intro hle A B iA iB
    simp only [applyCall, hBrace, if_true]
    exact two_inserts_at_one_offset_total RB lBraceLoc.offset _ _
      (by simpa [RewriteBuffer.getMappedOffset] using hpos) hle

/-- C17, at the if statement of `indentedIfSource` and the unedited buffer:
the calls start with the two insertions at offset 25, both succeed, and the
buffer reads `#if part`, newline, two spaces, `#` before the brace. -/
theorem if_and_block_inserts_at_the_brace_witness :
    (Examples.L 25).file = mainFileID
    ∧ matchNode [Examples.indentedIfParent] (.stmt Examples.indentedIf)
        = [⟨.HandlerForIf, [("ifStmt", .stmt Examples.indentedIf)]⟩]
    ∧ TraverseStmt [Examples.indentedIf, Examples.indentedIfParent]
        (.ImplicitCastExpr (Examples.rvalue Examples.ifParamDecl 22) Examples.boolTy) = []
    ∧ (0 : Int) ≤ (RewriteBuffer.Initialize Examples.indentedIfSource).getDeltaAt
          (2 * (Examples.L 25).offset + 1) + (Examples.L 25).offset
    ∧ ((applyCall Examples.indentedIfSource
            (RewriteBuffer.Initialize Examples.indentedIfSource)
            (.InsertText (Examples.L 25) "#if part\n" true true)).bind
          (fun RB1 => applyCall Examples.indentedIfSource RB1
            (.InsertText (Examples.L 25) "#" true true))).map
          (fun RB2 => String.mk RB2.Buffer)
        = some "void f(int x) \x7b\n  if (x) #if part\n  #\x7b\n  \x7d\n\x7d"
    ∧ ((∃ rest, runHandlers (TraverseStmt [Examples.indentedIfParent]
            (.IfStmt (Examples.L 18)
              (.ImplicitCastExpr (Examples.rvalue Examples.ifParamDecl 22) Examples.boolTy)
              (.CompoundStmt (Examples.L 25) (Examples.L 29) []) none))
          = some (.InsertText (Examples.L 25) "#if part\n" true true
              :: .InsertText (Examples.L 25) "#" true true
              :: .InsertText (Examples.L 29) "#" true true :: rest))
      ∧ (∀ (A B : String) (iA iB : Bool) (RB2 : RewriteBuffer),
          (applyCall Examples.indentedIfSource
              (RewriteBuffer.Initialize Examples.indentedIfSource)
              (.InsertText (Examples.L 25) A true iA)).bind
            (fun RB1 => applyCall Examples.indentedIfSource RB1
              (.InsertText (Examples.L 25) B true iB)) = some RB2 →
          RB2.Buffer = (RewriteBuffer.Initialize Examples.indentedIfSource).Buffer.take
                  ((RewriteBuffer.Initialize Examples.indentedIfSource).getMappedOffset
                    (Examples.L 25).offset true).toNat
                ++ insertedStr Examples.indentedIfSource (Examples.L 25) A iA
                ++ insertedStr Examples.indentedIfSource (Examples.L 25) B iB
                ++ (RewriteBuffer.Initialize Examples.indentedIfSource).Buffer.drop
                  ((RewriteBuffer.Initialize Examples.indentedIfSource).getMappedOffset
                    (Examples.L 25).offset true).toNat)
      ∧ (∀ RB2 : RewriteBuffer,
          (applyCall Examples.indentedIfSource
              (RewriteBuffer.Initialize Examples.indentedIfSource)
              (.InsertText (Examples.L 25) "#if part\n" true true)).bind
            (fun RB1 => applyCall Examples.indentedIfSource RB1
              (.InsertText (Examples.L 25) "#" true true)) = some RB2 →
          RB2.Buffer = (RewriteBuffer.Initialize Examples.indentedIfSource).Buffer.take
                ((RewriteBuffer.Initialize Examples.indentedIfSource).getMappedOffset
                  (Examples.L 25).offset true).toNat
              ++ ("#if part\n".toList
                  ++ (Examples.indentedIfSource.toList.drop
                        (lineStart Examples.indentedIfSource.toList
                          (Examples.L 25).offset)).takeWhile isWhitespaceExceptNL)
              ++ ['#']
              ++ (RewriteBuffer.Initialize Examples.indentedIfSource).Buffer.drop
                ((RewriteBuffer.Initialize Examples.indentedIfSource).getMappedOffset
                  (Examples.L 25).offset true).toNat)
      ∧ ((RewriteBuffer.Initialize Examples.indentedIfSource).getMappedOffset
            (Examples.L 25).offset true
            ≤ ((RewriteBuffer.Initialize Examples.indentedIfSource).Buffer.length : Int) →
          ∀ (A B : String) (iA iB : Bool), ∃ RB2,
            (applyCall Examples.indentedIfSource
                (RewriteBuffer.Initialize Examples.indentedIfSource)
                (.InsertText (Examples.L 25) A true iA)).bind
              (fun RB1 => applyCall Examples.indentedIfSource RB1
                (.InsertText (Examples.L 25) B true iB)) = some RB2)) :=
  ⟨rfl, by rfl, by rfl, by decide, by decide,
    if_and_block_inserts_at_the_brace Examples.indentedIfSource
      (RewriteBuffer.Initialize Examples.indentedIfSource) [Examples.indentedIfParent]
      (Examples.L 18) (Examples.L 25) (Examples.L 29)
      (.ImplicitCastExpr (Examples.rvalue Examples.ifParamDecl 22) Examples.boolTy) []
      rfl (by rfl) (by rfl) (by decide)⟩

/-! ## C13: a function `loop` with a call to `delay` -/

/-- At the main file `void loop();` without a newline at its end, the first
two calls of the loop handler leave the 15 characters `While True: ();`; the
third call asks the rope to erase four characters at offset 12 of that
buffer, the assertion of `RewriteRope::erase` fails and nothing is written. -/
theorem loop_declaration_at_end_of_file_fails :
    HandleTranslationUnit Examples.loopProtoTU
        = some [.RemoveText ⟨Examples.L 5, Examples.L 5⟩,
                .ReplaceText ⟨Examples.L 0, Examples.L 0⟩ "While True:",
                .ReplaceText ⟨Examples.L 5, Examples.L 5⟩ " "]
    ∧ rewrittenText Examples.loopProtoSource
        [.RemoveText ⟨Examples.L 5, Examples.L 5⟩,
         .ReplaceText ⟨Examples.L 0, Examples.L 0⟩ "While True:"] = some "While True: ();"
    ∧ runTool Examples.loopProtoSource Examples.loopProtoTU = none := by
  refine ⟨by decide, by decide, by decide⟩

/-! ## The ranges the handlers submit -/

/-- Every replacement and removal a handler submits is the range of one
token: the handlers pass one location, which `SourceRange(loc)` turns into the
range from `loc` to `loc`. -/
theorem handlers_submit_single_token_ranges (r : Rule) (Nodes : BoundNodes)
    (calls : List RewriteCall) (h : r.run Nodes = some calls) :
    ∀ c ∈ calls, c.isSingleToken = true := by
  cases r <;>
    simp only [Rule.run, IfStmtHandler.run, IncrementForLoopHandler.run,
      pinModeVariableHandler.run, loopExprHandler.run, delayHandler.run, setupHandler.run,
      compoundStmtHandler.run, powerHandler.run, sqrtHandler.run, sinHandler.run, cosHandler.run,
      tanHandler.run, delayMicrosecondsHandler.run, millisHandler.run, microsHandler.run,
      pulseInHandler.run, pinModePinHandler.run, inputHandler.run, outputHandler.run,
      inputpullupHandler.run, isAlphaHandler.run, isAlphaVarHandler.run,
      isAlphaNumericHandler.run, isAlphaNumericVarHandler.run, isAsciiHandler.run,
      isAsciiVarHandler.run, isDigitHandler.run, isDigitVarHandler.run, isLowerCaseHandler.run,
      isLowerCaseVarHandler.run, isPunctHandler.run, isPunctVarHandler.run, isSpaceHandler.run,
      isSpaceVarHandler.run, isUpperCaseHandler.run, isUpperCaseVarHandler.run,
      isWhitespaceHandler.run, isWhitespaceVarHandler.run, analogReadHandler.run,
      analogWriteHandler.run, digitalReadHandler.run, digitalWriteHandler.run, piHandler.run,
      eulerHandler.run, replaceAndComment, replaceAtBeginLoc, insertAtBeginLoc] at h <;>
    split at h <;>
    first
    | (simp only [Option.some.injEq] at h
       subst h
       simp [RewriteCall.isSingleToken, SourceRange.ofLoc])
    | simp at h

end MicropyConvert
